import Mathlib

/-!
A verification model of the NATS `jwt.js` claims library.

This file gives a shallow embedding, in Lean 4, of the core of the
`nats-io/jwt.js` repository: the JSON value model used by the claims,
the base64 / base64url codecs (`src/base64.ts`), the key adapter
(`src/keys.ts`), the JWT encoders and decoder (`src/jwt.ts`) and the
classifier / equivalence utilities (`src/util.ts`).  JavaScript strings
are modelled as `List Char`, byte arrays as `List Nat` (with explicit
`< 256` bounds where they matter), JavaScript objects as ordered member
lists, and thrown exceptions as `Except` values.  The theorems at the
end of the file settle the specified properties of the library against
this embedding.
-/

set_option maxHeartbeats 1000000

/-- JavaScript string, modelled as its list of unicode scalars. -/
abbrev Str := List Char

mutual
/-- A JSON value as produced by `JSON.parse` / consumed by
`JSON.stringify`.  Objects keep their members in insertion order,
mirroring JavaScript property order; numbers are modelled as integers
(every numeric field the library produces is integral). -/
inductive Json where
| null : Json
| bool (b : Bool) : Json
| num (n : Int) : Json
| str (s : Str) : Json
| obj (ms : Members) : Json
| arr (es : Elems) : Json
deriving DecidableEq
inductive Members where
| nil : Members
| cons (k : Str) (v : Json) (rest : Members) : Members
deriving DecidableEq
inductive Elems where
| nil : Elems
| cons (v : Json) (rest : Elems) : Elems
deriving DecidableEq
end

/-- Look a key up in an object's member list (JavaScript property read:
first — and only, since assignment keeps keys unique — binding wins). -/
def Members.lookup : Members → Str → Option Json
| .nil, _ => none
| .cons k v rest, key => if k = key then some v else rest.lookup key

/-- JavaScript property assignment `o[k] = v`: update the binding in
place when the key is present, append it otherwise. -/
def Members.set : Members → Str → Json → Members
| .nil, key, val => .cons key val .nil
| .cons k v rest, key, val =>
    if k = key then .cons k val rest else .cons k v (rest.set key val)

/-- Number of members. -/
def Members.length : Members → Nat
| .nil => 0
| .cons _ _ rest => 1 + rest.length

/-- Number of elements. -/
def Elems.length : Elems → Nat
| .nil => 0
| .cons _ rest => 1 + rest.length

/-- Property read `o.k` on an arbitrary JSON value: `undefined` (here
`none`) unless the value is an object carrying the key.  (Reading a
property of a primitive yields `undefined` in JavaScript; reading from
`null`/`undefined` throws, which callers model separately.) -/
def Json.objLookup : Json → Str → Option Json
| .obj ms, key => ms.lookup key
| _, _ => none

/-- JavaScript truthiness of a JSON value. -/
def Json.truthy : Json → Bool
| .null => false
| .bool b => b
| .num n => n ≠ 0
| .str s => s ≠ []
| .obj _ => true
| .arr _ => true

/-- Truthiness of a possibly-absent (`undefined`) value. -/
def jsTruthy : Option Json → Bool
| none => false
| some v => v.truthy

/-- Decimal digit character. -/
def digitChar (d : Nat) : Char := Char.ofNat (48 + d)

/-- Decimal rendering worker; the fuel dominates the number so the
recursion is structural and computes inside the kernel. -/
def natStrAux : Nat → Nat → Str
| 0, _ => []
| fuel + 1, n =>
    if n < 10 then [digitChar n] else natStrAux fuel (n / 10) ++ [digitChar (n % 10)]

/-- Decimal rendering of a natural number, no leading zeros. -/
def natStr (n : Nat) : Str := natStrAux (n + 1) n

theorem natStrAux_irrel : ∀ (n fuel fuel' : Nat), n < fuel → n < fuel' →
    natStrAux fuel n = natStrAux fuel' n := by
  intro n
  induction n using Nat.strong_induction_on with
  | _ n ih =>
      intro fuel fuel' hf hf'
      obtain ⟨f, rfl⟩ : ∃ f, fuel = f + 1 := ⟨fuel - 1, by omega⟩
      obtain ⟨f', rfl⟩ : ∃ f, fuel' = f + 1 := ⟨fuel' - 1, by omega⟩
      · rw [natStrAux, natStrAux]
        by_cases h : n < 10
        · rw [if_pos h, if_pos h]
        · have hlt : n / 10 < n := Nat.div_lt_self (by omega) (by omega)
          rw [if_neg h, if_neg h,
            ih (n / 10) hlt f f' (by omega) (by omega)]

/-- The defining equation of `natStr` in its original recursive form. -/
theorem natStr_unfold (n : Nat) :
    natStr n = if n < 10 then [digitChar n] else natStr (n / 10) ++ [digitChar (n % 10)] := by
  show natStrAux (n + 1) n = _
  rw [natStrAux]
  by_cases h : n < 10
  · rw [if_pos h, if_pos h]
  · have hlt : n / 10 < n := Nat.div_lt_self (by omega) (by omega)
    rw [if_neg h, if_neg h,
      natStrAux_irrel (n / 10) n (n / 10 + 1) (by omega) (Nat.lt_succ_self _)]
    rfl

/-- `Number::toString` on an integral value: decimal digits with a
leading minus sign when negative. -/
def serNum (n : Int) : Str :=
  if n < 0 then '-' :: natStr n.natAbs else natStr n.natAbs

/-- Lowercase hexadecimal digit character. -/
def hexDig (n : Nat) : Char :=
  if n < 10 then digitChar n else Char.ofNat (87 + n)

/-- The escape `JSON.stringify` applies to one character of a string:
quote and backslash are backslash-escaped, the named control escapes are
used where they exist, any other control character becomes a
`\u00XX` escape, and everything else is emitted literally. -/
def escChar (c : Char) : Str :=
  if c = '"' then ['\\', '"']
  else if c = '\\' then ['\\', '\\']
  else if c = '\x08' then ['\\', 'b']
  else if c = '\x09' then ['\\', 't']
  else if c = '\x0a' then ['\\', 'n']
  else if c = '\x0c' then ['\\', 'f']
  else if c = '\x0d' then ['\\', 'r']
  else if c.toNat < 32 then
    ['\\', 'u', '0', '0', hexDig (c.toNat / 16), hexDig (c.toNat % 16)]
  else [c]

/-- `QuoteJSONString`: a double-quoted, escaped string literal. -/
def serQuote (s : Str) : Str := '"' :: (s.map escChar).flatten ++ ['"']

mutual
/-- `JSON.stringify(v, _, gap)` at nesting indentation `indent`
(ECMA-262 `SerializeJSONProperty`): `gap = []` is the compact form the
encoder uses, `gap = [' ']` the pretty form `equivalent` uses. -/
def serJson (gap indent : Str) : Json → Str
| .null => 'n' :: 'u' :: 'l' :: 'l' :: []
| .bool true => 't' :: 'r' :: 'u' :: 'e' :: []
| .bool false => 'f' :: 'a' :: 'l' :: 's' :: 'e' :: []
| .num n => serNum n
| .str s => serQuote s
| .obj .nil => '\x7b' :: '\x7d' :: []
| .obj (.cons k v rest) =>
    let ind := indent ++ gap
    if gap = [] then
      '\x7b' :: (serMembers gap ind (.cons k v rest) ++ '\x7d' :: [])
    else
      '\x7b' :: '\n' :: (ind ++ serMembers gap ind (.cons k v rest) ++
        '\n' :: indent ++ '\x7d' :: [])
| .arr .nil => '[' :: ']' :: []
| .arr (.cons v rest) =>
    let ind := indent ++ gap
    if gap = [] then
      '[' :: (serElems gap ind (.cons v rest) ++ ']' :: [])
    else
      '[' :: '\n' :: (ind ++ serElems gap ind (.cons v rest) ++
        '\n' :: indent ++ ']' :: [])

/-- Serialize a nonempty member list; the separator is `,` in compact
mode and `,\n` plus the current indentation in pretty mode, and the
colon is followed by a space exactly in pretty mode. -/
def serMembers (gap ind : Str) : Members → Str
| .nil => []
| .cons k v rest =>
    serQuote k ++ ':' :: (if gap = [] then [] else ' ' :: []) ++ serJson gap ind v ++
      (match rest with
      | .nil => []
      | .cons _ _ _ =>
          (if gap = [] then ',' :: [] else ',' :: '\n' :: ind) ++ serMembers gap ind rest)

/-- Serialize a nonempty element list (same separators as members). -/
def serElems (gap ind : Str) : Elems → Str
| .nil => []
| .cons v rest =>
    serJson gap ind v ++
      (match rest with
      | .nil => []
      | .cons _ _ =>
          (if gap = [] then ',' :: [] else ',' :: '\n' :: ind) ++ serElems gap ind rest)
end

mutual
/-- Structural size of a JSON value (used as parser fuel bound). -/
def Json.size : Json → Nat
| .null => 1
| .bool _ => 1
| .num _ => 1
| .str _ => 1
| .obj ms => 1 + ms.msize
| .arr es => 1 + es.esize

/-- Structural size of a member list. -/
def Members.msize : Members → Nat
| .nil => 0
| .cons _ v rest => 1 + v.size + rest.msize

/-- Structural size of an element list. -/
def Elems.esize : Elems → Nat
| .nil => 0
| .cons v rest => 1 + v.size + rest.esize
end

/-- JSON whitespace (space, tab, line feed, carriage return). -/
def isWsChar (c : Char) : Bool :=
  c = ' ' || c = '\x09' || c = '\x0a' || c = '\x0d'

/-- Drop leading JSON whitespace. -/
def skipWs : Str → Str
| [] => []
| c :: cs => if isWsChar c then skipWs cs else c :: cs

/-- ASCII decimal digit test. -/
def isDigitCh (c : Char) : Bool := 48 ≤ c.toNat && c.toNat ≤ 57

/-- Value of a decimal digit character. -/
def digVal (c : Char) : Nat := c.toNat - 48

/-- Consume a run of decimal digits, folding them onto `acc`. -/
def readDigits (acc : Nat) : Str → Nat × Str
| [] => (acc, [])
| c :: cs =>
    if isDigitCh c then readDigits (acc * 10 + digVal c) cs else (acc, c :: cs)

/-- Value of a hexadecimal digit character (either case). -/
def hexVal (c : Char) : Option Nat :=
  if 48 ≤ c.toNat && c.toNat ≤ 57 then some (c.toNat - 48)
  else if 97 ≤ c.toNat && c.toNat ≤ 102 then some (c.toNat - 87)
  else if 65 ≤ c.toNat && c.toNat ≤ 70 then some (c.toNat - 55)
  else none

/-- Parse the body of a JSON string literal (the opening quote already
consumed), returning the unescaped text and the remaining input. -/
def parseStrBody : Str → Option (Str × Str)
| [] => none
| c :: cs =>
    if c = '"' then some ([], cs)
    else if c = '\\' then
      match cs with
      | [] => none
      | e :: cs2 =>
        if e = '"' then (parseStrBody cs2).map (fun p => ('"' :: p.1, p.2))
        else if e = '\\' then (parseStrBody cs2).map (fun p => ('\\' :: p.1, p.2))
        else if e = '/' then (parseStrBody cs2).map (fun p => ('/' :: p.1, p.2))
        else if e = 'b' then (parseStrBody cs2).map (fun p => ('\x08' :: p.1, p.2))
        else if e = 'f' then (parseStrBody cs2).map (fun p => ('\x0c' :: p.1, p.2))
        else if e = 'n' then (parseStrBody cs2).map (fun p => ('\x0a' :: p.1, p.2))
        else if e = 'r' then (parseStrBody cs2).map (fun p => ('\x0d' :: p.1, p.2))
        else if e = 't' then (parseStrBody cs2).map (fun p => ('\x09' :: p.1, p.2))
        else if e = 'u' then
          match cs2 with
          | h1 :: h2 :: h3 :: h4 :: cs3 =>
              match hexVal h1, hexVal h2, hexVal h3, hexVal h4 with
              | some a, some b, some x, some d =>
                  let code := a * 4096 + b * 256 + x * 16 + d
                  if code < 0xd800 then
                    (parseStrBody cs3).map (fun p => (Char.ofNat code :: p.1, p.2))
                  else none
              | _, _, _, _ => none
          | _ => none
        else none
    else if c.toNat < 32 then none
    else (parseStrBody cs).map (fun p => (c :: p.1, p.2))

/-- Check a literal continuation (used for `null`/`true`/`false`). -/
def expectLit : Str → Str → Option Str
| [], s => some s
| _ :: _, [] => none
| l :: ls, c :: cs => if c = l then expectLit ls cs else none

/-- Append a member at the end of a member list. -/
def Members.append1 : Members → Str → Json → Members
| .nil, k, v => .cons k v .nil
| .cons k0 v0 rest, k, v => .cons k0 v0 (rest.append1 k v)

/-- Concatenate two member lists. -/
def Members.appendM : Members → Members → Members
| ms, .nil => ms
| ms, .cons k v rest => (ms.append1 k v).appendM rest

/-- Append an element at the end of an element list. -/
def Elems.append1 : Elems → Json → Elems
| .nil, v => .cons v .nil
| .cons v0 rest, v => .cons v0 (rest.append1 v)

/-- Concatenate two element lists. -/
def Elems.appendE : Elems → Elems → Elems
| es, .nil => es
| es, .cons v rest => (es.append1 v).appendE rest

/-- Does the member list bind the key? -/
def Members.hasKey : Members → Str → Bool
| .nil, _ => false
| .cons k _ rest, key => k = key || rest.hasKey key

mutual
/-- A fuel-indexed parser for JSON values, mirroring `JSON.parse`
(whitespace-tolerant; numbers restricted to the integers, the only
numbers the library emits).  Fuel at least `Json.size` of the parsed
value suffices. -/
def parseVal : Nat → Str → Option (Json × Str)
| 0, _ => none
| f + 1, s =>
    match skipWs s with
    | [] => none
    | c :: cs =>
      if c = 'n' then
        (expectLit ['u', 'l', 'l'] cs).map (fun r => (.null, r))
      else if c = 't' then
        (expectLit ['r', 'u', 'e'] cs).map (fun r => (.bool true, r))
      else if c = 'f' then
        (expectLit ['a', 'l', 's', 'e'] cs).map (fun r => (.bool false, r))
      else if c = '"' then
        (parseStrBody cs).map (fun p => (.str p.1, p.2))
      else if c = '\x7b' then
        match skipWs cs with
        | [] => none
        | c2 :: r => if c2 = '\x7d' then some (.obj .nil, r) else parseMembers f .nil (c2 :: r)
      else if c = '[' then
        match skipWs cs with
        | [] => none
        | c2 :: r => if c2 = ']' then some (.arr .nil, r) else parseElems f .nil (c2 :: r)
      else if c = '-' then
        match cs with
        | c2 :: cs2 =>
            if isDigitCh c2 then
              let p := readDigits (digVal c2) cs2
              some (.num (-(p.1 : Int)), p.2)
            else none
        | [] => none
      else if isDigitCh c then
        let p := readDigits (digVal c) cs
        some (.num (p.1 : Int), p.2)
      else none

/-- Parse the members of an object (input positioned at the first key),
accumulating into `acc` by property assignment. -/
def parseMembers : Nat → Members → Str → Option (Json × Str)
| 0, _, _ => none
| f + 1, acc, s =>
    match skipWs s with
    | [] => none
    | c :: cs =>
      if c = '"' then
        match parseStrBody cs with
        | some (k, r) =>
          (match skipWs r with
          | [] => none
          | c2 :: r2 =>
            if c2 = ':' then
              match parseVal f r2 with
              | some (v, r3) =>
                (match skipWs r3 with
                | [] => none
                | c3 :: r4 =>
                  if c3 = ',' then parseMembers f (acc.set k v) r4
                  else if c3 = '\x7d' then some (.obj (acc.set k v), r4)
                  else none)
              | none => none
            else none)
        | none => none
      else none

/-- Parse the elements of an array (input positioned at the first
element), accumulating into `acc`. -/
def parseElems : Nat → Elems → Str → Option (Json × Str)
| 0, _, _ => none
| f + 1, acc, s =>
    match parseVal f s with
    | some (v, r) =>
      (match skipWs r with
      | [] => none
      | c2 :: r2 =>
        if c2 = ',' then parseElems f (acc.append1 v) r2
        else if c2 = ']' then some (.arr (acc.append1 v), r2)
        else none)
    | none => none
end

/-- `JSON.parse`: parse one value and require only whitespace after it. -/
def jsonParse (s : Str) : Option Json :=
  match parseVal (s.length + 1) s with
  | some (j, r) => if skipWs r = [] then some j else none
  | none => none

theorem char_toNat_ofNat {n : Nat} (h : n < 0xd800) : (Char.ofNat n).toNat = n := by
  unfold Char.ofNat
  rw [dif_pos (Or.inl h)]
  simp [Char.ofNatAux, Char.toNat, UInt32.toNat, BitVec.toNat_ofNat]

theorem char_toNat_inj {a b : Char} (h : a.toNat = b.toNat) : a = b :=
  Char.ext (UInt32.ext h)

theorem hexVal_hexDig {v : Nat} (h : v < 16) : hexVal (hexDig v) = some v := by
  revert v h
  decide

theorem digitChar_digit {d : Nat} (h : d < 10) :
    isDigitCh (digitChar d) = true ∧ digVal (digitChar d) = d ∧
      isWsChar (digitChar d) = false := by
  revert d h
  decide

theorem digitChar_ne {d : Nat} (h : d < 10) :
    digitChar d ≠ 'n' ∧ digitChar d ≠ 't' ∧ digitChar d ≠ 'f' ∧
      digitChar d ≠ '"' ∧ digitChar d ≠ '\x7b' ∧ digitChar d ≠ '[' ∧
      digitChar d ≠ '-' := by
  revert d h
  decide

/-- Every character of a whitespace-only run is whitespace. -/
def WsOnly (s : Str) : Prop := ∀ c ∈ s, isWsChar c = true

theorem skipWs_ws_append {w : Str} (hw : WsOnly w) (s : Str) :
    skipWs (w ++ s) = skipWs s := by
  induction w with
  | nil => rfl
  | cons c cs ih =>
      simp only [List.cons_append, skipWs, hw c (by simp), if_true]
      exact ih (fun x hx => hw x (by simp [hx]))

theorem skipWs_cons_of_not_ws {c : Char} (h : isWsChar c = false) (s : Str) :
    skipWs (c :: s) = c :: s := by
  simp [skipWs, h]

theorem skipWs_skipWs (s : Str) : skipWs (skipWs s) = skipWs s := by
  induction s with
  | nil => rfl
  | cons c cs ih =>
      by_cases h : isWsChar c = true
      · simpa [skipWs, h] using ih
      · simp [skipWs, h]

/-- Reading the digits that `natStr` prints extends the accumulator by
exactly the printed number. -/
def digShift (acc n : Nat) : Nat :=
  if _h : n < 10 then acc * 10 + n else digShift acc (n / 10) * 10 + n % 10
decreasing_by exact Nat.div_lt_self (by omega) (by omega)

theorem digShift_zero (n : Nat) : digShift 0 n = n := by
  induction n using Nat.strong_induction_on with
  | _ n ih =>
      by_cases h : n < 10
      · simp [digShift, h]
      · rw [digShift, dif_neg h, ih (n / 10) (Nat.div_lt_self (by omega) (by omega))]
        omega

theorem readDigits_natStr (n : Nat) : ∀ acc s,
    readDigits acc (natStr n ++ s) = readDigits (digShift acc n) s := by
  induction n using Nat.strong_induction_on with
  | _ n ih =>
      intro acc s
      by_cases h : n < 10
      · rw [natStr_unfold, if_pos h, digShift, dif_pos h]
        simp [readDigits, (digitChar_digit h).1, (digitChar_digit h).2.1]
      · rw [natStr_unfold, if_neg h, digShift, dif_neg h, List.append_assoc,
          ih (n / 10) (Nat.div_lt_self (by omega) (by omega))]
        simp [readDigits, (digitChar_digit (Nat.mod_lt n (by omega))).1,
          (digitChar_digit (Nat.mod_lt n (by omega))).2.1]

theorem readDigits_stop {s : Str} (h : s = [] ∨ ∃ c cs, s = c :: cs ∧ isDigitCh c = false)
    (acc : Nat) : readDigits acc s = (acc, s) := by
  rcases h with h | ⟨c, cs, rfl, hc⟩
  · simp [h, readDigits]
  · simp [readDigits, hc]

theorem natStr_head (n : Nat) :
    ∃ d cs, natStr n = digitChar d :: cs ∧ d < 10 := by
  induction n using Nat.strong_induction_on with
  | _ n ih =>
      by_cases h : n < 10
      · exact ⟨n, [], by rw [natStr_unfold, if_pos h], h⟩
      · obtain ⟨d, cs, heq, hd⟩ := ih (n / 10) (Nat.div_lt_self (by omega) (by omega))
        exact ⟨d, cs ++ [digitChar (n % 10)], by rw [natStr_unfold, if_neg h, heq]; rfl, hd⟩

theorem parseStrBody_escape (s : Str) : ∀ rest,
    parseStrBody ((s.map escChar).flatten ++ '"' :: rest) = some (s, rest) := by
  induction s with
  | nil =>
      intro rest
      rw [List.map_nil, List.flatten_nil, List.nil_append, parseStrBody.eq_def]
      simp
  | cons c cs ih =>
      intro rest
      simp only [List.map_cons, List.flatten_cons, List.append_assoc]
      by_cases h1 : c = '"'
      · subst h1
        rw [show escChar '"' = ['\\', '"'] from rfl, List.cons_append, List.cons_append,
          List.nil_append, parseStrBody.eq_def]
        simp [ih]
      by_cases h2 : c = '\\'
      · subst h2
        rw [show escChar '\\' = ['\\', '\\'] from rfl, List.cons_append, List.cons_append,
          List.nil_append, parseStrBody.eq_def]
        simp [ih]
      by_cases h3 : c = '\x08'
      · subst h3
        rw [show escChar '\x08' = ['\\', 'b'] from rfl, List.cons_append, List.cons_append,
          List.nil_append, parseStrBody.eq_def]
        simp [ih]
      by_cases h4 : c = '\x09'
      · subst h4
        rw [show escChar '\x09' = ['\\', 't'] from rfl, List.cons_append, List.cons_append,
          List.nil_append, parseStrBody.eq_def]
        simp [ih]
      by_cases h5 : c = '\x0a'
      · subst h5
        rw [show escChar '\x0a' = ['\\', 'n'] from rfl, List.cons_append, List.cons_append,
          List.nil_append, parseStrBody.eq_def]
        simp [ih]
      by_cases h6 : c = '\x0c'
      · subst h6
        rw [show escChar '\x0c' = ['\\', 'f'] from rfl, List.cons_append, List.cons_append,
          List.nil_append, parseStrBody.eq_def]
        simp [ih]
      by_cases h7 : c = '\x0d'
      · subst h7
        rw [show escChar '\x0d' = ['\\', 'r'] from rfl, List.cons_append, List.cons_append,
          List.nil_append, parseStrBody.eq_def]
        simp [ih]
      by_cases h8 : c.toNat < 32
      · have hesc : escChar c =
            ['\\', 'u', '0', '0', hexDig (c.toNat / 16), hexDig (c.toNat % 16)] := by
          simp [escChar, h1, h2, h3, h4, h5, h6, h7, h8]
        have hofn : Char.ofNat (0 * 4096 + 0 * 256 + (c.toNat / 16) * 16 + c.toNat % 16) = c := by
          have he : 0 * 4096 + 0 * 256 + (c.toNat / 16) * 16 + c.toNat % 16 = c.toNat := by
            omega
          rw [he, Char.ofNat_toNat]
        rw [hesc, List.cons_append, List.cons_append, List.cons_append, List.cons_append,
          List.cons_append, List.cons_append, List.nil_append, parseStrBody.eq_def]
        simp only [reduceIte, show ('\\' : Char) = '"' ↔ False from by simp,
          show ('u' : Char) = '"' ↔ False from by simp]
        simp only [show hexVal '0' = some 0 from by decide,
          hexVal_hexDig (show c.toNat / 16 < 16 by omega),
          hexVal_hexDig (show c.toNat % 16 < 16 by omega)]
        have hofn' : Char.ofNat (c.toNat / 16 * 16 + c.toNat % 16) = c := by
          have he : c.toNat / 16 * 16 + c.toNat % 16 = c.toNat := by omega
          rw [he, Char.ofNat_toNat]
        simp [ih, hofn']
        all_goals omega
      · have hesc : escChar c = [c] := by
          simp [escChar, h1, h2, h3, h4, h5, h6, h7, h8]
        rw [hesc, List.cons_append, List.nil_append, parseStrBody.eq_def]
        simp [h1, h2, h8, ih]

mutual
/-- Recursively: every object has pairwise-distinct keys.  This is an
invariant of every value `JSON.parse` produces and every value the
library builds by property assignment. -/
def Json.dedup : Json → Bool
| .null => true
| .bool _ => true
| .num _ => true
| .str _ => true
| .obj ms => ms.mdedup
| .arr es => es.ededup

/-- `Json.dedup` for member lists. -/
def Members.mdedup : Members → Bool
| .nil => true
| .cons k v rest => !rest.hasKey k && v.dedup && rest.mdedup

/-- `Json.dedup` for element lists. -/
def Elems.ededup : Elems → Bool
| .nil => true
| .cons v rest => v.dedup && rest.ededup
end

/-- The remainder may safely follow a serialized value: it is empty or
does not begin with a digit (so number parsing stops at it). -/
def DelimOk (s : Str) : Prop :=
  s = [] ∨ ∃ c cs, s = c :: cs ∧ isDigitCh c = false

theorem isWs_not_digit {c : Char} (h : isWsChar c = true) : isDigitCh c = false := by
  simp only [isWsChar, Bool.or_eq_true, decide_eq_true_eq] at h
  rcases h with ((h | h) | h) | h <;> subst h <;> decide

theorem size_pos (j : Json) : 1 ≤ j.size := by
  cases j <;> simp [Json.size]

theorem msize_pos {ms : Members} (h : ms ≠ .nil) : 1 ≤ ms.msize := by
  cases ms with
  | nil => exact absurd rfl h
  | cons k v rest => simp [Members.msize]; omega

theorem esize_pos {es : Elems} (h : es ≠ .nil) : 1 ≤ es.esize := by
  cases es with
  | nil => exact absurd rfl h
  | cons v rest => simp [Elems.esize]; omega

theorem parseVal_ws {w : Str} (hw : WsOnly w) (f : Nat) (s : Str) :
    parseVal f (w ++ s) = parseVal f s := by
  cases f with
  | zero => rfl
  | succ f => rw [parseVal, parseVal, skipWs_ws_append hw]

theorem parseMembers_ws {w : Str} (hw : WsOnly w) (f : Nat) (acc : Members) (s : Str) :
    parseMembers f acc (w ++ s) = parseMembers f acc s := by
  cases f with
  | zero => rfl
  | succ f => rw [parseMembers, parseMembers, skipWs_ws_append hw]

theorem Members.set_of_not_hasKey :
    ∀ (acc : Members) {k : Str}, acc.hasKey k = false → ∀ v, acc.set k v = acc.append1 k v
| .nil, _, _, _ => rfl
| .cons k0 v0 rest, k, h, v => by
    simp only [Members.hasKey, Bool.or_eq_false_iff, decide_eq_false_iff_not] at h
    simp [Members.set, Members.append1, h.1, Members.set_of_not_hasKey rest h.2]

theorem Members.hasKey_append1 :
    ∀ (acc : Members) (k : Str) (v : Json) (key : Str),
      (acc.append1 k v).hasKey key = (acc.hasKey key || k = key)
| .nil, k, v, key => by simp [Members.append1, Members.hasKey]
| .cons k0 v0 rest, k, v, key => by
    simp [Members.append1, Members.hasKey, Members.hasKey_append1 rest k v key,
      Bool.or_assoc]

theorem serQuote_append (k : Str) (X : Str) :
    serQuote k ++ X = '"' :: ((k.map escChar).flatten ++ '"' :: X) := by
  simp [serQuote]

theorem WsOnly.append {a b : Str} (ha : WsOnly a) (hb : WsOnly b) : WsOnly (a ++ b) := by
  intro c hc
  rcases List.mem_append.mp hc with h | h
  · exact ha c h
  · exact hb c h

theorem WsOnly.nil : WsOnly [] := by intro c hc; cases hc

theorem Members.cons_appendM :
    ∀ (ms acc : Members) (k : Str) (v : Json),
      (Members.cons k v acc).appendM ms = .cons k v (acc.appendM ms)
| .nil, acc, k, v => rfl
| .cons k2 v2 rest, acc, k, v => by
    rw [Members.appendM, Members.append1, Members.cons_appendM rest]
    rfl

theorem Members.nil_appendM : ∀ ms : Members, Members.nil.appendM ms = ms
| .nil => rfl
| .cons k v rest => by
    rw [Members.appendM, Members.append1, Members.cons_appendM rest, Members.nil_appendM rest]

theorem Elems.cons_appendE :
    ∀ (es acc : Elems) (v : Json), (Elems.cons v acc).appendE es = .cons v (acc.appendE es)
| .nil, acc, v => rfl
| .cons v2 rest, acc, v => by
    rw [Elems.appendE, Elems.append1, Elems.cons_appendE rest]
    rfl

theorem Elems.nil_appendE : ∀ es : Elems, Elems.nil.appendE es = es
| .nil => rfl
| .cons v rest => by
    rw [Elems.appendE, Elems.append1, Elems.cons_appendE rest, Elems.nil_appendE rest]

theorem digitChar_ne2 {d : Nat} (h : d < 10) :
    digitChar d ≠ ']' ∧ digitChar d ≠ '\x7d' ∧ digitChar d ≠ ',' ∧ digitChar d ≠ ':' := by
  revert d h
  decide

/-- Every serialized value starts with a recognisable non-whitespace,
non-terminator character. -/
theorem serJson_head (gap ind : Str) (v : Json) :
    ∃ c t, serJson gap ind v = c :: t ∧ isWsChar c = false ∧ c ≠ ']' ∧ c ≠ '\x7d' := by
  cases v with
  | null => exact ⟨'n', _, rfl, by decide, by decide, by decide⟩
  | bool b =>
      cases b with
      | false => exact ⟨'f', _, rfl, by decide, by decide, by decide⟩
      | true => exact ⟨'t', _, rfl, by decide, by decide, by decide⟩
  | num n =>
      by_cases hn : n < 0
      · exact ⟨'-', natStr n.natAbs, by simp [serJson, serNum, hn], by decide, by decide,
          by decide⟩
      · obtain ⟨d, ds, hns, hd⟩ := natStr_head n.natAbs
        exact ⟨digitChar d, ds, by simp [serJson, serNum, hn, hns],
          (digitChar_digit hd).2.2, (digitChar_ne2 hd).1, (digitChar_ne2 hd).2.1⟩
  | str s => exact ⟨'"', (s.map escChar).flatten ++ ['"'], by simp [serJson, serQuote],
      by decide, by decide, by decide⟩
  | obj ms =>
      cases ms with
      | nil => exact ⟨'\x7b', _, rfl, by decide, by decide, by decide⟩
      | cons k v rest =>
          by_cases hgap : gap = []
          · subst hgap
            refine ⟨'\x7b', serMembers [] (ind ++ []) (.cons k v rest) ++ '\x7d' :: [],
              ?_, by decide, by decide, by decide⟩
            simp [serJson]
          · refine ⟨'\x7b', '\n' :: ((ind ++ gap) ++ serMembers gap (ind ++ gap) (.cons k v rest)
              ++ '\n' :: ind ++ '\x7d' :: []), ?_, by decide, by decide, by decide⟩
            simp [serJson, hgap]
  | arr es =>
      cases es with
      | nil => exact ⟨'[', _, rfl, by decide, by decide, by decide⟩
      | cons v rest =>
          by_cases hgap : gap = []
          · subst hgap
            refine ⟨'[', serElems [] (ind ++ []) (.cons v rest) ++ ']' :: [],
              ?_, by decide, by decide, by decide⟩
            simp [serJson]
          · refine ⟨'[', '\n' :: ((ind ++ gap) ++ serElems gap (ind ++ gap) (.cons v rest)
              ++ '\n' :: ind ++ ']' :: []), ?_, by decide, by decide, by decide⟩
            simp [serJson, hgap]

theorem serMembers_cons (gap ind k : Str) (v : Json) (tl : Members) :
    serMembers gap ind (.cons k v tl) =
      serQuote k ++ ':' :: (if gap = [] then [] else ' ' :: []) ++ serJson gap ind v ++
        (match tl with
        | .nil => []
        | .cons k2 v2 rest2 =>
            (if gap = [] then ',' :: [] else ',' :: '\n' :: ind) ++
              serMembers gap ind (.cons k2 v2 rest2)) := by
  cases tl with
  | nil => rw [serMembers.eq_def]
  | cons k2 v2 r2 => rw [serMembers.eq_def]

theorem serElems_cons (gap ind : Str) (v : Json) (tl : Elems) :
    serElems gap ind (.cons v tl) =
      serJson gap ind v ++
        (match tl with
        | .nil => []
        | .cons v2 rest2 =>
            (if gap = [] then ',' :: [] else ',' :: '\n' :: ind) ++
              serElems gap ind (.cons v2 rest2)) := by
  cases tl with
  | nil => rw [serElems.eq_def]
  | cons v2 r2 => rw [serElems.eq_def]

/-- Roundtrip statement for values at fuel `f`. -/
def PVstmt (f : Nat) : Prop :=
  ∀ (j : Json) (gap ind : Str), WsOnly gap → WsOnly ind → j.dedup = true →
    j.size ≤ f → ∀ rest, DelimOk rest →
      parseVal f (serJson gap ind j ++ rest) = some (j, rest)

/-- Roundtrip statement for object members at fuel `f`. -/
def PMstmt (f : Nat) : Prop :=
  ∀ (ms : Members) (gap ind : Str), WsOnly gap → WsOnly ind → ms.mdedup = true →
    ms ≠ .nil → ms.msize ≤ f →
    ∀ (acc : Members), (∀ key, acc.hasKey key = true → ms.hasKey key = false) →
    ∀ (wpre wclose : Str), WsOnly wpre → WsOnly wclose → ∀ rest,
      parseMembers f acc (wpre ++ serMembers gap ind ms ++ wclose ++ '\x7d' :: rest) =
        some (.obj (acc.appendM ms), rest)

/-- Roundtrip statement for array elements at fuel `f`. -/
def PEstmt (f : Nat) : Prop :=
  ∀ (es : Elems) (gap ind : Str), WsOnly gap → WsOnly ind → es.ededup = true →
    es ≠ .nil → es.esize ≤ f →
    ∀ (acc : Elems) (wpre wclose : Str), WsOnly wpre → WsOnly wclose → ∀ rest,
      parseElems f acc (wpre ++ serElems gap ind es ++ wclose ++ ']' :: rest) =
        some (.arr (acc.appendE es), rest)

theorem skipWs_cons_ws {c : Char} (h : isWsChar c = true) (s : Str) :
    skipWs (c :: s) = skipWs s := by
  simp [skipWs, h]

theorem WsOnly.consNl {ind : Str} (hi : WsOnly ind) : WsOnly ('\n' :: ind) := by
  intro c hc
  rcases List.mem_cons.mp hc with rfl | h
  · decide
  · exact hi c h

theorem PV_succ (f : Nat) (ihM : PMstmt f) (ihE : PEstmt f) : PVstmt (f + 1) := by
  intro j gap ind hg hi hd hsz rest hrest
  cases j with
  | null =>
      rw [show serJson gap ind .null ++ rest = 'n' :: 'u' :: 'l' :: 'l' :: rest from rfl]
      rw [parseVal]
      simp +decide [skipWs, expectLit]
  | bool b =>
      cases b with
      | true =>
          rw [show serJson gap ind (.bool true) ++ rest = 't' :: 'r' :: 'u' :: 'e' :: rest
            from rfl]
          rw [parseVal]
          simp +decide [skipWs, expectLit]
      | false =>
          rw [show serJson gap ind (.bool false) ++ rest =
            'f' :: 'a' :: 'l' :: 's' :: 'e' :: rest from rfl]
          rw [parseVal]
          simp +decide [skipWs, expectLit]
  | str s =>
      rw [show serJson gap ind (.str s) ++ rest =
        '"' :: ((s.map escChar).flatten ++ '"' :: rest) from by simp [serJson, serQuote]]
      rw [parseVal]
      simp +decide [skipWs, parseStrBody_escape]
  | num n =>
      obtain ⟨d, ds, hns, hd10⟩ := natStr_head n.natAbs
      obtain ⟨hdig, hdval, hwsd⟩ := digitChar_digit hd10
      obtain ⟨hn1, hn2, hn3, hn4, hn5, hn6, hn7⟩ := digitChar_ne hd10
      have hread : readDigits (digVal (digitChar d)) (ds ++ rest) = (n.natAbs, rest) := by
        have h0 : readDigits 0 (natStr n.natAbs ++ rest) = (n.natAbs, rest) := by
          rw [readDigits_natStr, digShift_zero, readDigits_stop hrest]
        rw [hns, List.cons_append] at h0
        simp only [readDigits, hdig, if_true, Nat.zero_mul, Nat.zero_add, hdval] at h0
        rw [hdval]
        exact h0
      by_cases hneg : n < 0
      · rw [show serJson gap ind (.num n) ++ rest = '-' :: (natStr n.natAbs ++ rest) from by
          simp [serJson, serNum, hneg]]
        rw [parseVal, hns, List.cons_append]
        simp +decide [skipWs, hdig, hread, abs_of_neg hneg]
      · rw [show serJson gap ind (.num n) ++ rest = natStr n.natAbs ++ rest from by
          simp [serJson, serNum, hneg]]
        rw [parseVal, hns, List.cons_append]
        rw [skipWs_cons_of_not_ws hwsd]
        simp +decide [hn1, hn2, hn3, hn4, hn5, hn6, hn7, hdig, hread,
          abs_of_nonneg (show (0 : Int) ≤ n by omega)]
  | obj ms =>
      cases ms with
      | nil =>
          rw [show serJson gap ind (.obj .nil) ++ rest = '\x7b' :: '\x7d' :: rest from rfl]
          rw [parseVal]
          simp +decide [skipWs]
      | cons k v ms' =>
          rw [Json.size, Members.msize] at hsz
          rw [Json.dedup] at hd
          have hm := ihM (.cons k v ms') gap (ind ++ gap) hg (hi.append hg) hd
            (by intro h; cases h) (by rw [Members.msize]; omega) .nil
            (by intro key hk; cases hk)
          by_cases hgap : gap = []
          · subst hgap
            rw [show serJson [] ind (.obj (.cons k v ms')) ++ rest =
              '\x7b' :: (serMembers [] (ind ++ []) (.cons k v ms') ++ ('\x7d' :: rest))
              from by simp [serJson]]
            rw [parseVal, skipWs_cons_of_not_ws (by decide)]
            rw [serMembers_cons, serQuote_append]
            have hm2 := hm [] [] WsOnly.nil WsOnly.nil rest
            rw [serMembers_cons, serQuote_append] at hm2
            rw [Members.nil_appendM] at hm2
            simp only [List.nil_append, List.append_nil, List.append_assoc,
              List.cons_append] at hm2 ⊢
            simp +decide [skipWs]
            exact hm2
          · rw [show serJson gap ind (.obj (.cons k v ms')) ++ rest =
              '\x7b' :: ('\n' :: ((ind ++ gap) ++ (serMembers gap (ind ++ gap)
                (.cons k v ms') ++ ('\n' :: ind ++ ('\x7d' :: rest)))))
              from by simp [serJson, hgap]]
            rw [parseVal, skipWs_cons_of_not_ws (by decide)]
            rw [serMembers_cons, serQuote_append]
            have hm2 := hm [] ('\n' :: ind) WsOnly.nil (WsOnly.consNl hi) rest
            rw [serMembers_cons, serQuote_append] at hm2
            rw [Members.nil_appendM] at hm2
            simp only [List.nil_append, List.append_nil, List.append_assoc,
              List.cons_append] at hm2 ⊢
            simp +decide [skipWs, skipWs_ws_append hi, skipWs_ws_append hg]
            exact hm2
  | arr es =>
      cases es with
      | nil =>
          rw [show serJson gap ind (.arr .nil) ++ rest = '[' :: ']' :: rest from rfl]
          rw [parseVal]
          simp +decide [skipWs]
      | cons v es' =>
          rw [Json.size, Elems.esize] at hsz
          rw [Json.dedup] at hd
          have he := ihE (.cons v es') gap (ind ++ gap) hg (hi.append hg) hd
            (by intro h; cases h) (by rw [Elems.esize]; omega) .nil
          obtain ⟨c0, t0, hse, hws0, hne0, hne0b⟩ := serJson_head gap (ind ++ gap) v
          by_cases hgap : gap = []
          · subst hgap
            rw [show serJson [] ind (.arr (.cons v es')) ++ rest =
              '[' :: (serElems [] (ind ++ []) (.cons v es') ++ (']' :: rest))
              from by simp [serJson]]
            rw [parseVal, skipWs_cons_of_not_ws (by decide)]
            rw [serElems_cons]
            rw [show serJson [] (ind ++ []) v = c0 :: t0 from by simpa using hse]
            have he2 := he [] [] WsOnly.nil WsOnly.nil rest
            rw [serElems_cons] at he2
            rw [show serJson [] (ind ++ []) v = c0 :: t0 from by simpa using hse] at he2
            rw [Elems.nil_appendE] at he2
            simp only [List.nil_append, List.append_nil, List.append_assoc,
              List.cons_append] at he2 ⊢
            simp +decide [skipWs, hws0, hne0]
            exact he2
          · rw [show serJson gap ind (.arr (.cons v es')) ++ rest =
              '[' :: ('\n' :: ((ind ++ gap) ++ (serElems gap (ind ++ gap)
                (.cons v es') ++ ('\n' :: ind ++ (']' :: rest)))))
              from by simp [serJson, hgap]]
            rw [parseVal, skipWs_cons_of_not_ws (by decide)]
            rw [serElems_cons, hse]
            have he2 := he [] ('\n' :: ind) WsOnly.nil (WsOnly.consNl hi) rest
            rw [serElems_cons, hse] at he2
            rw [Elems.nil_appendE] at he2
            simp only [List.nil_append, List.append_nil, List.append_assoc,
              List.cons_append] at he2 ⊢
            simp +decide [skipWs, skipWs_ws_append hi, skipWs_ws_append hg, hws0, hne0]
            exact he2

theorem delimOk_ws_append {w : Str} (hw : WsOnly w) {c : Char} (hc : isDigitCh c = false)
    (s : Str) : DelimOk (w ++ c :: s) := by
  cases w with
  | nil => exact Or.inr ⟨c, s, rfl, hc⟩
  | cons c0 w0 =>
      exact Or.inr ⟨c0, w0 ++ c :: s, rfl, isWs_not_digit (hw c0 (by simp))⟩

theorem PM_succ (f : Nat) (ihV : PVstmt f) (ihM : PMstmt f) : PMstmt (f + 1) := by
  intro ms gap ind hg hi hdd hne hsz acc hdisj wpre wclose hwpre hwclose rest
  cases ms with
  | nil => exact absurd rfl hne
  | cons k v ms' =>
      rw [Members.mdedup] at hdd
      have hkeyv : ms'.hasKey k = false := by
        rcases Bool.and_eq_true_iff.mp hdd with ⟨h1, _⟩
        rcases Bool.and_eq_true_iff.mp h1 with ⟨h2, _⟩
        simpa using h2
      have hvd : v.dedup = true := by
        rcases Bool.and_eq_true_iff.mp hdd with ⟨h1, _⟩
        exact (Bool.and_eq_true_iff.mp h1).2
      have hmd : ms'.mdedup = true := (Bool.and_eq_true_iff.mp hdd).2
      rw [Members.msize] at hsz
      have hacck : acc.hasKey k = false := by
        by_contra hc
        have h2 := hdisj k (by simpa using hc)
        rw [Members.hasKey] at h2
        simp at h2
      have hpadws : WsOnly (if gap = ([] : Str) then ([] : Str) else [' ']) := by
        by_cases hgap : gap = []
        · simp [hgap]; exact WsOnly.nil
        · simp [hgap]; intro c hc; rcases List.mem_singleton.mp hc with rfl; decide
      rw [serMembers_cons, serQuote_append, parseMembers]
      cases ms' with
      | nil =>
          have hv2 : parseVal f ((if gap = ([] : Str) then ([] : Str) else [' ']) ++
              (serJson gap ind v ++ (wclose ++ '\x7d' :: rest))) =
              some (v, wclose ++ '\x7d' :: rest) := by
            rw [parseVal_ws hpadws]
            exact ihV v gap ind hg hi hvd (by omega) _
              (delimOk_ws_append hwclose (by decide) rest)
          simp only [List.nil_append, List.append_nil, List.append_assoc,
            List.cons_append] at hv2 ⊢
          simp +decide [skipWs, skipWs_ws_append hwpre, skipWs_ws_append hwclose,
            parseStrBody_escape, hv2, Members.set_of_not_hasKey acc hacck v,
            Members.appendM]
      | cons k2 v2 ms'' =>
          have hdisj2 : ∀ key, (acc.append1 k v).hasKey key = true →
              (Members.cons k2 v2 ms'').hasKey key = false := by
            intro key hk
            rw [Members.hasKey_append1] at hk
            rcases Bool.or_eq_true_iff.mp hk with hk | hk
            · have h2 := hdisj key hk
              rw [Members.hasKey] at h2
              exact (Bool.or_eq_false_iff.mp h2).2
            · have : k = key := by simpa using hk
              subst this
              exact hkeyv
          have hm2 := ihM (.cons k2 v2 ms'') gap ind hg hi hmd (by intro h; cases h)
            (by omega) (acc.append1 k v) hdisj2
            (if gap = ([] : Str) then ([] : Str) else '\n' :: ind)
            wclose (by
              by_cases hgap : gap = []
              · simp [hgap]; exact WsOnly.nil
              · simp [hgap]; exact WsOnly.consNl hi) hwclose rest
          have hv2 : parseVal f ((if gap = ([] : Str) then ([] : Str) else [' ']) ++
              (serJson gap ind v ++
                ((if gap = ([] : Str) then [','] else ',' :: '\n' :: ind) ++
                  (serMembers gap ind (.cons k2 v2 ms'') ++ (wclose ++ '\x7d' :: rest))))) =
              some (v, (if gap = ([] : Str) then [','] else ',' :: '\n' :: ind) ++
                (serMembers gap ind (.cons k2 v2 ms'') ++ (wclose ++ '\x7d' :: rest))) := by
            rw [parseVal_ws hpadws]
            refine ihV v gap ind hg hi hvd (by omega) _ ?_
            by_cases hgap : gap = [] <;> simp [hgap] <;> exact Or.inr ⟨_, _, rfl, by decide⟩
          simp only [List.nil_append, List.append_nil, List.append_assoc,
            List.cons_append] at hv2 hm2 ⊢
          by_cases hgap : gap = []
          · subst hgap
            simp +decide only [reduceIte, List.nil_append, List.cons_append,
              List.append_assoc] at hv2 hm2 ⊢
            simp +decide [skipWs, skipWs_ws_append hwpre, parseStrBody_escape, hv2,
              Members.set_of_not_hasKey acc hacck v, Members.appendM, hm2]
          · simp only [if_neg hgap, List.nil_append, List.cons_append,
              List.append_assoc] at hv2 hm2 ⊢
            simp +decide [skipWs, skipWs_ws_append hwpre, parseStrBody_escape, hv2,
              Members.set_of_not_hasKey acc hacck v, Members.appendM, hm2]

theorem PE_succ (f : Nat) (ihV : PVstmt f) (ihE : PEstmt f) : PEstmt (f + 1) := by
  intro es gap ind hg hi hdd hne hsz acc wpre wclose hwpre hwclose rest
  cases es with
  | nil => exact absurd rfl hne
  | cons v es' =>
      rw [Elems.ededup] at hdd
      have hvd : v.dedup = true := (Bool.and_eq_true_iff.mp hdd).1
      have hed : es'.ededup = true := (Bool.and_eq_true_iff.mp hdd).2
      rw [Elems.esize] at hsz
      rw [serElems_cons, parseElems]
      cases es' with
      | nil =>
          have hv2 : parseVal f (wpre ++ (serJson gap ind v ++ (wclose ++ ']' :: rest))) =
              some (v, wclose ++ ']' :: rest) := by
            rw [parseVal_ws hwpre]
            exact ihV v gap ind hg hi hvd (by omega) _
              (delimOk_ws_append hwclose (by decide) rest)
          simp only [List.nil_append, List.append_nil, List.append_assoc,
            List.cons_append] at hv2 ⊢
          simp +decide [skipWs, skipWs_ws_append hwclose, hv2, Elems.appendE]
      | cons v2 es'' =>
          have he2 := ihE (.cons v2 es'') gap ind hg hi hed (by intro h; cases h)
            (by omega) (acc.append1 v)
            (if gap = ([] : Str) then ([] : Str) else '\n' :: ind)
            wclose (by
              by_cases hgap : gap = []
              · simp [hgap]; exact WsOnly.nil
              · simp [hgap]; exact WsOnly.consNl hi) hwclose rest
          have hv2 : parseVal f (wpre ++ (serJson gap ind v ++
              ((if gap = ([] : Str) then [','] else ',' :: '\n' :: ind) ++
                (serElems gap ind (.cons v2 es'') ++ (wclose ++ ']' :: rest))))) =
              some (v, (if gap = ([] : Str) then [','] else ',' :: '\n' :: ind) ++
                (serElems gap ind (.cons v2 es'') ++ (wclose ++ ']' :: rest))) := by
            rw [parseVal_ws hwpre]
            refine ihV v gap ind hg hi hvd (by omega) _ ?_
            by_cases hgap : gap = [] <;> simp [hgap] <;> exact Or.inr ⟨_, _, rfl, by decide⟩
          simp only [List.nil_append, List.append_nil, List.append_assoc,
            List.cons_append] at hv2 he2 ⊢
          by_cases hgap : gap = []
          · subst hgap
            simp +decide only [reduceIte, List.nil_append, List.cons_append,
              List.append_assoc] at hv2 he2 ⊢
            simp +decide [skipWs, hv2, Elems.appendE, he2]
          · simp only [if_neg hgap, List.nil_append, List.cons_append,
              List.append_assoc] at hv2 he2 ⊢
            simp +decide [skipWs, hv2, Elems.appendE, he2]

theorem roundtripAux : ∀ f : Nat, PVstmt f ∧ PMstmt f ∧ PEstmt f
| 0 =>
    ⟨fun j _ _ _ _ _ hsz _ _ => absurd hsz (by have := size_pos j; omega),
     fun ms _ _ _ _ _ hne hsz _ _ _ _ _ _ _ => absurd hsz (by have := msize_pos hne; omega),
     fun es _ _ _ _ _ hne hsz _ _ _ _ _ _ => absurd hsz (by have := esize_pos hne; omega)⟩
| f + 1 =>
    have ih := roundtripAux f
    ⟨PV_succ f ih.2.1 ih.2.2, PM_succ f ih.1 ih.2.1, PE_succ f ih.1 ih.2.2⟩

/-- Parsing a serialized value with enough fuel recovers it exactly. -/
theorem parseVal_serJson {gap ind : Str} (hg : WsOnly gap) (hi : WsOnly ind)
    {j : Json} (hd : j.dedup = true) {f : Nat} (hf : j.size ≤ f) :
    parseVal f (serJson gap ind j) = some (j, []) := by
  have h := (roundtripAux f).1 j gap ind hg hi hd hf [] (Or.inl rfl)
  simpa using h

theorem natStr_length_pos (n : Nat) : 1 ≤ (natStr n).length := by
  obtain ⟨d, ds, h, _⟩ := natStr_head n
  simp [h]

theorem serNum_length_pos (n : Int) : 1 ≤ (serNum n).length := by
  unfold serNum
  by_cases h : n < 0
  · simp only [if_pos h, List.length_cons]
    omega
  · simp only [if_neg h]
    exact natStr_length_pos _

theorem serQuote_length (k : Str) : 2 ≤ (serQuote k).length := by
  simp [serQuote]

mutual
theorem serJson_size_le : ∀ (gap ind : Str) (j : Json), j.size ≤ (serJson gap ind j).length
| gap, ind, .null => by simp [serJson, Json.size]
| gap, ind, .bool true => by simp [serJson, Json.size]
| gap, ind, .bool false => by simp [serJson, Json.size]
| gap, ind, .num n => by
    simpa [serJson, Json.size] using serNum_length_pos n
| gap, ind, .str s => by simp [serJson, Json.size, serQuote]
| gap, ind, .obj .nil => by simp [serJson, Json.size, Members.msize]
| gap, ind, .obj (.cons k v tl) => by
    have h := serMembers_size_le gap (ind ++ gap) (.cons k v tl)
    by_cases hgap : gap = []
    · subst hgap
      simp only [List.append_nil] at h
      simp only [serJson, if_pos rfl, if_true, List.append_nil, Json.size,
        List.length_cons, List.length_append]
      omega
    · simp only [serJson, if_neg hgap, Json.size, List.length_cons, List.length_append]
      omega
| gap, ind, .arr .nil => by simp [serJson, Json.size, Elems.esize]
| gap, ind, .arr (.cons v tl) => by
    have h := serElems_size_le gap (ind ++ gap) (.cons v tl)
    by_cases hgap : gap = []
    · subst hgap
      simp only [List.append_nil] at h
      simp only [serJson, if_pos rfl, if_true, List.append_nil, Json.size,
        List.length_cons, List.length_append]
      omega
    · simp only [serJson, if_neg hgap, Json.size, List.length_cons, List.length_append]
      omega

theorem serMembers_size_le :
    ∀ (gap ind : Str) (ms : Members), ms.msize ≤ (serMembers gap ind ms).length
| gap, ind, .nil => by simp [serMembers, Members.msize]
| gap, ind, .cons k v tl => by
    have hv := serJson_size_le gap ind v
    have hq := serQuote_length k
    cases tl with
    | nil =>
        rw [serMembers_cons]
        have hpad : 0 ≤ (if gap = ([] : Str) then ([] : Str) else [' ']).length := by omega
        simp only [Members.msize, Json.size, List.length_append, List.length_cons,
          List.length_nil]
        linarith
    | cons k2 v2 tl2 =>
        have htl := serMembers_size_le gap ind (.cons k2 v2 tl2)
        rw [serMembers_cons]
        have hpad : 0 ≤ (if gap = ([] : Str) then ([] : Str) else [' ']).length := by omega
        have hsep : 0 ≤ (if gap = ([] : Str) then [','] else ',' :: '\n' :: ind).length := by
          omega
        simp only [Members.msize, Json.size, List.length_append, List.length_cons,
          List.length_nil] at htl ⊢
        linarith

theorem serElems_size_le :
    ∀ (gap ind : Str) (es : Elems), es.esize ≤ (serElems gap ind es).length + 1
| gap, ind, .nil => by simp [serElems, Elems.esize]
| gap, ind, .cons v tl => by
    have hv := serJson_size_le gap ind v
    cases tl with
    | nil =>
        rw [serElems_cons]
        simp only [Elems.esize, Json.size, List.length_append, List.length_cons,
          List.length_nil]
        linarith
    | cons v2 tl2 =>
        have htl := serElems_size_le gap ind (.cons v2 tl2)
        rw [serElems_cons]
        have hsep : 1 ≤ (if gap = ([] : Str) then [','] else ',' :: '\n' :: ind).length := by
          by_cases hgap : gap = [] <;> simp [hgap]
        simp only [Elems.esize, Json.size, List.length_append, List.length_cons,
          List.length_nil] at htl ⊢
        linarith
end

/-- `JSON.parse` inverts `JSON.stringify` (for key-deduplicated values,
under any whitespace-only gap and indentation). -/
theorem jsonParse_serJson {gap ind : Str} (hg : WsOnly gap) (hi : WsOnly ind)
    {j : Json} (hd : j.dedup = true) : jsonParse (serJson gap ind j) = some j := by
  unfold jsonParse
  rw [parseVal_serJson hg hi hd
    (le_trans (serJson_size_le gap ind j) (Nat.le_succ_of_le (Nat.le_refl _)))]
  simp [skipWs]

/-- Serialization is injective on key-deduplicated values: distinct
values print distinctly, whatever the whitespace mode. -/
theorem serJson_inj {gap ind : Str} (hg : WsOnly gap) (hi : WsOnly ind)
    {a b : Json} (ha : a.dedup = true) (hb : b.dedup = true)
    (h : serJson gap ind a = serJson gap ind b) : a = b := by
  have h1 := @jsonParse_serJson gap ind hg hi a ha
  have h2 := @jsonParse_serJson gap ind hg hi b hb
  rw [h, h2] at h1
  exact (Option.some_inj.mp h1).symm

/-- The base64 alphabet (`src/base64.ts` relies on the platform
`btoa`/`atob`, which use this alphabet). -/
def b64chars : Str :=
  "ABCDEFGHIJKLMNOPQRSTUVWXYZabcdefghijklmnopqrstuvwxyz0123456789+/".toList

/-- Character for a sextet value. -/
def b64idx (n : Nat) : Char := b64chars.getD n 'A'

/-- Sextet value of an alphabet character. -/
def b64val (c : Char) : Option Nat := b64chars.findIdx? (fun x => x = c)

/-- `btoa` on a byte sequence (the code units of the binary string):
standard padded base64. -/
def btoaBytes : List Nat → Str
| [] => []
| [a] => [b64idx (a / 4), b64idx (a % 4 * 16), '=', '=']
| [a, b] => [b64idx (a / 4), b64idx (a % 4 * 16 + b / 16), b64idx (b % 16 * 4), '=']
| a :: b :: c :: rest =>
    b64idx (a / 4) :: b64idx (a % 4 * 16 + b / 16) :: b64idx (b % 16 * 4 + c / 64) ::
      b64idx (c % 64) :: btoaBytes rest

/-- `btoa` on a string: every code unit must be below 256 (JavaScript
throws otherwise). -/
def btoa (s : Str) : Option Str :=
  if s.all (fun c => c.toNat < 256) then some (btoaBytes (s.map Char.toNat)) else none

/-- ASCII whitespace, stripped by forgiving-base64 (`atob`). -/
def isAsciiWs (c : Char) : Bool :=
  c = ' ' || c = '\x09' || c = '\x0a' || c = '\x0c' || c = '\x0d'

/-- Remove up to two trailing `=` characters. -/
def dropPad (t : Str) : Str :=
  match t.reverse with
  | c1 :: rest1 =>
      if c1 = '=' then
        match rest1 with
        | c2 :: rest2 => if c2 = '=' then rest2.reverse else rest1.reverse
        | [] => rest1.reverse
      else t
  | [] => t

/-- Decode a run of base64 characters, 4 at a time; a final group of 2
or 3 characters yields 1 or 2 bytes (leftover bits discarded, as in
forgiving-base64). -/
def decodeQuads : Str → Option (List Nat)
| [] => some []
| [c1, c2] => do
    let v1 ← b64val c1
    let v2 ← b64val c2
    some [v1 * 4 + v2 / 16]
| [c1, c2, c3] => do
    let v1 ← b64val c1
    let v2 ← b64val c2
    let v3 ← b64val c3
    some [v1 * 4 + v2 / 16, v2 % 16 * 16 + v3 / 4]
| c1 :: c2 :: c3 :: c4 :: rest => do
    let v1 ← b64val c1
    let v2 ← b64val c2
    let v3 ← b64val c3
    let v4 ← b64val c4
    let tl ← decodeQuads rest
    some ((v1 * 4 + v2 / 16) :: (v2 % 16 * 16 + v3 / 4) :: (v3 % 4 * 64 + v4) :: tl)
| [_] => none

/-- `atob`: WHATWG forgiving-base64 decode to bytes. -/
def atobChars (s : Str) : Option (List Nat) :=
  let t := s.filter (fun c => !isAsciiWs c)
  let t := if t.length % 4 = 0 then dropPad t else t
  if t.length % 4 = 1 then none else decodeQuads t

/-- Character map of `toB64URLEncoding`. -/
def urlTo (c : Char) : Char := if c = '+' then '-' else if c = '/' then '_' else c

/-- Character map of `fromB64URLEncoding`. -/
def urlFrom (c : Char) : Char := if c = '_' then '/' else if c = '-' then '+' else c

/-- `Base64UrlCodec.toB64URLEncoding`: strip `=`, `+`→`-`, `/`→`_`. -/
def toB64URLEncoding (s : Str) : Str := (s.filter (fun c => c ≠ '=')).map urlTo

/-- `Base64UrlCodec.fromB64URLEncoding`: `_`→`/`, `-`→`+` (pads are not
restored; decoding does not need them). -/
def fromB64URLEncoding (s : Str) : Str := s.map urlFrom

/-- `Base64UrlCodec.encode` on a byte array. -/
def b64UrlEncodeBytes (bytes : List Nat) : Str := toB64URLEncoding (btoaBytes bytes)

/-- `Base64UrlCodec.encode` on a string. -/
def b64UrlEncodeStr (s : Str) : Option Str := (btoa s).map toB64URLEncoding

/-- `Base64UrlCodec.decode(s, true)`: to bytes. -/
def b64UrlDecodeBytes (s : Str) : Option (List Nat) := atobChars (fromB64URLEncoding s)

/-- `Base64UrlCodec.decode(s)`: to the binary string of the bytes. -/
def b64UrlDecodeStr (s : Str) : Option Str :=
  (b64UrlDecodeBytes s).map (fun bs => bs.map Char.ofNat)

/-- `TextEncoder.encode`, modelled on code points; it agrees with UTF-8
on the ASCII strings the token pipeline produces, and feeds only the
opaque signature primitive. -/
def te (s : Str) : List Nat := s.map Char.toNat

theorem b64val_b64idx : ∀ n, n < 64 → b64val (b64idx n) = some n := by decide

theorem b64idx_facts : ∀ n, n < 64 → b64idx n ≠ '=' ∧ isAsciiWs (b64idx n) = false ∧
    urlFrom (urlTo (b64idx n)) = b64idx n ∧ urlTo (b64idx n) ≠ '.' := by decide

/-- Every character `btoa` emits is a pad or an alphabet character. -/
theorem btoaBytes_chars : ∀ bytes : List Nat, (∀ b ∈ bytes, b < 256) →
    ∀ c ∈ btoaBytes bytes, c = '=' ∨ ∃ n, n < 64 ∧ c = b64idx n
| [], _, c, hc => by cases hc
| [a], hb, c, hc => by
    have ha : a < 256 := hb a (by simp)
    rcases hc with _ | ⟨_, _ | ⟨_, _ | ⟨_, h⟩⟩⟩
    · exact Or.inr ⟨a / 4, by omega, rfl⟩
    · exact Or.inr ⟨a % 4 * 16, by omega, rfl⟩
    · exact Or.inl rfl
    · rcases h with _ | ⟨_, h⟩
      · exact Or.inl rfl
      · cases h
| [a, b], hb, c, hc => by
    have ha : a < 256 := hb a (by simp)
    have hbb : b < 256 := hb b (by simp)
    rcases hc with _ | ⟨_, _ | ⟨_, _ | ⟨_, h⟩⟩⟩
    · exact Or.inr ⟨a / 4, by omega, rfl⟩
    · exact Or.inr ⟨a % 4 * 16 + b / 16, by omega, rfl⟩
    · exact Or.inr ⟨b % 16 * 4, by omega, rfl⟩
    · rcases h with _ | ⟨_, h⟩
      · exact Or.inl rfl
      · cases h
| a :: b :: c0 :: rest, hb, c, hc => by
    have ha : a < 256 := hb a (by simp)
    have hbb : b < 256 := hb b (by simp)
    have hc0 : c0 < 256 := hb c0 (by simp)
    rcases hc with _ | ⟨_, _ | ⟨_, _ | ⟨_, _ | ⟨_, h⟩⟩⟩⟩
    · exact Or.inr ⟨a / 4, by omega, rfl⟩
    · exact Or.inr ⟨a % 4 * 16 + b / 16, by omega, rfl⟩
    · exact Or.inr ⟨b % 16 * 4 + c0 / 64, by omega, rfl⟩
    · exact Or.inr ⟨c0 % 64, by omega, rfl⟩
    · exact btoaBytes_chars rest (fun x hx => hb x (by simp [hx])) c h

/-- The pad-stripped base64 text of a byte sequence. -/
def b64core (bytes : List Nat) : Str := (btoaBytes bytes).filter (fun c => c ≠ '=')

theorem b64core_eq : ∀ bytes : List Nat, (∀ b ∈ bytes, b < 256) →
    b64core bytes = match bytes with
      | [] => []
      | [a] => [b64idx (a / 4), b64idx (a % 4 * 16)]
      | [a, b] => [b64idx (a / 4), b64idx (a % 4 * 16 + b / 16), b64idx (b % 16 * 4)]
      | a :: b :: c :: rest =>
          b64idx (a / 4) :: b64idx (a % 4 * 16 + b / 16) :: b64idx (b % 16 * 4 + c / 64) ::
            b64idx (c % 64) :: b64core rest
| [], _ => rfl
| [a], hb => by
    have ha : a < 256 := hb a (by simp)
    have h1 := (b64idx_facts (a / 4) (by omega)).1
    have h2 := (b64idx_facts (a % 4 * 16) (by omega)).1
    simp [b64core, btoaBytes, List.filter, h1, h2]
| [a, b], hb => by
    have ha : a < 256 := hb a (by simp)
    have hbb : b < 256 := hb b (by simp)
    have h1 := (b64idx_facts (a / 4) (by omega)).1
    have h2 := (b64idx_facts (a % 4 * 16 + b / 16) (by omega)).1
    have h3 := (b64idx_facts (b % 16 * 4) (by omega)).1
    simp [b64core, btoaBytes, List.filter, h1, h2, h3]
| a :: b :: c :: rest, hb => by
    have ha : a < 256 := hb a (by simp)
    have hbb : b < 256 := hb b (by simp)
    have hc : c < 256 := hb c (by simp)
    have h1 := (b64idx_facts (a / 4) (by omega)).1
    have h2 := (b64idx_facts (a % 4 * 16 + b / 16) (by omega)).1
    have h3 := (b64idx_facts (b % 16 * 4 + c / 64) (by omega)).1
    have h4 := (b64idx_facts (c % 64) (by omega)).1
    simp only [b64core, btoaBytes, List.filter_cons]
    simp [h1, h2, h3, h4, b64core]

theorem b64core_len : ∀ bytes : List Nat, (∀ b ∈ bytes, b < 256) →
    (b64core bytes).length % 4 ≠ 1
| [], _ => by simp [b64core, btoaBytes]
| [a], hb => by rw [b64core_eq [a] hb]; simp
| [a, b], hb => by rw [b64core_eq [a, b] hb]; simp
| a :: b :: c :: rest, hb => by
    rw [b64core_eq (a :: b :: c :: rest) hb]
    have ih := b64core_len rest (fun x hx => hb x (by simp [hx]))
    simp only [List.length_cons]
    omega

theorem decodeQuads_b64core : ∀ bytes : List Nat, (∀ b ∈ bytes, b < 256) →
    decodeQuads (b64core bytes) = some bytes
| [], _ => by simp [b64core, btoaBytes, decodeQuads]
| [a], hb => by
    have ha : a < 256 := hb a (by simp)
    rw [b64core_eq [a] hb]
    rw [decodeQuads, b64val_b64idx _ (by omega), b64val_b64idx _ (by omega)]
    simp
    omega
| [a, b], hb => by
    have ha : a < 256 := hb a (by simp)
    have hbb : b < 256 := hb b (by simp)
    rw [b64core_eq [a, b] hb]
    rw [decodeQuads, b64val_b64idx _ (by omega), b64val_b64idx _ (by omega),
      b64val_b64idx _ (by omega)]
    simp
    constructor
    · omega
    · omega
| a :: b :: c :: rest, hb => by
    have ha : a < 256 := hb a (by simp)
    have hbb : b < 256 := hb b (by simp)
    have hc : c < 256 := hb c (by simp)
    have ih := decodeQuads_b64core rest (fun x hx => hb x (by simp [hx]))
    rw [b64core_eq (a :: b :: c :: rest) hb]
    rw [decodeQuads, b64val_b64idx _ (by omega), b64val_b64idx _ (by omega),
      b64val_b64idx _ (by omega), b64val_b64idx _ (by omega), ih]
    simp
    refine ⟨by omega, by omega, by omega⟩

theorem dropPad_no_pad {t : Str} (h : '=' ∉ t) : dropPad t = t := by
  unfold dropPad
  rcases hr : t.reverse with _ | ⟨c1, rest1⟩
  · rfl
  · have hc1 : c1 ∈ t := by
      rw [← List.mem_reverse, hr]
      simp
    have hne : ¬ c1 = '=' := fun he => h (he ▸ hc1)
    simp [hne]

/-- The base64url codec inverts itself on byte sequences. -/
theorem b64Url_roundtrip_bytes (bytes : List Nat) (hb : ∀ b ∈ bytes, b < 256) :
    b64UrlDecodeBytes (b64UrlEncodeBytes bytes) = some bytes := by
  have hchars : ∀ c ∈ b64core bytes, ∃ n, n < 64 ∧ c = b64idx n := by
    intro c hc
    have hmem : c ∈ btoaBytes bytes := List.mem_of_mem_filter hc
    have hne : c ≠ '=' := by
      have := List.of_mem_filter hc
      simpa using this
    rcases btoaBytes_chars bytes hb c hmem with h | h
    · exact absurd h hne
    · exact h
  have hne : ∀ c ∈ b64core bytes, c ≠ '=' := by
    intro c hc
    rcases hchars c hc with ⟨n, hn, rfl⟩
    exact (b64idx_facts n hn).1
  have hnws : ∀ c ∈ b64core bytes, (!isAsciiWs c) = true := by
    intro c hc
    rcases hchars c hc with ⟨n, hn, rfl⟩
    simp [(b64idx_facts n hn).2.1]
  have hfrom : fromB64URLEncoding (b64UrlEncodeBytes bytes) = b64core bytes := by
    unfold fromB64URLEncoding b64UrlEncodeBytes toB64URLEncoding
    rw [List.map_map]
    have hcong : ∀ c ∈ (btoaBytes bytes).filter (fun c => c ≠ '='),
        (urlFrom ∘ urlTo) c = c := by
      intro c hc
      rcases hchars c hc with ⟨n, hn, hcn⟩
      rw [hcn]
      exact (b64idx_facts n hn).2.2.1
    rw [List.map_congr_left hcong, List.map_id']
    rfl
  unfold b64UrlDecodeBytes
  rw [hfrom]
  unfold atobChars
  dsimp only
  rw [List.filter_eq_self.mpr hnws]
  by_cases hlen : (b64core bytes).length % 4 = 0
  · rw [if_pos hlen, dropPad_no_pad (fun hmem => (hne '=' hmem) rfl), if_neg (by omega)]
    exact decodeQuads_b64core bytes hb
  · rw [if_neg hlen, if_neg (b64core_len bytes hb)]
    exact decodeQuads_b64core bytes hb

/-- No output character of the url-safe encoder is a dot (so the three
token segments can be recovered by splitting on `.`). -/
theorem b64UrlEncodeBytes_no_dot (bytes : List Nat) (hb : ∀ b ∈ bytes, b < 256) :
    ∀ c ∈ b64UrlEncodeBytes bytes, c ≠ '.' := by
  intro c hc
  unfold b64UrlEncodeBytes toB64URLEncoding at hc
  rcases List.mem_map.mp hc with ⟨c0, hc0, rfl⟩
  have hmem : c0 ∈ btoaBytes bytes := List.mem_of_mem_filter hc0
  have hne : c0 ≠ '=' := by
    have := List.of_mem_filter hc0
    simpa using this
  rcases btoaBytes_chars bytes hb c0 hmem with h | ⟨n, hn, rfl⟩
  · exact absurd h hne
  · exact (b64idx_facts n hn).2.2.2

/-- String-level url-safe base64: encoding then decoding is the
identity on latin-1 strings. -/
theorem b64UrlStr_roundtrip (s : Str) (hs : ∀ c ∈ s, c.toNat < 256) :
    b64UrlEncodeStr s = some (b64UrlEncodeBytes (s.map Char.toNat)) ∧
      b64UrlDecodeStr (b64UrlEncodeBytes (s.map Char.toNat)) = some s := by
  constructor
  · unfold b64UrlEncodeStr btoa
    rw [if_pos (List.all_eq_true.mpr (fun c hc => decide_eq_true (hs c hc)))]
    rfl
  · unfold b64UrlDecodeStr
    rw [b64Url_roundtrip_bytes (s.map Char.toNat)
      (by intro b hb; rcases List.mem_map.mp hb with ⟨c, hc, rfl⟩; exact hs c hc)]
    show some ((s.map Char.toNat).map Char.ofNat) = some s
    rw [List.map_map]
    simp only [Function.comp_def]
    rw [List.map_congr_left (g := id) (fun c _ => Char.ofNat_toNat c), List.map_id]

/-- JavaScript `jwt.split(".")`. -/
def splitOnDot : Str → List Str
| [] => [[]]
| c :: cs =>
    if c = '.' then [] :: splitOnDot cs
    else
      match splitOnDot cs with
      | [] => [[c]]
      | g :: gs => (c :: g) :: gs

theorem splitOnDot_cons (c : Char) (cs : Str) :
    splitOnDot (c :: cs) =
      if c = '.' then [] :: splitOnDot cs
      else match splitOnDot cs with
        | [] => [[c]]
        | g :: gs => (c :: g) :: gs := rfl

theorem splitOnDot_ne_nil : ∀ s : Str, splitOnDot s ≠ []
| [] => by decide
| c :: cs => by
    rw [splitOnDot_cons]
    by_cases h : c = '.'
    · simp [h]
    · rw [if_neg h]
      rcases hs : splitOnDot cs with _ | ⟨g, gs⟩ <;> simp

theorem splitOnDot_no_dot {s : Str} (h : ∀ c ∈ s, c ≠ '.') : splitOnDot s = [s] := by
  induction s with
  | nil => rfl
  | cons c cs ih =>
      rw [splitOnDot_cons, if_neg (h c (by simp)), ih (fun x hx => h x (by simp [hx]))]

theorem splitOnDot_append_dot {a : Str} (ha : ∀ c ∈ a, c ≠ '.') (s : Str) :
    splitOnDot (a ++ '.' :: s) = a :: splitOnDot s := by
  induction a with
  | nil => simp [splitOnDot_cons]
  | cons c cs ih =>
      rw [List.cons_append, splitOnDot_cons, if_neg (ha c (by simp)),
        ih (fun x hx => ha x (by simp [hx]))]

/-- Splitting the three-segment token shape. -/
theorem splitOnDot_three {a b : Str} (ha : ∀ c ∈ a, c ≠ '.') (hb : ∀ c ∈ b, c ≠ '.')
    {c : Str} (hc : ∀ x ∈ c, x ≠ '.') :
    splitOnDot (a ++ '.' :: (b ++ '.' :: c)) = [a, b, c] := by
  rw [splitOnDot_append_dot ha, splitOnDot_append_dot hb, splitOnDot_no_dot hc]

/-- The external nkeys `KeyPair` capability (`src/nkeys.ts`): an opaque
public key string, a signing function, a verifier, and whether private
material is present (`getPrivateKey` throws when it is not). -/
structure KeyPair where
  pub : Str
  canSign : Bool
  sign : List Nat → List Nat
  verify : List Nat → List Nat → Bool

/-- The external nkeys module: construction of key pairs from seeds and
from public keys.  The library treats both as opaque. -/
structure NkeysWorld where
  fromSeed : Str → KeyPair
  fromPublic : Str → KeyPair

/-- The exceptions the library can raise (plain `Error`s in the source,
distinguished here by site; `unexpectedType` carries the exact message
text asserted by the spec). -/
inductive JsError where
| malformedToken (chunks : Nat)
| unsupportedTypeOrAlgorithm
| sigVerificationFailed
| unexpectedType (msg : Str)
| missingPrivateKey
| invalidCharacter
| syntaxError
| typeError
deriving DecidableEq

/-- `Key = string | Uint8Array | KeyPair` (`src/keys.ts`). -/
inductive Key where
| str (s : Str)
| bytes (b : List Nat)
| pair (kp : KeyPair)

/-- The `type` parameter of `checkKey`: `string | string[]`. -/
inductive TyArg where
| one (t : Str)
| many (ts : List Str)

/-- `parseKey`: a textual key beginning with `S` is a seed; anything
else is treated as a public key. -/
def parseKey (W : NkeysWorld) (v : Str) : KeyPair :=
  if v.head? = some 'S' then W.fromSeed v else W.fromPublic v

/-- `k.charAt(0)`: one-character string, or empty for the empty string. -/
def charAt0 (s : Str) : Str :=
  match s with
  | [] => []
  | c :: _ => [c]

/-- Comma-joined rendering of a string array (JavaScript `${types}`). -/
def joinComma (ts : List Str) : Str := List.intercalate [','] ts

/-- `checkKey(v, type, seed)` (`src/keys.ts`): resolve the key reference,
enforce the expected leading type characters, and require private
material when `seed` is set. -/
def checkKey (W : NkeysWorld) (v : Key) (type : TyArg) (seed : Bool) :
    Except JsError KeyPair :=
  let kp : KeyPair :=
    match v with
    | .str s => parseKey W s
    | .bytes b => parseKey W (b.map Char.ofNat)
    | .pair kp => kp
  let k := kp.pub
  let types : List Str :=
    match type with
    | .one t => if t = [] then [] else [t]
    | .many ts => ts
  let tyLen : Nat :=
    match type with
    | .one t => t.length
    | .many ts => ts.length
  if tyLen > 0 && !(types.contains (charAt0 k)) then
    .error (.unexpectedType ("unexpected type ".toList ++ charAt0 k ++
      " - wanted ".toList ++ joinComma types))
  else if seed && !kp.canSign then .error .missingPrivateKey
  else .ok kp

/-- The JWT algorithm enum (`Algorithms` in `src/jwt.ts`). -/
inductive Algorithms where
| v1
| v2
deriving DecidableEq

/-- The wire tag of each algorithm. -/
def algTag : Algorithms → Str
| .v1 => "ed25519".toList
| .v2 => "ed25519-nkey".toList

/-- The claim type tags (`Types` in `src/types.ts`). -/
def Types.Operator : Str := "operator".toList

/-- Account type tag. -/
def Types.Account : Str := "account".toList

/-- User type tag. -/
def Types.User : Str := "user".toList

/-- Activation type tag. -/
def Types.Activation : Str := "activation".toList

/-- Encoding options (`EncodingOptions`): requested algorithm (absent
means the v2 default), optional delegated signer, optional validity
window. -/
structure EncodingOptions where
  algorithm : Option Algorithms := none
  signer : Option Key := none
  exp : Option Int := none
  nbf : Option Int := none

/-- User encoding options add the `scopedUser` flag. -/
structure UserEncodingOptions extends EncodingOptions where
  scopedUser : Bool := false

/-- External effects of one `encode` call: the clock reading for `iat`
and the freshly produced unique id for `jti` (a content digest when the
crypto capability exists, a random id otherwise — both external). -/
structure Ctx where
  now : Int
  jti : Str

/-- `initClaim`: an envelope carrying just the caller's `exp`/`nbf`
(undefined-valued properties are invisible to serialization). -/
def initClaim (exp nbf : Option Int) : Members :=
  let m := Members.nil
  let m := match exp with
    | some e => m.set ("exp".toList) (.num e)
    | none => m
  match nbf with
  | some e => m.set ("nbf".toList) (.num e)
  | none => m

/-- `claim.nats[k] = v`: property assignment through the `nats` field;
throws when `nats` is not an object. -/
def setNats (claim : Members) (k : Str) (v : Json) : Except JsError Members :=
  match claim.lookup ("nats".toList) with
  | some (.obj ms) => .ok (claim.set ("nats".toList) (.obj (ms.set k v)))
  | _ => .error .typeError

/-- `setVersionType`: fix the audience and place the type tag at the
algorithm-appropriate position. -/
def setVersionType (version : Algorithms) (type : Str) (claim : Members) :
    Except JsError Members :=
  let claim := claim.set ("aud".toList) (.str ("NATS".toList))
  if version = .v2 then setNats claim ("type".toList) (.str type)
  else .ok (claim.set ("type".toList) (.str type))

/-- The claim mutations the core `encode` performs before serializing:
assign `iss`/`iat`, record the payload version under v2, and assign the
fresh `jti`. -/
def finalClaim (version : Algorithms) (claim : Members) (kp : KeyPair) (ctx : Ctx) :
    Except JsError Members := do
  let claim := claim.set ("iss".toList) (.str kp.pub)
  let claim := claim.set ("iat".toList) (.num ctx.now)
  let claim ← if version = .v2 then setNats claim ("version".toList) (.num 2) else pure claim
  pure (claim.set ("jti".toList) (.str ctx.jti))

/-- The header object `encode` serializes. -/
def jwtHeader (version : Algorithms) : Members :=
  .cons ("typ".toList) (.str ("JWT".toList)) (.cons ("alg".toList) (.str (algTag version)) .nil)

/-- The core `encode`: apply `finalClaim`, serialize, and sign the
algorithm-appropriate input. -/
def encode (version : Algorithms) (claim : Members) (kp : KeyPair) (ctx : Ctx) :
    Except JsError Str := do
  let claim ← finalClaim version claim kp ctx
  let hstr ← match b64UrlEncodeStr (serJson [] [] (.obj (jwtHeader version))) with
    | some h => pure h
    | none => throw .invalidCharacter
  let bstr ← match b64UrlEncodeStr (serJson [] [] (.obj claim)) with
    | some b => pure b
    | none => throw .invalidCharacter
  let payload := if version = .v2 then hstr ++ '.' :: bstr else bstr
  let sig := b64UrlEncodeBytes (kp.sign (te payload))
  pure (hstr ++ '.' :: bstr ++ '.' :: sig)

/-- `extend(a, b)` via `Object.assign`: fold property assignment. -/
def Members.assign : Members → Members → Members
| a, .nil => a
| a, .cons k v rest => (a.set k v).assign rest

/-- `defaultUser`: merge the caller's user payload over default NATS
limits. -/
def defaultUser (d : Members) : Members :=
  (Members.cons ("data".toList) (.num (-1))
    (Members.cons ("payload".toList) (.num (-1))
      (Members.cons ("subs".toList) (.num (-1)) .nil))).assign d

/-- `encodeOperator` (`src/jwt.ts`). -/
def encodeOperator (W : NkeysWorld) (ctx : Ctx) (name : Str) (okp : Key)
    (operator : Members) (opts : EncodingOptions) : Except JsError Str := do
  let okp ← checkKey W okp (.one ("O".toList)) opts.signer.isNone
  let signer ← match opts.signer with
    | some s => checkKey W s (.many [("O".toList)]) true
    | none => pure okp
  let claim := initClaim opts.exp opts.nbf
  let claim := claim.set ("name".toList) (.str name)
  let claim := claim.set ("sub".toList) (.str okp.pub)
  let claim := claim.set ("nats".toList) (.obj operator)
  let alg := opts.algorithm.getD .v2
  let claim ← setVersionType alg Types.Operator claim
  encode alg claim signer ctx

/-- `encodeAccount` (`src/jwt.ts`). -/
def encodeAccount (W : NkeysWorld) (ctx : Ctx) (name : Str) (akp : Key)
    (account : Members) (opts : EncodingOptions) : Except JsError Str := do
  let akp ← checkKey W akp (.one ("A".toList)) opts.signer.isNone
  let signer ← match opts.signer with
    | some s => checkKey W s (.many [("O".toList), ("A".toList)]) true
    | none => pure akp
  let claim := initClaim opts.exp opts.nbf
  let claim := claim.set ("name".toList) (.str name)
  let claim := claim.set ("sub".toList) (.str akp.pub)
  let claim := claim.set ("nats".toList) (.obj account)
  let alg := opts.algorithm.getD .v2
  let claim ← setVersionType alg Types.Account claim
  encode alg claim signer ctx

/-- `encodeUser` (`src/jwt.ts`). -/
def encodeUser (W : NkeysWorld) (ctx : Ctx) (name : Str) (ukp : Key) (issuer : Key)
    (user : Members) (opts : UserEncodingOptions) : Except JsError Str := do
  let issuer ← checkKey W issuer (.one ("A".toList)) opts.signer.isNone
  let signer ← match opts.signer with
    | some s => checkKey W s (.one ("A".toList)) true
    | none => pure issuer
  let ukp ← checkKey W ukp (.one ("U".toList)) false
  let claim := initClaim opts.exp opts.nbf
  let claim := claim.set ("name".toList) (.str name)
  let claim := claim.set ("sub".toList) (.str ukp.pub)
  let claim := claim.set ("nats".toList)
    (.obj (if opts.scopedUser then user else defaultUser user))
  let claim ← if opts.signer.isSome then
      setNats claim ("issuer_account".toList) (.str issuer.pub)
    else pure claim
  let claim := claim.set ("aud".toList) (.str ("NATS".toList))
  let alg := opts.algorithm.getD .v2
  let claim ← setVersionType alg Types.User claim
  encode alg claim signer ctx

/-- `encodeActivation` (`src/jwt.ts`). -/
def encodeActivation (W : NkeysWorld) (ctx : Ctx) (name : Str) (subject : Key)
    (issuer : Key) (kind : Str) (data : Members) (opts : EncodingOptions) :
    Except JsError Str := do
  let subject ← checkKey W subject (.one []) false
  let issuer ← checkKey W issuer (.one []) opts.signer.isNone
  let signer ← match opts.signer with
    | some s => checkKey W s (.one []) true
    | none => pure issuer
  let claim := initClaim opts.exp opts.nbf
  let claim := claim.set ("name".toList) (.str name)
  let claim := claim.set ("sub".toList) (.str subject.pub)
  let claim := claim.set ("nats".toList) (.obj data)
  let claim ← if opts.signer.isSome then
      setNats claim ("issuer_account".toList) (.str issuer.pub)
    else pure claim
  let alg := opts.algorithm.getD .v2
  let key := if alg = .v2 then ("kind".toList) else ("type".toList)
  let claim ← setNats claim key (.str kind)
  let claim ← setVersionType alg Types.Activation claim
  encode alg claim signer ctx

/-- `encodeGeneric` (`src/jwt.ts`); note the signer is always the
subject key itself. -/
def encodeGeneric (W : NkeysWorld) (ctx : Ctx) (name : Str) (akp : Key) (kind : Str)
    (data : Members) (opts : EncodingOptions) : Except JsError Str := do
  let akp ← checkKey W akp (.one []) false
  let claim := initClaim opts.exp opts.nbf
  let claim := claim.set ("name".toList) (.str name)
  let claim := claim.set ("nats".toList) (.obj data)
  let claim := claim.set ("sub".toList) (.str akp.pub)
  let alg := opts.algorithm.getD .v2
  let claim ← setVersionType alg kind claim
  encode alg claim akp ctx

/-- JavaScript property read `o.k` that throws on `null`/`undefined`
receivers and yields `undefined` on other primitives. -/
def jsGet : Json → Str → Except JsError (Option Json)
| .null, _ => .error .typeError
| j, k => .ok (j.objLookup k)

/-- `decode` (`src/jwt.ts`): split, validate the header, reconstruct
the issuer's verification key from the payload's `iss`, verify the
signature over the algorithm-appropriate input, and return the
envelope. -/
def decode (W : NkeysWorld) (jwt : Str) : Except JsError Json := do
  match splitOnDot jwt with
  | [c0, c1, c2] => do
      let hstr ← match b64UrlDecodeStr c0 with
        | some s => pure s
        | none => throw .invalidCharacter
      let h ← match jsonParse hstr with
        | some j => pure j
        | none => throw .syntaxError
      let typ ← jsGet h ("typ".toList)
      if typ ≠ some (.str ("jwt".toList)) ∧ typ ≠ some (.str ("JWT".toList)) then
        throw .unsupportedTypeOrAlgorithm
      else do
      let alg ← jsGet h ("alg".toList)
      if alg ≠ some (.str (algTag .v1)) ∧ alg ≠ some (.str (algTag .v2)) then
        throw .unsupportedTypeOrAlgorithm
      else do
      let bstr ← match b64UrlDecodeStr c1 with
        | some s => pure s
        | none => throw .invalidCharacter
      let b ← match jsonParse bstr with
        | some j => pure j
        | none => throw .syntaxError
      let issV ← jsGet b ("iss".toList)
      let ipk ← match issV with
        | some (.str s) => checkKey W (.str s) (.one []) false
        | _ => throw .typeError
      let sig ← match b64UrlDecodeBytes c2 with
        | some bs => pure bs
        | none => throw .invalidCharacter
      let payload := if alg = some (.str (algTag .v2)) then c0 ++ '.' :: c1 else c1
      if ipk.verify (te payload) sig then pure b else throw .sigVerificationFailed
  | cs => throw (.malformedToken cs.length)

/-- `version(c)` (`src/util.ts`): the payload's `version` value when
truthy, else `1`; throws when `c` or `c.nats` is nullish. -/
def versionJ (c : Json) : Except JsError Json := do
  let gen ← jsGet c ("nats".toList)
  let v ← match gen with
    | none => throw .typeError
    | some .null => throw .typeError
    | some g => pure (g.objLookup ("version".toList))
  pure (match v with
    | some j => if j.truthy then j else .num 1
    | none => .num 1)

/-- The type tag each classifier compares: the envelope's top-level
`type` for v1, the payload's `type` otherwise. -/
def typeOf (c : Json) : Except JsError (Option Json) := do
  let v ← versionJ c
  if v = .num 1 then pure (c.objLookup ("type".toList))
  else pure (((c.objLookup ("nats".toList)).getD .null).objLookup ("type".toList))

/-- `isOperator` (`src/util.ts`). -/
def isOperator (c : Json) : Except JsError Bool := do
  let t ← typeOf c
  pure (t = some (.str Types.Operator))

/-- `isAccount` (`src/util.ts`). -/
def isAccount (c : Json) : Except JsError Bool := do
  let t ← typeOf c
  pure (t = some (.str Types.Account))

/-- `isUser` (`src/util.ts`). -/
def isUser (c : Json) : Except JsError Bool := do
  let t ← typeOf c
  pure (t = some (.str Types.User))

/-- `isActivation` (`src/util.ts`). -/
def isActivation (c : Json) : Except JsError Bool := do
  let t ← typeOf c
  pure (t = some (.str Types.Activation))

/-- `isGeneric` (`src/util.ts`): note the source tests only the three
kinds Account, User and Activation. -/
def isGeneric (c : Json) : Except JsError Bool := do
  let a ← isAccount c
  if a then pure false
  else do
    let u ← isUser c
    if u then pure false
    else do
      let act ← isActivation c
      pure (!act)

mutual
/-- The `replacer` of `equivalent` as a tree transform: drop `iat` and
`jti` members at every level before serializing. -/
def Json.scrub : Json → Json
| .null => .null
| .bool b => .bool b
| .num n => .num n
| .str s => .str s
| .obj ms => .obj ms.scrubM
| .arr es => .arr es.scrubE

/-- `Json.scrub` on members. -/
def Members.scrubM : Members → Members
| .nil => .nil
| .cons k v rest =>
    if k = ("iat".toList) ∨ k = ("jti".toList) then rest.scrubM
    else .cons k v.scrub rest.scrubM

/-- `Json.scrub` on elements. -/
def Elems.scrubE : Elems → Elems
| .nil => .nil
| .cons v rest => .cons v.scrub rest.scrubE
end

/-- Effectful map over array elements (models a mutating `forEach` that
can throw). -/
def Elems.mapME (f : Json → Except JsError Json) : Elems → Except JsError Elems
| .nil => pure .nil
| .cons v rest => do
    let v' ← f v
    let rest' ← rest.mapME f
    pure (.cons v' rest')

/-- One import entry of `expandTokens`: when the entry carries a truthy
`token`, decode it and replace it with the `iat`/`jti`-scrubbed pretty
serialization of the decoded claim. -/
def expandImport (W : NkeysWorld) (im : Json) : Except JsError Json :=
  match im with
  | .null => .error .typeError
  | _ =>
      let tok := im.objLookup ("token".toList)
      if jsTruthy tok then
        match tok with
        | some (.str s) => do
            let td ← decode W s
            match im with
            | .obj ms =>
                pure (.obj (ms.set ("token".toList) (.str (serJson [' '] [] td.scrub))))
            | _ => .error .typeError
        | _ => .error .typeError
      else pure im

/-- `expandTokens` of `equivalent`: normalize `nats.imports` (the `?? []`
default) and expand every nested activation token. -/
def expandTokens (W : NkeysWorld) (c : Json) : Except JsError Json := do
  match c with
  | .obj cm =>
      match cm.lookup ("nats".toList) with
      | some (.obj nm) => do
          let imports := match nm.lookup ("imports".toList) with
            | some v => if v = Json.null then Json.arr .nil else v
            | none => Json.arr .nil
          match imports with
          | .arr es => do
              let es' ← es.mapME (expandImport W)
              pure (.obj (cm.set ("nats".toList) (.obj (nm.set ("imports".toList) (.arr es')))))
          | _ => .error .typeError
      | _ => .error .typeError
  | _ => .error .typeError

/-- `equivalent(a, b)` (`src/util.ts`): decode both tokens, expand
nested activation tokens of account claims, serialize both with the
`iat`/`jti` filter and compare the resulting texts. -/
def equivalent (W : NkeysWorld) (a b : Str) : Except JsError Bool := do
  let ca ← decode W a
  let ca ← do
    let isAcc ← isAccount ca
    if isAcc then expandTokens W ca else pure ca
  let cb ← decode W b
  let cb ← do
    let isAcc ← isAccount cb
    if isAcc then expandTokens W cb else pure cb
  let as := serJson [' '] [] ca.scrub
  let bs := serJson [' '] [] cb.scrub
  pure (as = bs)

deriving instance DecidableEq for Except

mutual
/-- All string content (keys and values) lies below code point 256, so
`btoa` accepts the serialized text. -/
def Json.latin1 : Json → Bool
| .null => true
| .bool _ => true
| .num _ => true
| .str s => s.all (fun c => c.toNat < 256)
| .obj ms => ms.latin1M
| .arr es => es.latin1E

/-- `Json.latin1` on members. -/
def Members.latin1M : Members → Bool
| .nil => true
| .cons k v rest => k.all (fun c => c.toNat < 256) && v.latin1 && rest.latin1M

/-- `Json.latin1` on elements. -/
def Elems.latin1E : Elems → Bool
| .nil => true
| .cons v rest => v.latin1 && rest.latin1E
end

theorem natStr_latin1 : ∀ n : Nat, ∀ c ∈ natStr n, c.toNat < 256 := by
  intro n
  induction n using Nat.strong_induction_on with
  | _ n ih =>
      intro c hc
      by_cases h : n < 10
      · rw [natStr_unfold, if_pos h] at hc
        rcases List.mem_singleton.mp hc with rfl
        have := (digitChar_digit h).1
        simp only [isDigitCh, Bool.and_eq_true, decide_eq_true_eq] at this
        omega
      · rw [natStr_unfold, if_neg h] at hc
        rcases List.mem_append.mp hc with hm | hm
        · exact ih (n / 10) (Nat.div_lt_self (by omega) (by omega)) c hm
        · rcases List.mem_singleton.mp hm with rfl
          have h10 : n % 10 < 10 := Nat.mod_lt n (by omega)
          have := (digitChar_digit h10).1
          simp only [isDigitCh, Bool.and_eq_true, decide_eq_true_eq] at this
          omega

theorem serNum_latin1 (n : Int) : ∀ c ∈ serNum n, c.toNat < 256 := by
  intro c hc
  unfold serNum at hc
  by_cases h : n < 0
  · rw [if_pos h] at hc
    rcases List.mem_cons.mp hc with rfl | hm
    · decide
    · exact natStr_latin1 _ c hm
  · rw [if_neg h] at hc
    exact natStr_latin1 _ c hc

theorem hexDig_latin1 : ∀ v, v < 16 → (hexDig v).toNat < 256 := by decide

theorem escChar_latin1 {c0 : Char} (h : c0.toNat < 256) : ∀ c ∈ escChar c0, c.toNat < 256 := by
  intro c hc
  by_cases h1 : c0 = '"'
  · subst h1
    rw [show escChar '"' = ['\\', '"'] from rfl] at hc
    simp at hc
    rcases hc with rfl | rfl <;> decide
  by_cases h2 : c0 = '\\'
  · subst h2
    rw [show escChar '\\' = ['\\', '\\'] from rfl] at hc
    simp at hc
    subst hc
    decide
  by_cases h3 : c0 = '\x08'
  · subst h3
    rw [show escChar '\x08' = ['\\', 'b'] from rfl] at hc
    simp at hc
    rcases hc with rfl | rfl <;> decide
  by_cases h4 : c0 = '\x09'
  · subst h4
    rw [show escChar '\x09' = ['\\', 't'] from rfl] at hc
    simp at hc
    rcases hc with rfl | rfl <;> decide
  by_cases h5 : c0 = '\x0a'
  · subst h5
    rw [show escChar '\x0a' = ['\\', 'n'] from rfl] at hc
    simp at hc
    rcases hc with rfl | rfl <;> decide
  by_cases h6 : c0 = '\x0c'
  · subst h6
    rw [show escChar '\x0c' = ['\\', 'f'] from rfl] at hc
    simp at hc
    rcases hc with rfl | rfl <;> decide
  by_cases h7 : c0 = '\x0d'
  · subst h7
    rw [show escChar '\x0d' = ['\\', 'r'] from rfl] at hc
    simp at hc
    rcases hc with rfl | rfl <;> decide
  by_cases h8 : c0.toNat < 32
  · have hesc : escChar c0 =
        ['\\', 'u', '0', '0', hexDig (c0.toNat / 16), hexDig (c0.toNat % 16)] := by
      simp [escChar, h1, h2, h3, h4, h5, h6, h7, h8]
    rw [hesc] at hc
    simp at hc
    rcases hc with rfl | rfl | rfl | rfl | rfl <;>
      first
      | decide
      | exact hexDig_latin1 _ (by omega)
  · have hesc : escChar c0 = [c0] := by
      simp [escChar, h1, h2, h3, h4, h5, h6, h7, h8]
    rw [hesc] at hc
    simp at hc
    subst hc
    exact h

theorem serQuote_latin1 {s : Str} (hs : ∀ c ∈ s, c.toNat < 256) :
    ∀ c ∈ serQuote s, c.toNat < 256 := by
  intro c hc
  unfold serQuote at hc
  rcases List.mem_cons.mp hc with rfl | hm
  · decide
  rcases List.mem_append.mp hm with hm2 | hm2
  · rcases List.mem_flatten.mp hm2 with ⟨l, hl, hcl⟩
    rcases List.mem_map.mp hl with ⟨c0, hc0, rfl⟩
    exact escChar_latin1 (hs c0 hc0) c hcl
  · rcases List.mem_singleton.mp hm2 with rfl
    decide

mutual
theorem serJson_latin1 : ∀ (gap ind : Str) (j : Json),
    (∀ c ∈ gap, c.toNat < 256) → (∀ c ∈ ind, c.toNat < 256) → j.latin1 = true →
    ∀ c ∈ serJson gap ind j, c.toNat < 256
| gap, ind, .null, _, _, _ => by
    intro c hc
    rcases hc with _ | ⟨_, _ | ⟨_, _ | ⟨_, _ | ⟨_, h⟩⟩⟩⟩ <;> first | decide | cases h
| gap, ind, .bool true, _, _, _ => by
    intro c hc
    rcases hc with _ | ⟨_, _ | ⟨_, _ | ⟨_, _ | ⟨_, h⟩⟩⟩⟩ <;> first | decide | cases h
| gap, ind, .bool false, _, _, _ => by
    intro c hc
    rcases hc with _ | ⟨_, _ | ⟨_, _ | ⟨_, _ | ⟨_, _ | ⟨_, h⟩⟩⟩⟩⟩ <;> first | decide | cases h
| gap, ind, .num n, _, _, _ => by
    intro c hc
    exact serNum_latin1 n c hc
| gap, ind, .str s, _, _, hl => by
    intro c hc
    rw [Json.latin1] at hl
    exact serQuote_latin1 (by simpa [List.all_eq_true] using hl) c hc
| gap, ind, .obj .nil, _, _, _ => by
    intro c hc
    rcases hc with _ | ⟨_, _ | ⟨_, h⟩⟩ <;> first | decide | cases h
| gap, ind, .obj (.cons k v tl), hg, hi, hl => by
    intro c hc
    rw [Json.latin1] at hl
    have hind : ∀ c ∈ ind ++ gap, c.toNat < 256 := by
      intro x hx
      rcases List.mem_append.mp hx with h | h
      · exact hi x h
      · exact hg x h
    have hms := serMembers_latin1 gap (ind ++ gap) (.cons k v tl) hg hind hl
    by_cases hgap : gap = []
    · subst hgap
      rw [serJson, if_pos rfl] at hc
      rcases List.mem_cons.mp hc with rfl | hm
      · decide
      rcases List.mem_append.mp hm with hm2 | hm2
      · exact hms c (by simpa using hm2)
      · rcases List.mem_cons.mp hm2 with rfl | hm3
        · decide
        · cases hm3
    · rw [serJson, if_neg hgap] at hc
      simp only [List.mem_cons, List.mem_append, List.mem_singleton,
        List.not_mem_nil, or_false] at hc
      casesm* _ ∨ _ <;>
        first
        | (subst_vars; decide)
        | exact hi c (by assumption)
        | exact hg c (by assumption)
        | exact hind c (by assumption)
        | exact hms c (by assumption)
| gap, ind, .arr .nil, _, _, _ => by
    intro c hc
    rcases hc with _ | ⟨_, _ | ⟨_, h⟩⟩ <;> first | decide | cases h
| gap, ind, .arr (.cons v tl), hg, hi, hl => by
    intro c hc
    rw [Json.latin1] at hl
    have hind : ∀ c ∈ ind ++ gap, c.toNat < 256 := by
      intro x hx
      rcases List.mem_append.mp hx with h | h
      · exact hi x h
      · exact hg x h
    have hes := serElems_latin1 gap (ind ++ gap) (.cons v tl) hg hind hl
    by_cases hgap : gap = []
    · subst hgap
      rw [serJson, if_pos rfl] at hc
      rcases List.mem_cons.mp hc with rfl | hm
      · decide
      rcases List.mem_append.mp hm with hm2 | hm2
      · exact hes c (by simpa using hm2)
      · rcases List.mem_cons.mp hm2 with rfl | hm3
        · decide
        · cases hm3
    · rw [serJson, if_neg hgap] at hc
      simp only [List.mem_cons, List.mem_append, List.mem_singleton,
        List.not_mem_nil, or_false] at hc
      casesm* _ ∨ _ <;>
        first
        | (subst_vars; decide)
        | exact hi c (by assumption)
        | exact hg c (by assumption)
        | exact hind c (by assumption)
        | exact hes c (by assumption)

theorem serMembers_latin1 : ∀ (gap ind : Str) (ms : Members),
    (∀ c ∈ gap, c.toNat < 256) → (∀ c ∈ ind, c.toNat < 256) → ms.latin1M = true →
    ∀ c ∈ serMembers gap ind ms, c.toNat < 256
| gap, ind, .nil, _, _, _ => by
    intro c hc
    cases hc
| gap, ind, .cons k v tl, hg, hi, hl => by
    intro c hc
    rw [Members.latin1M] at hl
    have hk : ∀ c ∈ k, c.toNat < 256 := by
      have := (Bool.and_eq_true_iff.mp (Bool.and_eq_true_iff.mp hl).1).1
      simpa [List.all_eq_true] using this
    have hv : v.latin1 = true := (Bool.and_eq_true_iff.mp (Bool.and_eq_true_iff.mp hl).1).2
    have htl : tl.latin1M = true := (Bool.and_eq_true_iff.mp hl).2
    have hvc := serJson_latin1 gap ind v hg hi hv
    rw [serMembers_cons] at hc
    rcases List.mem_append.mp hc with hm | hm
    · rcases List.mem_append.mp hm with hm2 | hm2
      · rcases List.mem_append.mp hm2 with hm3 | hm3
        · exact serQuote_latin1 hk c hm3
        · rcases List.mem_cons.mp hm3 with rfl | hm4
          · decide
          · by_cases hgap : gap = [] <;> simp [hgap] at hm4
            rcases hm4 with rfl
            decide
      · exact hvc c hm2
    · cases tl with
      | nil => cases hm
      | cons k2 v2 tl2 =>
          have htlc := serMembers_latin1 gap ind (.cons k2 v2 tl2) hg hi htl
          rcases List.mem_append.mp (by simpa using hm) with hm2 | hm2
          · by_cases hgap : gap = [] <;> simp [hgap] at hm2
            · rcases hm2 with rfl
              decide
            · rcases hm2 with rfl | rfl | hm3
              · decide
              · decide
              · exact hi c hm3
          · exact htlc c hm2

theorem serElems_latin1 : ∀ (gap ind : Str) (es : Elems),
    (∀ c ∈ gap, c.toNat < 256) → (∀ c ∈ ind, c.toNat < 256) → es.latin1E = true →
    ∀ c ∈ serElems gap ind es, c.toNat < 256
| gap, ind, .nil, _, _, _ => by
    intro c hc
    cases hc
| gap, ind, .cons v tl, hg, hi, hl => by
    intro c hc
    rw [Elems.latin1E] at hl
    have hv : v.latin1 = true := (Bool.and_eq_true_iff.mp hl).1
    have htl : tl.latin1E = true := (Bool.and_eq_true_iff.mp hl).2
    have hvc := serJson_latin1 gap ind v hg hi hv
    rw [serElems_cons] at hc
    rcases List.mem_append.mp hc with hm | hm
    · exact hvc c hm
    · cases tl with
      | nil => cases hm
      | cons v2 tl2 =>
          have htlc := serElems_latin1 gap ind (.cons v2 tl2) hg hi htl
          rcases List.mem_append.mp (by simpa using hm) with hm2 | hm2
          · by_cases hgap : gap = [] <;> simp [hgap] at hm2
            · rcases hm2 with rfl
              decide
            · rcases hm2 with rfl | rfl | hm3
              · decide
              · decide
              · exact hi c hm3
          · exact htlc c hm2
end

theorem Members.lookup_set_self : ∀ (ms : Members) (k : Str) (v : Json),
    (ms.set k v).lookup k = some v
| .nil, k, v => by simp [Members.set, Members.lookup]
| .cons k0 v0 rest, k, v => by
    by_cases h : k0 = k
    · simp [Members.set, h, Members.lookup]
    · simp [Members.set, h, Members.lookup, Members.lookup_set_self rest k v]

theorem Members.lookup_set_ne : ∀ (ms : Members) {k k' : Str}, k ≠ k' → ∀ (v : Json),
    (ms.set k v).lookup k' = ms.lookup k'
| .nil, k, k', h, v => by simp [Members.set, Members.lookup, h]
| .cons k0 v0 rest, k, k', h, v => by
    by_cases h0 : k0 = k
    · subst h0
      simp [Members.set, Members.lookup, h]
    · simp only [Members.set, if_neg h0, Members.lookup]
      by_cases h1 : k0 = k'
      · simp [h1]
      · simp [h1, Members.lookup_set_ne rest h v]

theorem Members.hasKey_set : ∀ (ms : Members) (k k' : Str) (v : Json),
    (ms.set k v).hasKey k' = (ms.hasKey k' || k = k')
| .nil, k, k', v => by simp [Members.set, Members.hasKey]
| .cons k0 v0 rest, k, k', v => by
    by_cases h0 : k0 = k
    · subst h0
      by_cases h1 : k0 = k' <;> simp [Members.set, Members.hasKey, h1]
    · simp [Members.set, h0, Members.hasKey, Members.hasKey_set rest k k' v, Bool.or_assoc]

theorem Members.mdedup_set : ∀ (ms : Members) (k : Str) (v : Json),
    ms.mdedup = true → v.dedup = true → (ms.set k v).mdedup = true
| .nil, k, v, _, hv => by simp [Members.set, Members.mdedup, Members.hasKey, hv]
| .cons k0 v0 rest, k, v, hm, hv => by
    rw [Members.mdedup] at hm
    have h1 : rest.hasKey k0 = false := by
      have := (Bool.and_eq_true_iff.mp (Bool.and_eq_true_iff.mp hm).1).1
      simpa using this
    have h2 : v0.dedup = true := (Bool.and_eq_true_iff.mp (Bool.and_eq_true_iff.mp hm).1).2
    have h3 : rest.mdedup = true := (Bool.and_eq_true_iff.mp hm).2
    by_cases h0 : k0 = k
    · subst h0
      simp [Members.set, Members.mdedup, h1, hv, h3]
    · simp [Members.set, h0, Members.mdedup, Members.hasKey_set, h1, h2, hv,
        Members.mdedup_set rest k v h3 hv, Ne.symm h0]

theorem Members.latin1M_set : ∀ (ms : Members) (k : Str) (v : Json),
    ms.latin1M = true → k.all (fun c => c.toNat < 256) = true → v.latin1 = true →
    (ms.set k v).latin1M = true
| .nil, k, v, _, hk, hv => by simp [Members.set, Members.latin1M, hk, hv]
| .cons k0 v0 rest, k, v, hm, hk, hv => by
    rw [Members.latin1M] at hm
    have h1 := (Bool.and_eq_true_iff.mp (Bool.and_eq_true_iff.mp hm).1).1
    have h2 := (Bool.and_eq_true_iff.mp (Bool.and_eq_true_iff.mp hm).1).2
    have h3 := (Bool.and_eq_true_iff.mp hm).2
    by_cases h0 : k0 = k
    · subst h0
      simp [Members.set, Members.latin1M, h1, hv, h3]
    · simp [Members.set, h0, Members.latin1M, h1, h2, hv, hk,
        Members.latin1M_set rest k v h3 hk hv]

theorem jwtHeader_facts (version : Algorithms) :
    (Json.obj (jwtHeader version)).dedup = true ∧
      (∀ c ∈ serJson [] [] (.obj (jwtHeader version)), c.toNat < 256) ∧
      (jwtHeader version).lookup ("typ".toList) = some (.str ("JWT".toList)) ∧
      (jwtHeader version).lookup ("alg".toList) = some (.str (algTag version)) := by
  cases version <;> exact ⟨by decide, by decide, by decide, by decide⟩

theorem trivWs : WsOnly ([] : Str) := WsOnly.nil

/-- No character bound for the empty whitespace strings. -/
theorem trivLat : ∀ c ∈ ([] : Str), c.toNat < 256 := by
  intro c hc
  cases hc

/-- The central round trip: a successfully encoded token decodes to
exactly the final claim object that was serialized and signed. -/
theorem decode_encode (W : NkeysWorld) (version : Algorithms) (claim : Members)
    (kp : KeyPair) (ctx : Ctx) (cF : Members)
    (hF : finalClaim version claim kp ctx = .ok cF)
    (hlat : (Json.obj cF).latin1 = true)
    (hded : (Json.obj cF).dedup = true)
    (hS : kp.pub.head? ≠ some 'S')
    (hsig : ∀ m, ∀ x ∈ kp.sign m, x < 256)
    (hver : ∀ m, (W.fromPublic kp.pub).verify (te m) (kp.sign (te m)) = true) :
    ∃ tok, encode version claim kp ctx = .ok tok ∧ decode W tok = .ok (.obj cF) := by
  obtain ⟨hhded, hhlat, hhtyp, hhalg⟩ := jwtHeader_facts version
  -- iss is what encode assigned
  have hiss : cF.lookup ("iss".toList) = some (.str kp.pub) := by
    unfold finalClaim at hF
    cases version with
    | v1 =>
        simp only [reduceCtorEq, if_neg, bind, Except.bind, pure] at hF
        cases hF
        rw [Members.lookup_set_ne _ (by decide),
          Members.lookup_set_ne _ (by decide), Members.lookup_set_self]
    | v2 =>
        simp only [if_pos rfl, bind, Except.bind, pure, setNats] at hF
        rcases hnats : (((claim.set ("iss".toList) (.str kp.pub)).set ("iat".toList)
            (.num ctx.now))).lookup ("nats".toList) with _ | natsv
        · rw [hnats] at hF
          cases hF
        · rw [hnats] at hF
          cases natsv with
          | null => cases hF
          | bool b => cases hF
          | num n => cases hF
          | str s => cases hF
          | arr es => cases hF
          | obj nm =>
              cases hF
              rw [Members.lookup_set_ne _ (by decide), Members.lookup_set_ne _ (by decide),
                Members.lookup_set_ne _ (by decide), Members.lookup_set_self]
  -- the serialized texts
  have hclat : ∀ c ∈ serJson [] [] (.obj cF), c.toNat < 256 :=
    serJson_latin1 [] [] (.obj cF) trivLat trivLat hlat
  obtain ⟨hhenc, hhdec⟩ := b64UrlStr_roundtrip (serJson [] [] (.obj (jwtHeader version))) hhlat
  obtain ⟨hbenc, hbdec⟩ := b64UrlStr_roundtrip (serJson [] [] (.obj cF)) hclat
  set hstr := b64UrlEncodeBytes ((serJson [] [] (.obj (jwtHeader version))).map Char.toNat)
    with hhstr
  set bstr := b64UrlEncodeBytes ((serJson [] [] (.obj cF)).map Char.toNat) with hbstr
  have hhb : ∀ c ∈ hstr, c ≠ '.' := by
    intro c hc
    exact b64UrlEncodeBytes_no_dot _ (by
      intro b hb
      rcases List.mem_map.mp hb with ⟨x, hx, rfl⟩
      exact hhlat x hx) c hc
  have hbb : ∀ c ∈ bstr, c ≠ '.' := by
    intro c hc
    exact b64UrlEncodeBytes_no_dot _ (by
      intro b hb
      rcases List.mem_map.mp hb with ⟨x, hx, rfl⟩
      exact hclat x hx) c hc
  set payload := if version = .v2 then hstr ++ '.' :: bstr else bstr with hpay
  set sigstr := b64UrlEncodeBytes (kp.sign (te payload)) with hsigstr
  have hsb : ∀ c ∈ sigstr, c ≠ '.' :=
    b64UrlEncodeBytes_no_dot _ (hsig (te payload))
  have henc : encode version claim kp ctx =
      .ok (hstr ++ '.' :: bstr ++ '.' :: sigstr) := by
    unfold encode
    rw [hF]
    simp only [bind, Except.bind, hhenc, hbenc]
    rfl
  refine ⟨hstr ++ '.' :: bstr ++ '.' :: sigstr, henc, ?_⟩
  have hsplit : splitOnDot (hstr ++ '.' :: bstr ++ '.' :: sigstr) = [hstr, bstr, sigstr] := by
    rw [show hstr ++ '.' :: bstr ++ '.' :: sigstr =
      hstr ++ '.' :: (bstr ++ '.' :: sigstr) from by simp]
    exact splitOnDot_three hhb hbb hsb
  have hjh : jsonParse (serJson [] [] (.obj (jwtHeader version))) =
      some (.obj (jwtHeader version)) := jsonParse_serJson trivWs trivWs hhded
  have hjb : jsonParse (serJson [] [] (.obj cF)) = some (.obj cF) :=
    jsonParse_serJson trivWs trivWs hded
  have hsigdec : b64UrlDecodeBytes sigstr = some (kp.sign (te payload)) :=
    b64Url_roundtrip_bytes _ (hsig (te payload))
  have hkc : checkKey W (.str kp.pub) (.one []) false = .ok (W.fromPublic kp.pub) := by
    simp [checkKey, parseKey, hS]
  unfold decode
  rw [hsplit]
  simp only [bind, Except.bind, pure, Except.pure, hhdec, hjh, hbdec, hjb, hsigdec,
    jsGet, Json.objLookup, hhtyp, hhalg, hiss, hkc]
  cases version with
  | v1 =>
      simp only [algTag, hpay]
      simp +decide [hver bstr]
  | v2 =>
      simp only [algTag, hpay]
      simp +decide [hver (hstr ++ '.' :: bstr)]

theorem Members.lookup_set (ms : Members) (k : Str) (v : Json) (k' : Str) :
    (ms.set k v).lookup k' = if k = k' then some v else ms.lookup k' := by
  by_cases h : k = k'
  · subst h
    simp [Members.lookup_set_self]
  · simp [h, Members.lookup_set_ne ms h]

theorem Members.mdedup_lookup : ∀ (ms : Members) {k : Str} {v : Json},
    ms.mdedup = true → ms.lookup k = some v → v.dedup = true
| .nil, k, v, _, hl => by cases hl
| .cons k0 v0 rest, k, v, hd, hl => by
    rw [Members.mdedup] at hd
    rw [Members.lookup] at hl
    by_cases h : k0 = k
    · rw [if_pos h] at hl
      cases hl
      exact (Bool.and_eq_true_iff.mp (Bool.and_eq_true_iff.mp hd).1).2
    · rw [if_neg h] at hl
      exact Members.mdedup_lookup rest (Bool.and_eq_true_iff.mp hd).2 hl

theorem Members.latin1M_lookup : ∀ (ms : Members) {k : Str} {v : Json},
    ms.latin1M = true → ms.lookup k = some v → v.latin1 = true
| .nil, k, v, _, hl => by cases hl
| .cons k0 v0 rest, k, v, hd, hl => by
    rw [Members.latin1M] at hd
    rw [Members.lookup] at hl
    by_cases h : k0 = k
    · rw [if_pos h] at hl
      cases hl
      exact (Bool.and_eq_true_iff.mp (Bool.and_eq_true_iff.mp hd).1).2
    · rw [if_neg h] at hl
      exact Members.latin1M_lookup rest (Bool.and_eq_true_iff.mp hd).2 hl

theorem initClaim_mdedup (e n : Option Int) : (initClaim e n).mdedup = true := by
  unfold initClaim
  cases e <;> cases n <;> simp [Members.set, Members.mdedup, Members.hasKey, Json.dedup]

theorem initClaim_latin1 (e n : Option Int) : (initClaim e n).latin1M = true := by
  unfold initClaim
  cases e <;> cases n <;> simp +decide [Members.set, Members.latin1M, Json.latin1]

theorem initClaim_lookup (e n : Option Int) (k : Str) :
    (initClaim e n).lookup k =
      if ("exp".toList : Str) = k then e.map Json.num
      else if ("nbf".toList : Str) = k then n.map Json.num
      else none := by
  unfold initClaim
  by_cases h1 : (['e', 'x', 'p'] : Str) = k
  · by_cases h2 : (['n', 'b', 'f'] : Str) = k
    · exact absurd (h1.trans h2.symm) (by decide)
    · cases e <;> cases n <;>
        simp [Members.lookup_set, Members.lookup, h1, h2]
  · by_cases h2 : (['n', 'b', 'f'] : Str) = k
    · cases e <;> cases n <;>
        simp [Members.lookup_set, Members.lookup, h1, h2]
    · cases e <;> cases n <;>
        simp [Members.lookup_set, Members.lookup, h1, h2]

theorem setVersionType_v1 (tag : Str) (claim : Members) :
    setVersionType .v1 tag claim =
      .ok ((claim.set ("aud".toList) (.str ("NATS".toList))).set ("type".toList) (.str tag)) := by
  rfl

theorem setVersionType_v2 (tag : Str) (claim : Members) {natsm : Members}
    (hnats : claim.lookup ("nats".toList) = some (.obj natsm)) :
    setVersionType .v2 tag claim =
      .ok ((claim.set ("aud".toList) (.str ("NATS".toList))).set ("nats".toList)
        (.obj (natsm.set ("type".toList) (.str tag)))) := by
  unfold setVersionType setNats
  rw [if_pos rfl, Members.lookup_set, if_neg (by decide), hnats]

theorem finalClaim_v1 (claim : Members) (kp : KeyPair) (ctx : Ctx) :
    finalClaim .v1 claim kp ctx =
      .ok (((claim.set ("iss".toList) (.str kp.pub)).set ("iat".toList)
        (.num ctx.now)).set ("jti".toList) (.str ctx.jti)) := by
  rfl

theorem finalClaim_v2 (claim : Members) (kp : KeyPair) (ctx : Ctx) {natsm : Members}
    (hnats : claim.lookup ("nats".toList) = some (.obj natsm)) :
    finalClaim .v2 claim kp ctx =
      .ok ((((claim.set ("iss".toList) (.str kp.pub)).set ("iat".toList)
        (.num ctx.now)).set ("nats".toList)
          (.obj (natsm.set ("version".toList) (.num 2)))).set ("jti".toList)
            (.str ctx.jti)) := by
  unfold finalClaim setNats
  rw [if_pos rfl]
  rw [Members.lookup_set, if_neg (by decide), Members.lookup_set, if_neg (by decide), hnats]
  rfl

/-- The claim object that reaches the wire when `setVersionType` and the
core `encode` run over a prepared claim whose `nats` field holds
`natsm`: the explicit normal form of the member-assignment chain. -/
def pipeClaim (alg : Algorithms) (tag : Str) (claim0 natsm : Members)
    (kp : KeyPair) (ctx : Ctx) : Members :=
  match alg with
  | .v2 =>
      (((((claim0.set ("aud".toList) (.str ("NATS".toList))).set ("nats".toList)
        (.obj (natsm.set ("type".toList) (.str tag)))).set ("iss".toList)
          (.str kp.pub)).set ("iat".toList) (.num ctx.now)).set ("nats".toList)
            (.obj ((natsm.set ("type".toList) (.str tag)).set ("version".toList)
              (.num 2)))).set ("jti".toList) (.str ctx.jti)
  | .v1 =>
      ((((claim0.set ("aud".toList) (.str ("NATS".toList))).set ("type".toList)
        (.str tag)).set ("iss".toList) (.str kp.pub)).set ("iat".toList)
          (.num ctx.now)).set ("jti".toList) (.str ctx.jti)

theorem encodePipeline (W : NkeysWorld) (ctx : Ctx) (alg : Algorithms) (tag : Str)
    (claim0 natsm : Members) (kp : KeyPair)
    (hnats : claim0.lookup ("nats".toList) = some (.obj natsm))
    (hd : claim0.mdedup = true)
    (hl : claim0.latin1M = true)
    (htag : tag.all (fun c => c.toNat < 256) = true)
    (hjti : ctx.jti.all (fun c => c.toNat < 256) = true)
    (hpub : kp.pub.all (fun c => c.toNat < 256) = true)
    (hS : kp.pub.head? ≠ some 'S')
    (hsig : ∀ m, ∀ x ∈ kp.sign m, x < 256)
    (hver : ∀ m, (W.fromPublic kp.pub).verify (te m) (kp.sign (te m)) = true) :
    ∃ cSVT tok, setVersionType alg tag claim0 = .ok cSVT ∧
      encode alg cSVT kp ctx = .ok tok ∧
      decode W tok = .ok (.obj (pipeClaim alg tag claim0 natsm kp ctx)) := by
  have hnatsd : natsm.mdedup = true := by
    have h := Members.mdedup_lookup claim0 hd hnats
    simpa [Json.dedup] using h
  have hnatsl : natsm.latin1M = true := by
    have h := Members.latin1M_lookup claim0 hl hnats
    simpa [Json.latin1] using h
  cases alg with
  | v2 =>
      have hF := finalClaim_v2
        ((claim0.set ("aud".toList) (.str ("NATS".toList))).set ("nats".toList)
          (.obj (natsm.set ("type".toList) (.str tag)))) kp ctx
        (Members.lookup_set_self _ _ _)
      have dnatsT : (natsm.set ("type".toList) (.str tag)).mdedup = true :=
        Members.mdedup_set _ _ _ hnatsd (by simp [Json.dedup])
      have dnatsTV : ((natsm.set ("type".toList) (.str tag)).set
          ("version".toList) (.num 2)).mdedup = true :=
        Members.mdedup_set _ _ _ dnatsT (by simp [Json.dedup])
      have lnatsT : (natsm.set ("type".toList) (.str tag)).latin1M = true :=
        Members.latin1M_set _ _ _ hnatsl (by decide) (by simpa [Json.latin1] using htag)
      have lnatsTV : ((natsm.set ("type".toList) (.str tag)).set
          ("version".toList) (.num 2)).latin1M = true :=
        Members.latin1M_set _ _ _ lnatsT (by decide) (by simp [Json.latin1])
      have d1 := Members.mdedup_set claim0 ("aud".toList) (.str ("NATS".toList))
        hd (by simp [Json.dedup])
      have d2 := Members.mdedup_set _ ("nats".toList)
        (.obj (natsm.set ("type".toList) (.str tag))) d1 (by simpa [Json.dedup] using dnatsT)
      have d3 := Members.mdedup_set _ ("iss".toList) (.str kp.pub) d2 (by simp [Json.dedup])
      have d4 := Members.mdedup_set _ ("iat".toList) (.num ctx.now) d3 (by simp [Json.dedup])
      have d5 := Members.mdedup_set _ ("nats".toList)
        (.obj ((natsm.set ("type".toList) (.str tag)).set ("version".toList) (.num 2)))
        d4 (by simpa [Json.dedup] using dnatsTV)
      have d6 := Members.mdedup_set _ ("jti".toList) (.str ctx.jti) d5 (by simp [Json.dedup])
      have l1 := Members.latin1M_set claim0 ("aud".toList) (.str ("NATS".toList))
        hl (by decide) (by simp [Json.latin1])
      have l2 := Members.latin1M_set _ ("nats".toList)
        (.obj (natsm.set ("type".toList) (.str tag))) l1 (by decide)
        (by simpa [Json.latin1] using lnatsT)
      have l3 := Members.latin1M_set _ ("iss".toList) (.str kp.pub) l2 (by decide)
        (by simpa [Json.latin1] using hpub)
      have l4 := Members.latin1M_set _ ("iat".toList) (.num ctx.now) l3 (by decide)
        (by simp [Json.latin1])
      have l5 := Members.latin1M_set _ ("nats".toList)
        (.obj ((natsm.set ("type".toList) (.str tag)).set ("version".toList) (.num 2)))
        l4 (by decide) (by simpa [Json.latin1] using lnatsTV)
      have l6 := Members.latin1M_set _ ("jti".toList) (.str ctx.jti) l5 (by decide)
        (by simpa [Json.latin1] using hjti)
      obtain ⟨tok, henc, hdec⟩ := decode_encode W .v2 _ kp ctx _ hF
        (by simpa [Json.latin1] using l6) (by simpa [Json.dedup] using d6) hS hsig hver
      exact ⟨_, tok, setVersionType_v2 tag claim0 hnats, henc, hdec⟩
  | v1 =>
      have hF := finalClaim_v1
        ((claim0.set ("aud".toList) (.str ("NATS".toList))).set ("type".toList)
          (.str tag)) kp ctx
      have d1 := Members.mdedup_set claim0 ("aud".toList) (.str ("NATS".toList))
        hd (by simp [Json.dedup])
      have d2 := Members.mdedup_set _ ("type".toList) (.str tag) d1 (by simp [Json.dedup])
      have d3 := Members.mdedup_set _ ("iss".toList) (.str kp.pub) d2 (by simp [Json.dedup])
      have d4 := Members.mdedup_set _ ("iat".toList) (.num ctx.now) d3 (by simp [Json.dedup])
      have d5 := Members.mdedup_set _ ("jti".toList) (.str ctx.jti) d4 (by simp [Json.dedup])
      have l1 := Members.latin1M_set claim0 ("aud".toList) (.str ("NATS".toList))
        hl (by decide) (by simp [Json.latin1])
      have l2 := Members.latin1M_set _ ("type".toList) (.str tag) l1 (by decide)
        (by simpa [Json.latin1] using htag)
      have l3 := Members.latin1M_set _ ("iss".toList) (.str kp.pub) l2 (by decide)
        (by simpa [Json.latin1] using hpub)
      have l4 := Members.latin1M_set _ ("iat".toList) (.num ctx.now) l3 (by decide)
        (by simp [Json.latin1])
      have l5 := Members.latin1M_set _ ("jti".toList) (.str ctx.jti) l4 (by decide)
        (by simpa [Json.latin1] using hjti)
      obtain ⟨tok, henc, hdec⟩ := decode_encode W .v1 _ kp ctx _ hF
        (by simpa [Json.latin1] using l5) (by simpa [Json.dedup] using d5) hS hsig hver
      exact ⟨_, tok, setVersionType_v1 tag claim0, henc, hdec⟩

/-- A deterministic nkeys capability for concrete instantiations: the
public key is the given text, signatures are empty and always verify. -/
def toyKP (p : Str) : KeyPair := ⟨p, true, fun _ => [], fun _ _ => true⟩

/-- The toy nkeys module built from `toyKP`. -/
def toyW : NkeysWorld := ⟨toyKP, toyKP⟩

theorem jsGet_not_malformed (j : Json) (k : Str) (n : Nat) :
    jsGet j k ≠ .error (.malformedToken n) := by
  cases j <;> simp [jsGet]

theorem checkKey_not_malformed (W : NkeysWorld) (v : Key) (t : TyArg) (seed : Bool)
    (n : Nat) : checkKey W v t seed ≠ .error (.malformedToken n) := by
  unfold checkKey
  repeat' split
  all_goals simp_all
  all_goals repeat' split
  all_goals simp_all

theorem decode_not_malformed (W : NkeysWorld) {s c0 c1 c2 : Str}
    (hsplit : splitOnDot s = [c0, c1, c2]) :
    ∀ n, decode W s ≠ .error (.malformedToken n) := by
  intro n h
  unfold decode at h
  rw [hsplit] at h
  simp only [bind, Except.bind, pure, Except.pure] at h
  rcases h0 : b64UrlDecodeStr c0 with _ | x0 <;> rw [h0] at h <;>
    simp only [bind, Except.bind, pure, Except.pure] at h
  · exact JsError.noConfusion (Except.error.inj h)
  rcases h1 : jsonParse x0 with _ | j0 <;> rw [h1] at h <;>
    simp only [bind, Except.bind, pure, Except.pure] at h
  · exact JsError.noConfusion (Except.error.inj h)
  rcases h2 : jsGet j0 ("typ".toList) with e | tv <;> rw [h2] at h <;>
    simp only [bind, Except.bind, pure, Except.pure, Except.error.injEq] at h
  · exact jsGet_not_malformed j0 _ n (h ▸ h2)
  by_cases hc : (tv ≠ some (.str ("jwt".toList)) ∧ tv ≠ some (.str ("JWT".toList)))
  · rw [if_pos hc] at h
    exact JsError.noConfusion (Except.error.inj h)
  rw [if_neg hc] at h
  rcases h3 : jsGet j0 ("alg".toList) with e | av <;> rw [h3] at h <;>
    simp only [bind, Except.bind, pure, Except.pure, Except.error.injEq] at h
  · exact jsGet_not_malformed j0 _ n (h ▸ h3)
  by_cases ha : (av ≠ some (.str (algTag .v1)) ∧ av ≠ some (.str (algTag .v2)))
  · rw [if_pos ha] at h
    exact JsError.noConfusion (Except.error.inj h)
  rw [if_neg ha] at h
  rcases h4 : b64UrlDecodeStr c1 with _ | x1 <;> rw [h4] at h <;>
    simp only [bind, Except.bind, pure, Except.pure] at h
  · exact JsError.noConfusion (Except.error.inj h)
  rcases h5 : jsonParse x1 with _ | j1 <;> rw [h5] at h <;>
    simp only [bind, Except.bind, pure, Except.pure] at h
  · exact JsError.noConfusion (Except.error.inj h)
  rcases h6 : jsGet j1 ("iss".toList) with e | iv <;> rw [h6] at h <;>
    simp only [bind, Except.bind, pure, Except.pure, Except.error.injEq] at h
  · exact jsGet_not_malformed j1 _ n (h ▸ h6)
  rcases iv with _ | v
  · exact JsError.noConfusion (Except.error.inj h)
  rcases v with _ | b0 | n0 | s0 | ms0 | es0
  all_goals try exact JsError.noConfusion (Except.error.inj h)
  simp only [bind, Except.bind] at h
  rcases h7 : checkKey W (.str s0) (.one []) false with e | kp <;> rw [h7] at h <;>
    simp only [bind, Except.bind, pure, Except.pure, Except.error.injEq] at h
  · exact checkKey_not_malformed W _ _ _ n (h ▸ h7)
  rcases h8 : b64UrlDecodeBytes c2 with _ | sg <;> rw [h8] at h <;>
    simp only [bind, Except.bind, pure, Except.pure] at h
  · exact JsError.noConfusion (Except.error.inj h)
  by_cases hv : kp.verify (te (if av = some (.str (algTag .v2)) then c0 ++ '.' :: c1
      else c1)) sg = true
  · rw [if_pos hv] at h
    exact Except.noConfusion h
  · rw [if_neg hv] at h
    exact JsError.noConfusion (Except.error.inj h)

/-- C5: `decode` fails with the malformed-token error exactly when
splitting the input on `.` yields other than three segments; with three
segments that error is never raised and decoding proceeds to header
validation. -/
theorem C5_malformed_iff_segments (W : NkeysWorld) (s : Str) :
    (∃ n, decode W s = .error (.malformedToken n)) ↔ (splitOnDot s).length ≠ 3 := by
  constructor
  · rintro ⟨n, h⟩ hlen
    rcases e : splitOnDot s with _ | ⟨a, _ | ⟨b, _ | ⟨c, _ | ⟨d, l⟩⟩⟩⟩ <;>
      rw [e] at hlen <;> simp at hlen
    exact decode_not_malformed W e n h
  · intro hlen
    refine ⟨(splitOnDot s).length, ?_⟩
    unfold decode
    rcases e : splitOnDot s with _ | ⟨a, _ | ⟨b, _ | ⟨c, _ | ⟨d, l⟩⟩⟩⟩
    · rfl
    · rfl
    · rfl
    · exact absurd (by rw [e]; rfl) hlen
    · rfl

theorem jsGet_ok {j : Json} (h : j ≠ .null) (k : Str) :
    jsGet j k = .ok (j.objLookup k) := by
  cases j <;> first | exact absurd rfl h | rfl

theorem jsGet_error : ∀ (j : Json) (k : Str) (e : JsError),
    jsGet j k = .error e → e = .typeError := by
  intro j k e h
  cases j <;> simp [jsGet] at h
  exact h.symm

theorem checkKey_error (W : NkeysWorld) (v : Key) (t : TyArg) (seed : Bool)
    (e : JsError) (h : checkKey W v t seed = .error e) :
    (∃ m, e = .unexpectedType m) ∨ e = .missingPrivateKey := by
  unfold checkKey at h
  dsimp only [] at h
  repeat' split at h
  all_goals first
    | exact Or.inl ⟨_, (Except.error.inj h).symm⟩
    | exact Or.inr (Except.error.inj h).symm
    | exact Except.noConfusion h

/-- C4 (amended): with three segments and a parsed header, `decode`
fails with the unsupported-type-or-algorithm error exactly when the
header's `typ` differs from both exact spellings `"jwt"` and `"JWT"`,
or its `alg` is neither `"ed25519"` nor `"ed25519-nkey"`.  The `typ`
comparison is exact, not case-insensitive: the spec's claim that any
case variant such as `"Jwt"` is accepted is refuted by
`C4_counterexample`. -/
theorem C4_unsupported_iff_exact (W : NkeysWorld) {s c0 c1 c2 x0 : Str} {j0 : Json}
    (hsplit : splitOnDot s = [c0, c1, c2])
    (h0 : b64UrlDecodeStr c0 = some x0)
    (h1 : jsonParse x0 = some j0)
    (hnn : j0 ≠ .null) :
    decode W s = .error .unsupportedTypeOrAlgorithm ↔
      ((j0.objLookup ("typ".toList) ≠ some (.str ("jwt".toList)) ∧
        j0.objLookup ("typ".toList) ≠ some (.str ("JWT".toList))) ∨
       (j0.objLookup ("alg".toList) ≠ some (.str (algTag .v1)) ∧
        j0.objLookup ("alg".toList) ≠ some (.str (algTag .v2)))) := by
  unfold decode
  rw [hsplit]
  simp only [bind, Except.bind, pure, Except.pure]
  rw [h0]
  simp only [bind, Except.bind, pure, Except.pure]
  rw [h1]
  simp only [bind, Except.bind, pure, Except.pure]
  rw [jsGet_ok hnn]
  simp only [bind, Except.bind, pure, Except.pure]
  by_cases hc : (j0.objLookup ("typ".toList) ≠ some (.str ("jwt".toList)) ∧
      j0.objLookup ("typ".toList) ≠ some (.str ("JWT".toList)))
  · rw [if_pos hc]
    exact iff_of_true rfl (Or.inl hc)
  rw [if_neg hc]
  rw [jsGet_ok hnn]
  simp only [bind, Except.bind, pure, Except.pure]
  by_cases ha : (j0.objLookup ("alg".toList) ≠ some (.str (algTag .v1)) ∧
      j0.objLookup ("alg".toList) ≠ some (.str (algTag .v2)))
  · rw [if_pos ha]
    exact iff_of_true rfl (Or.inr ha)
  rw [if_neg ha]
  refine iff_of_false ?_ (not_or.mpr ⟨hc, ha⟩)
  intro h
  rcases h4 : b64UrlDecodeStr c1 with _ | x1 <;> rw [h4] at h <;>
    simp only [bind, Except.bind, pure, Except.pure] at h
  · exact JsError.noConfusion (Except.error.inj h)
  rcases h5 : jsonParse x1 with _ | j1 <;> rw [h5] at h <;>
    simp only [bind, Except.bind, pure, Except.pure] at h
  · exact JsError.noConfusion (Except.error.inj h)
  rcases h6 : jsGet j1 ("iss".toList) with e | iv <;> rw [h6] at h <;>
    simp only [bind, Except.bind, pure, Except.pure, Except.error.injEq] at h
  · exact JsError.noConfusion (h ▸ jsGet_error j1 _ e h6)
  rcases iv with _ | v
  · exact JsError.noConfusion (Except.error.inj h)
  rcases v with _ | b0 | n0 | s0 | ms0 | es0
  all_goals try exact JsError.noConfusion (Except.error.inj h)
  simp only [bind, Except.bind] at h
  rcases h7 : checkKey W (.str s0) (.one []) false with e | kp <;> rw [h7] at h <;>
    simp only [bind, Except.bind, pure, Except.pure, Except.error.injEq] at h
  · rcases checkKey_error W _ _ _ e h7 with ⟨m, rfl⟩ | rfl
    · exact JsError.noConfusion h
    · exact JsError.noConfusion h
  rcases h8 : b64UrlDecodeBytes c2 with _ | sg <;> rw [h8] at h <;>
    simp only [bind, Except.bind, pure, Except.pure] at h
  · exact JsError.noConfusion (Except.error.inj h)
  by_cases hv : kp.verify (te (if j0.objLookup ("alg".toList) = some (.str (algTag .v2))
      then c0 ++ '.' :: c1 else c1)) sg = true
  · rw [if_pos hv] at h
    exact Except.noConfusion h
  · rw [if_neg hv] at h
    exact JsError.noConfusion (Except.error.inj h)

/-- A header whose `typ` is the mixed-case `"Jwt"` and whose `alg` is
the valid v2 tag. -/
def cexHeaderJwt : Members :=
  .cons ("typ".toList) (.str ("Jwt".toList))
    (.cons ("alg".toList) (.str ("ed25519-nkey".toList)) .nil)

/-- The base64url encoding of the serialized `cexHeaderJwt`. -/
def cexChunk4 : Str := "eyJ0eXAiOiJKd3QiLCJhbGciOiJlZDI1NTE5LW5rZXkifQ".toList

/-- A three-segment token carrying `cexHeaderJwt`. -/
def cexTok4 : Str := cexChunk4 ++ '.' :: 'x' :: '.' :: 'x' :: []

set_option maxRecDepth 100000 in
/-- C4 counterexample: the mixed-case `typ` `"Jwt"` — a case-insensitive
match of `"jwt"` with a valid `alg` — is rejected by `decode` with the
unsupported-type-or-algorithm error, refuting the case-insensitive
reading. -/
theorem C4_counterexample :
    b64UrlDecodeStr cexChunk4 = some (serJson [] [] (.obj cexHeaderJwt)) ∧
    jsonParse (serJson [] [] (.obj cexHeaderJwt)) = some (.obj cexHeaderJwt) ∧
    decode toyW cexTok4 = .error .unsupportedTypeOrAlgorithm :=
  ⟨by decide, by decide, by decide⟩

set_option maxRecDepth 100000 in
/-- C4 witness: the amended equivalence applied at the concrete token. -/
theorem C4_witness :
    splitOnDot cexTok4 = [cexChunk4, ['x'], ['x']] ∧
    decode toyW cexTok4 = .error .unsupportedTypeOrAlgorithm :=
  ⟨by decide,
    (@C4_unsupported_iff_exact toyW cexTok4 cexChunk4 ['x'] ['x']
      (serJson [] [] (.obj cexHeaderJwt)) (.obj cexHeaderJwt)
      (by decide) (by decide) (by decide) (by decide)).mpr (by decide)⟩

/-- The key pair `checkKey` resolves a `Key` reference to (the `kp`
local of `src/keys.ts` `checkKey`). -/
def keyPairOf (W : NkeysWorld) : Key → KeyPair
| .str s => parseKey W s
| .bytes b => parseKey W (b.map Char.ofNat)
| .pair kp => kp

/-- C3: an explicit `options.signer` violating the signer policy of
`encodeAccount` (wanted `O` or `A`) or `encodeUser` (wanted `A`) makes
encoding fail with the exact message
`unexpected type {actual} - wanted {expected,list}`. -/
theorem C3_signer_policy_message :
    (∀ (W : NkeysWorld) (ctx : Ctx) (name : Str) (akp sk : Key) (account : Members)
       (opts : EncodingOptions) (kp : KeyPair),
       opts.signer = some sk →
       checkKey W akp (.one ("A".toList)) false = .ok kp →
       ([("O".toList), ("A".toList)] : List Str).contains
         (charAt0 (keyPairOf W sk).pub) = false →
       encodeAccount W ctx name akp account opts =
         .error (.unexpectedType ("unexpected type ".toList ++
           charAt0 (keyPairOf W sk).pub ++ " - wanted ".toList ++ "O,A".toList))) ∧
    (∀ (W : NkeysWorld) (ctx : Ctx) (name : Str) (ukp issuer sk : Key) (user : Members)
       (opts : UserEncodingOptions) (kp : KeyPair),
       opts.signer = some sk →
       checkKey W issuer (.one ("A".toList)) false = .ok kp →
       ([("A".toList)] : List Str).contains (charAt0 (keyPairOf W sk).pub) = false →
       encodeUser W ctx name ukp issuer user opts =
         .error (.unexpectedType ("unexpected type ".toList ++
           charAt0 (keyPairOf W sk).pub ++ " - wanted ".toList ++ "A".toList))) := by
  constructor
  · intro W ctx name akp sk account opts kp hs hsub hbad
    unfold encodeAccount
    rw [hs]
    simp only [Option.isNone]
    rw [hsub]
    simp only [bind, Except.bind]
    have hmsg : joinComma [['O'], ['A']] = ['O', ',', 'A'] := by decide
    cases sk with
    | str s =>
        simp only [keyPairOf] at hbad
        have hb : ¬charAt0 (parseKey W s).pub = ['O'] ∧
            ¬charAt0 (parseKey W s).pub = ['A'] := by simpa using hbad
        simp +decide [checkKey, keyPairOf, hmsg, hb.1, hb.2]
    | bytes b =>
        simp only [keyPairOf] at hbad
        have hb : ¬charAt0 (parseKey W (b.map Char.ofNat)).pub = ['O'] ∧
            ¬charAt0 (parseKey W (b.map Char.ofNat)).pub = ['A'] := by simpa using hbad
        simp +decide [checkKey, keyPairOf, hmsg, hb.1, hb.2]
    | pair p =>
        simp only [keyPairOf] at hbad
        have hb : ¬charAt0 p.pub = ['O'] ∧ ¬charAt0 p.pub = ['A'] := by simpa using hbad
        simp +decide [checkKey, keyPairOf, hmsg, hb.1, hb.2]
  · intro W ctx name ukp issuer sk user opts kp hs hsub hbad
    unfold encodeUser
    rw [hs]
    simp only [Option.isNone]
    rw [hsub]
    simp only [bind, Except.bind]
    have hmsg : joinComma [['A']] = ['A'] := by decide
    cases sk with
    | str s =>
        simp only [keyPairOf] at hbad
        have hb : ¬charAt0 (parseKey W s).pub = ['A'] := by simpa using hbad
        simp +decide [checkKey, keyPairOf, hmsg, hb]
    | bytes b =>
        simp only [keyPairOf] at hbad
        have hb : ¬charAt0 (parseKey W (b.map Char.ofNat)).pub = ['A'] := by
          simpa using hbad
        simp +decide [checkKey, keyPairOf, hmsg, hb]
    | pair p =>
        simp only [keyPairOf] at hbad
        have hb : ¬charAt0 p.pub = ['A'] := by simpa using hbad
        simp +decide [checkKey, keyPairOf, hmsg, hb]

/-- C3 witness: a user-key signer for an Account claim yields wanted
set `O,A`; an operator-key signer for a User claim yields wanted set
`A`, with the offending leading characters in the message. -/
theorem C3_witness :
    checkKey toyW (.str ("A1".toList)) (.one ("A".toList)) false = .ok (toyKP ("A1".toList)) ∧
    encodeAccount toyW ⟨0, []⟩ [] (.str ("A1".toList)) .nil
      ⟨none, some (.str ("U1".toList)), none, none⟩ =
      .error (.unexpectedType ("unexpected type ".toList ++ ['U'] ++
        " - wanted ".toList ++ "O,A".toList)) ∧
    encodeUser toyW ⟨0, []⟩ [] (.str ("U2".toList)) (.str ("A1".toList)) .nil
      ⟨⟨none, some (.str ("O1".toList)), none, none⟩, false⟩ =
      .error (.unexpectedType ("unexpected type ".toList ++ ['O'] ++
        " - wanted ".toList ++ "A".toList)) :=
  ⟨rfl,
    C3_signer_policy_message.1 toyW ⟨0, []⟩ [] (.str ("A1".toList)) (.str ("U1".toList))
      .nil ⟨none, some (.str ("U1".toList)), none, none⟩ (toyKP ("A1".toList))
      rfl rfl (by decide),
    C3_signer_policy_message.2 toyW ⟨0, []⟩ [] (.str ("U2".toList)) (.str ("A1".toList))
      (.str ("O1".toList)) .nil ⟨⟨none, some (.str ("O1".toList)), none, none⟩, false⟩
      (toyKP ("A1".toList)) rfl rfl (by decide)⟩

/-- C6 (amended): `isGeneric` reports `true` exactly when the envelope's
type tag matches none of Account, User and Activation.  The Operator
kind is not among the tested kinds, so an operator-typed envelope is
classified both Operator and Generic (see `C6_counterexample`), against
the spec's reading that Generic excludes all four named kinds. -/
theorem C6_generic_iff_not_three (c : Json) (t : Option Json)
    (ht : typeOf c = .ok t) :
    isGeneric c = .ok (!(t = some (.str Types.Account) ||
      t = some (.str Types.User) || t = some (.str Types.Activation))) := by
  unfold isGeneric isAccount isUser isActivation
  rw [ht]
  simp only [bind, Except.bind, pure, Except.pure]
  by_cases h1 : t = some (.str Types.Account) <;>
    by_cases h2 : t = some (.str Types.User) <;>
      by_cases h3 : t = some (.str Types.Activation) <;>
        simp [h1, h2, h3]

/-- A v2 envelope whose payload type tag is `operator`. -/
def cexOperatorClaim : Json :=
  .obj (.cons ("nats".toList)
    (.obj (.cons ("type".toList) (.str Types.Operator)
      (.cons ("version".toList) (.num 2) .nil))) .nil)

/-- C6 counterexample: an operator-typed envelope satisfies both
`isOperator` and `isGeneric`, refuting the claim that Generic holds
exactly when none of the four named kinds match. -/
theorem C6_counterexample :
    isOperator cexOperatorClaim = .ok true ∧ isGeneric cexOperatorClaim = .ok true :=
  ⟨by decide, by decide⟩

/-- C6 witness: the amended equivalence applied at the operator-typed
envelope. -/
theorem C6_witness :
    typeOf cexOperatorClaim = .ok (some (.str Types.Operator)) ∧
    isGeneric cexOperatorClaim = .ok true :=
  ⟨by decide,
    by
      simpa using C6_generic_iff_not_three cexOperatorClaim
        (some (.str Types.Operator)) (by decide)⟩

theorem checkKey_untyped (W : NkeysWorld) (s : Str) :
    checkKey W (.str s) (.one []) false = .ok (parseKey W s) := rfl

/-- C9: `decode` never consults the validity-window fields: whenever the
token has three segments, a recognized header, a string `iss` in the
payload and a verifying signature, it returns the envelope — with no
hypothesis whatsoever on the payload's `exp` or `nbf`, whose values (or
absence) are arbitrary.  An expired token therefore decodes cleanly
(`C9_witness` decodes a token whose `exp` lies in the past). -/
theorem C9_decode_ignores_validity_window (W : NkeysWorld)
    {s c0 c1 c2 x0 x1 : Str} {j0 b : Json} {ipub : Str} {sig : List Nat}
    (v : Algorithms)
    (hsplit : splitOnDot s = [c0, c1, c2])
    (h0 : b64UrlDecodeStr c0 = some x0)
    (h1 : jsonParse x0 = some j0)
    (hnn : j0 ≠ .null)
    (htyp : j0.objLookup ("typ".toList) = some (.str ("jwt".toList)) ∨
            j0.objLookup ("typ".toList) = some (.str ("JWT".toList)))
    (halg : j0.objLookup ("alg".toList) = some (.str (algTag v)))
    (h4 : b64UrlDecodeStr c1 = some x1)
    (h5 : jsonParse x1 = some b)
    (hbn : b ≠ .null)
    (hiss : b.objLookup ("iss".toList) = some (.str ipub))
    (h8 : b64UrlDecodeBytes c2 = some sig)
    (hver : (parseKey W ipub).verify
      (te (if v = .v2 then c0 ++ '.' :: c1 else c1)) sig = true) :
    decode W s = .ok b := by
  unfold decode
  rw [hsplit]
  simp only [bind, Except.bind, pure, Except.pure]
  rw [h0]
  simp only [bind, Except.bind, pure, Except.pure]
  rw [h1]
  simp only [bind, Except.bind, pure, Except.pure]
  rw [jsGet_ok hnn]
  simp only [bind, Except.bind, pure, Except.pure]
  rw [if_neg (by rcases htyp with h | h <;> simp [h] <;> tauto)]
  rw [jsGet_ok hnn]
  simp only [bind, Except.bind, pure, Except.pure]
  rw [halg]
  cases v with
  | v1 =>
      rw [if_neg (show ¬(some (Json.str (algTag .v1)) ≠ some (Json.str (algTag .v1)) ∧
        some (Json.str (algTag .v1)) ≠ some (Json.str (algTag .v2))) by decide)]
      rw [h4]
      simp only [bind, Except.bind, pure, Except.pure]
      rw [h5]
      simp only [bind, Except.bind, pure, Except.pure]
      rw [jsGet_ok hbn]
      simp only [bind, Except.bind, pure, Except.pure]
      rw [hiss]
      simp only [bind, Except.bind, pure, Except.pure, checkKey_untyped]
      rw [h8]
      simp only [bind, Except.bind, pure, Except.pure]
      have hv : (parseKey W ipub).verify (te c1) sig = true := by simpa using hver
      simp +decide [hv]
  | v2 =>
      rw [if_neg (show ¬(some (Json.str (algTag .v2)) ≠ some (Json.str (algTag .v1)) ∧
        some (Json.str (algTag .v2)) ≠ some (Json.str (algTag .v2))) by decide)]
      rw [h4]
      simp only [bind, Except.bind, pure, Except.pure]
      rw [h5]
      simp only [bind, Except.bind, pure, Except.pure]
      rw [jsGet_ok hbn]
      simp only [bind, Except.bind, pure, Except.pure]
      rw [hiss]
      simp only [bind, Except.bind, pure, Except.pure, checkKey_untyped]
      rw [h8]
      simp only [bind, Except.bind, pure, Except.pure]
      have hv : (parseKey W ipub).verify (te (c0 ++ '.' :: c1)) sig = true := by
        simpa using hver
      simp +decide [hv]

/-- An already-expired envelope: `exp` is 1 (1970-01-01T00:00:01Z). -/
def cexPayload9 : Json :=
  .obj (.cons ("exp".toList) (.num 1) (.cons ("iss".toList) (.str ("K1".toList)) .nil))

/-- The v2 header chunk of the well-formed tokens built here. -/
def cexHeaderChunk : Str := "eyJ0eXAiOiJKV1QiLCJhbGciOiJlZDI1NTE5LW5rZXkifQ".toList

/-- The payload chunk carrying `cexPayload9`. -/
def cexChunk9 : Str := "eyJleHAiOjEsImlzcyI6IksxIn0".toList

/-- The expired three-segment token (empty signature, which the toy
verifier accepts). -/
def cexTok9 : Str := cexHeaderChunk ++ '.' :: (cexChunk9 ++ ['.'])

set_option maxRecDepth 100000 in
/-- C9 witness: the expired token decodes successfully. -/
theorem C9_witness :
    cexPayload9.objLookup ("exp".toList) = some (.num 1) ∧
    decode toyW cexTok9 = .ok cexPayload9 :=
  ⟨by decide,
    @C9_decode_ignores_validity_window toyW cexTok9 cexHeaderChunk cexChunk9 []
      (serJson [] [] (.obj (jwtHeader .v2))) (serJson [] [] cexPayload9)
      (.obj (jwtHeader .v2)) cexPayload9 ("K1".toList) [] .v2
      (by decide) (by decide) (by decide) (by decide) (by decide) (by decide)
      (by decide) (by decide) (by decide) (by decide) (by decide) (by decide)⟩

/-- C2: the signed bytes depend on the algorithm.  Encoding signs
`base64url(header) + "." + base64url(payload)` under v2 but only
`base64url(payload)` under v1 — while the header segment is still the
first of the three emitted segments in both cases — and `decode`
reconstructs exactly the same per-algorithm signing input before
verifying. -/
theorem C2_signing_input :
    (∀ (version : Algorithms) (claim : Members) (kp : KeyPair) (ctx : Ctx)
       (cF : Members) (hstr bstr : Str),
       finalClaim version claim kp ctx = .ok cF →
       b64UrlEncodeStr (serJson [] [] (.obj (jwtHeader version))) = some hstr →
       b64UrlEncodeStr (serJson [] [] (.obj cF)) = some bstr →
       encode version claim kp ctx = .ok (hstr ++ '.' :: bstr ++ '.' ::
         b64UrlEncodeBytes (kp.sign
           (te (if version = .v2 then hstr ++ '.' :: bstr else bstr))))) ∧
    (∀ (W : NkeysWorld) (s c0 c1 c2 x0 x1 : Str) (j0 b : Json) (ipub : Str)
       (sig : List Nat) (v : Algorithms),
       splitOnDot s = [c0, c1, c2] →
       b64UrlDecodeStr c0 = some x0 →
       jsonParse x0 = some j0 →
       j0 ≠ .null →
       (j0.objLookup ("typ".toList) = some (.str ("jwt".toList)) ∨
        j0.objLookup ("typ".toList) = some (.str ("JWT".toList))) →
       j0.objLookup ("alg".toList) = some (.str (algTag v)) →
       b64UrlDecodeStr c1 = some x1 →
       jsonParse x1 = some b →
       b ≠ .null →
       b.objLookup ("iss".toList) = some (.str ipub) →
       b64UrlDecodeBytes c2 = some sig →
       decode W s =
         (if (parseKey W ipub).verify
             (te (if v = .v2 then c0 ++ '.' :: c1 else c1)) sig = true
          then .ok b else .error .sigVerificationFailed)) := by
  constructor
  · intro version claim kp ctx cF hstr bstr hF hh hb
    unfold encode
    rw [hF]
    simp only [bind, Except.bind, pure, Except.pure]
    rw [hh]
    simp only [bind, Except.bind, pure, Except.pure]
    rw [hb]
  · intro W s c0 c1 c2 x0 x1 j0 b ipub sig v hsplit h0 h1 hnn htyp halg h4 h5 hbn hiss h8
    unfold decode
    rw [hsplit]
    simp only [bind, Except.bind, pure, Except.pure]
    rw [h0]
    simp only [bind, Except.bind, pure, Except.pure]
    rw [h1]
    simp only [bind, Except.bind, pure, Except.pure]
    rw [jsGet_ok hnn]
    simp only [bind, Except.bind, pure, Except.pure]
    rw [if_neg (by rcases htyp with h | h <;> simp [h] <;> tauto)]
    rw [jsGet_ok hnn]
    simp only [bind, Except.bind, pure, Except.pure]
    rw [halg]
    cases v with
    | v1 =>
        rw [if_neg (show ¬(some (Json.str (algTag .v1)) ≠ some (Json.str (algTag .v1)) ∧
          some (Json.str (algTag .v1)) ≠ some (Json.str (algTag .v2))) by decide)]
        rw [h4]
        simp only [bind, Except.bind, pure, Except.pure]
        rw [h5]
        simp only [bind, Except.bind, pure, Except.pure]
        rw [jsGet_ok hbn]
        simp only [bind, Except.bind, pure, Except.pure]
        rw [hiss]
        simp only [bind, Except.bind, pure, Except.pure, checkKey_untyped]
        rw [h8]
        simp only [bind, Except.bind, pure, Except.pure]
        by_cases hv : (parseKey W ipub).verify (te c1) sig = true <;>
          simp +decide [hv]
    | v2 =>
        rw [if_neg (show ¬(some (Json.str (algTag .v2)) ≠ some (Json.str (algTag .v1)) ∧
          some (Json.str (algTag .v2)) ≠ some (Json.str (algTag .v2))) by decide)]
        rw [h4]
        simp only [bind, Except.bind, pure, Except.pure]
        rw [h5]
        simp only [bind, Except.bind, pure, Except.pure]
        rw [jsGet_ok hbn]
        simp only [bind, Except.bind, pure, Except.pure]
        rw [hiss]
        simp only [bind, Except.bind, pure, Except.pure, checkKey_untyped]
        rw [h8]
        simp only [bind, Except.bind, pure, Except.pure]
        by_cases hv : (parseKey W ipub).verify (te (c0 ++ '.' :: c1)) sig = true <;>
          simp +decide [hv]

/-- The v1 header chunk. -/
def cexHeaderChunkV1 : Str := "eyJ0eXAiOiJKV1QiLCJhbGciOiJlZDI1NTE5In0".toList

/-- The serialized final claim of the v1 witness encoding. -/
def cexClaimChunkV1 : Str := "eyJpc3MiOiJLMSIsImlhdCI6MCwianRpIjoiIn0".toList

set_option maxRecDepth 100000 in
/-- C2 witness: the concrete v1 encoding signs only the payload chunk,
and decoding the expired v2 token of `C9` reconstructs the
header-dot-payload input before verifying. -/
theorem C2_witness :
    encode .v1 .nil (toyKP ("K1".toList)) ⟨0, []⟩ =
      .ok (cexHeaderChunkV1 ++ '.' :: cexClaimChunkV1 ++ '.' ::
        b64UrlEncodeBytes ((toyKP ("K1".toList)).sign (te cexClaimChunkV1))) ∧
    decode toyW cexTok9 =
      (if (parseKey toyW ("K1".toList)).verify
          (te (cexHeaderChunk ++ '.' :: cexChunk9)) [] = true
       then .ok cexPayload9 else .error .sigVerificationFailed) :=
  ⟨by
    have h := C2_signing_input.1 .v1 .nil (toyKP ("K1".toList)) ⟨0, []⟩
      (.cons ("iss".toList) (.str ("K1".toList)) (.cons ("iat".toList) (.num 0)
        (.cons ("jti".toList) (.str []) .nil)))
      cexHeaderChunkV1 cexClaimChunkV1 (by decide) (by decide) (by decide)
    simpa using h,
   by
    have h := C2_signing_input.2 toyW cexTok9 cexHeaderChunk cexChunk9 []
      (serJson [] [] (.obj (jwtHeader .v2))) (serJson [] [] cexPayload9)
      (.obj (jwtHeader .v2)) cexPayload9 ("K1".toList) [] .v2
      (by decide) (by decide) (by decide) (by decide) (by decide) (by decide)
      (by decide) (by decide) (by decide) (by decide) (by decide)
    simpa using h⟩

theorem encode_shape {version : Algorithms} {claim : Members} {kp : KeyPair}
    {ctx : Ctx} {tok : Str} (h : encode version claim kp ctx = .ok tok) :
    ∃ cF hstr bstr, finalClaim version claim kp ctx = .ok cF ∧
      b64UrlEncodeStr (serJson [] [] (.obj cF)) = some bstr ∧
      tok = hstr ++ '.' :: bstr ++ '.' ::
        b64UrlEncodeBytes (kp.sign
          (te (if version = .v2 then hstr ++ '.' :: bstr else bstr))) := by
  unfold encode at h
  rcases hF : finalClaim version claim kp ctx with e | cF <;> rw [hF] at h <;>
    simp only [bind, Except.bind, pure, Except.pure] at h
  · exact Except.noConfusion h
  rcases hh : b64UrlEncodeStr (serJson [] [] (.obj (jwtHeader version))) with _ | hstr <;>
    rw [hh] at h <;> simp only [bind, Except.bind, pure, Except.pure] at h
  · exact Except.noConfusion h
  rcases hb : b64UrlEncodeStr (serJson [] [] (.obj cF)) with _ | bstr <;>
    rw [hb] at h <;> simp only [bind, Except.bind, pure, Except.pure] at h
  · exact Except.noConfusion h
  exact ⟨cF, hstr, bstr, rfl, hb, (Except.ok.inj h).symm⟩

theorem aud_svt_final {alg : Algorithms} {tag : Str} {c c' cF : Members}
    {kp : KeyPair} {ctx : Ctx}
    (hsvt : setVersionType alg tag c = .ok c')
    (hF : finalClaim alg c' kp ctx = .ok cF) :
    cF.lookup ("aud".toList) = some (.str ("NATS".toList)) := by
  cases alg with
  | v1 =>
      rw [setVersionType_v1] at hsvt
      cases hsvt
      rw [finalClaim_v1] at hF
      cases hF
      simp +decide [Members.lookup_set]
  | v2 =>
      unfold setVersionType setNats at hsvt
      rw [if_pos rfl] at hsvt
      rcases hn : (c.set ("aud".toList) (.str ("NATS".toList))).lookup ("nats".toList)
        with _ | v
      · rw [hn] at hsvt
        cases hsvt
      · rw [hn] at hsvt
        cases v with
        | null => cases hsvt
        | bool b => cases hsvt
        | num n => cases hsvt
        | str s => cases hsvt
        | arr es => cases hsvt
        | obj nm =>
            cases hsvt
            unfold finalClaim setNats at hF
            rw [if_pos rfl] at hF
            have hl : ((((c.set ("aud".toList) (.str ("NATS".toList))).set
                ("nats".toList) (.obj (nm.set ("type".toList) (.str tag)))).set
                  ("iss".toList) (.str kp.pub)).set ("iat".toList)
                    (.num ctx.now)).lookup ("nats".toList) =
                some (.obj (nm.set ("type".toList) (.str tag))) := by
              simp +decide [Members.lookup_set]
            rw [hl] at hF
            simp only [bind, Except.bind, pure, Except.pure] at hF
            cases hF
            simp +decide [Members.lookup_set]

theorem svt_encode_aud {alg : Algorithms} {tag : Str} {c : Members} {kp : KeyPair}
    {ctx : Ctx} {tok : Str}
    (h : Except.bind (setVersionType alg tag c) (fun x => encode alg x kp ctx) = .ok tok) :
    ∃ cF hstr bstr sg,
      cF.lookup ("aud".toList) = some (.str ("NATS".toList)) ∧
      b64UrlEncodeStr (serJson [] [] (.obj cF)) = some bstr ∧
      tok = hstr ++ '.' :: bstr ++ '.' :: sg := by
  rcases hsvt : setVersionType alg tag c with e | c' <;> rw [hsvt] at h <;>
    simp only [Except.bind] at h
  · exact Except.noConfusion h
  obtain ⟨cF, hstr, bstr, hF, hb, htok⟩ := encode_shape h
  exact ⟨cF, hstr, bstr, _, aud_svt_final hsvt hF, hb, htok⟩

/-- C10: every token any of the five encode functions produces carries a
payload whose `aud` is exactly the string `NATS`, whatever the options:
the middle segment of the emitted token is the base64url serialization
of a claim object whose `aud` member is `"NATS"`. -/
theorem C10_audience_always_nats :
    (∀ (W : NkeysWorld) (ctx : Ctx) (name : Str) (okp : Key) (operator : Members)
       (opts : EncodingOptions) (tok : Str),
       encodeOperator W ctx name okp operator opts = .ok tok →
       ∃ cF hstr bstr sg,
         cF.lookup ("aud".toList) = some (.str ("NATS".toList)) ∧
         b64UrlEncodeStr (serJson [] [] (.obj cF)) = some bstr ∧
         tok = hstr ++ '.' :: bstr ++ '.' :: sg) ∧
    (∀ (W : NkeysWorld) (ctx : Ctx) (name : Str) (akp : Key) (account : Members)
       (opts : EncodingOptions) (tok : Str),
       encodeAccount W ctx name akp account opts = .ok tok →
       ∃ cF hstr bstr sg,
         cF.lookup ("aud".toList) = some (.str ("NATS".toList)) ∧
         b64UrlEncodeStr (serJson [] [] (.obj cF)) = some bstr ∧
         tok = hstr ++ '.' :: bstr ++ '.' :: sg) ∧
    (∀ (W : NkeysWorld) (ctx : Ctx) (name : Str) (ukp issuer : Key) (user : Members)
       (opts : UserEncodingOptions) (tok : Str),
       encodeUser W ctx name ukp issuer user opts = .ok tok →
       ∃ cF hstr bstr sg,
         cF.lookup ("aud".toList) = some (.str ("NATS".toList)) ∧
         b64UrlEncodeStr (serJson [] [] (.obj cF)) = some bstr ∧
         tok = hstr ++ '.' :: bstr ++ '.' :: sg) ∧
    (∀ (W : NkeysWorld) (ctx : Ctx) (name : Str) (subject issuer : Key) (kind : Str)
       (data : Members) (opts : EncodingOptions) (tok : Str),
       encodeActivation W ctx name subject issuer kind data opts = .ok tok →
       ∃ cF hstr bstr sg,
         cF.lookup ("aud".toList) = some (.str ("NATS".toList)) ∧
         b64UrlEncodeStr (serJson [] [] (.obj cF)) = some bstr ∧
         tok = hstr ++ '.' :: bstr ++ '.' :: sg) ∧
    (∀ (W : NkeysWorld) (ctx : Ctx) (name : Str) (akp : Key) (kind : Str)
       (data : Members) (opts : EncodingOptions) (tok : Str),
       encodeGeneric W ctx name akp kind data opts = .ok tok →
       ∃ cF hstr bstr sg,
         cF.lookup ("aud".toList) = some (.str ("NATS".toList)) ∧
         b64UrlEncodeStr (serJson [] [] (.obj cF)) = some bstr ∧
         tok = hstr ++ '.' :: bstr ++ '.' :: sg) := by
  refine ⟨?_, ?_, ?_, ?_, ?_⟩
  · intro W ctx name okp operator opts tok h
    unfold encodeOperator at h
    rcases h1 : checkKey W okp (.one ("O".toList)) opts.signer.isNone with e | kp0 <;>
      rw [h1] at h <;> simp only [bind, Except.bind, pure, Except.pure] at h
    · exact Except.noConfusion h
    rcases hsg : opts.signer with _ | sk <;> rw [hsg] at h <;>
      simp only [bind, Except.bind, pure, Except.pure] at h
    · exact svt_encode_aud h
    rcases h2 : checkKey W sk (.many [("O".toList)]) true with e | sgn <;>
      rw [h2] at h <;> simp only [bind, Except.bind, pure, Except.pure] at h
    · exact Except.noConfusion h
    exact svt_encode_aud h
  · intro W ctx name akp account opts tok h
    unfold encodeAccount at h
    rcases h1 : checkKey W akp (.one ("A".toList)) opts.signer.isNone with e | kp0 <;>
      rw [h1] at h <;> simp only [bind, Except.bind, pure, Except.pure] at h
    · exact Except.noConfusion h
    rcases hsg : opts.signer with _ | sk <;> rw [hsg] at h <;>
      simp only [bind, Except.bind, pure, Except.pure] at h
    · exact svt_encode_aud h
    rcases h2 : checkKey W sk (.many [("O".toList), ("A".toList)]) true with e | sgn <;>
      rw [h2] at h <;> simp only [bind, Except.bind, pure, Except.pure] at h
    · exact Except.noConfusion h
    exact svt_encode_aud h
  · intro W ctx name ukp issuer user opts tok h
    unfold encodeUser at h
    rcases h1 : checkKey W issuer (.one ("A".toList)) opts.signer.isNone with e | kp0 <;>
      rw [h1] at h <;> simp only [bind, Except.bind, pure, Except.pure] at h
    · exact Except.noConfusion h
    rcases hsg : opts.signer with _ | sk <;> rw [hsg] at h <;>
      simp only [bind, Except.bind, pure, Except.pure, Option.isSome] at h
    · rcases h3 : checkKey W ukp (.one ("U".toList)) false with e | ukp0 <;>
        rw [h3] at h <;> simp only [bind, Except.bind, pure, Except.pure] at h
      · exact Except.noConfusion h
      exact svt_encode_aud h
    rcases h2 : checkKey W sk (.one ("A".toList)) true with e | sgn <;>
      rw [h2] at h <;> simp only [bind, Except.bind, pure, Except.pure] at h
    · exact Except.noConfusion h
    rcases h3 : checkKey W ukp (.one ("U".toList)) false with e | ukp0 <;>
      rw [h3] at h <;> simp only [bind, Except.bind, pure, Except.pure] at h
    · exact Except.noConfusion h
    rcases h4 : setNats ((((initClaim opts.exp opts.nbf).set ("name".toList)
        (.str name)).set ("sub".toList) (.str ukp0.pub)).set ("nats".toList)
          (.obj (if opts.scopedUser then user else defaultUser user)))
        ("issuer_account".toList) (.str kp0.pub) with e | c1 <;>
      rw [h4] at h <;> simp only [bind, Except.bind, pure, Except.pure] at h
    · exact Except.noConfusion h
    exact svt_encode_aud h
  · intro W ctx name subject issuer kind data opts tok h
    unfold encodeActivation at h
    rcases h0 : checkKey W subject (.one []) false with e | sub0 <;>
      rw [h0] at h <;> simp only [bind, Except.bind, pure, Except.pure] at h
    · exact Except.noConfusion h
    rcases h1 : checkKey W issuer (.one []) opts.signer.isNone with e | kp0 <;>
      rw [h1] at h <;> simp only [bind, Except.bind, pure, Except.pure] at h
    · exact Except.noConfusion h
    rcases hsg : opts.signer with _ | sk <;> rw [hsg] at h <;>
      simp only [bind, Except.bind, pure, Except.pure, Option.isSome] at h
    · rcases h4 : setNats ((((initClaim opts.exp opts.nbf).set ("name".toList)
          (.str name)).set ("sub".toList) (.str sub0.pub)).set ("nats".toList)
            (.obj data))
          (if opts.algorithm.getD .v2 = .v2 then ("kind".toList) else ("type".toList))
          (.str kind) with e | c1 <;>
        rw [h4] at h <;> simp only [bind, Except.bind, pure, Except.pure] at h
      · exact Except.noConfusion h
      exact svt_encode_aud h
    rcases h2 : checkKey W sk (.one []) true with e | sgn <;>
      rw [h2] at h <;> simp only [bind, Except.bind, pure, Except.pure] at h
    · exact Except.noConfusion h
    rcases h3 : setNats ((((initClaim opts.exp opts.nbf).set ("name".toList)
        (.str name)).set ("sub".toList) (.str sub0.pub)).set ("nats".toList)
          (.obj data))
        ("issuer_account".toList) (.str kp0.pub) with e | c1 <;>
      rw [h3] at h <;> simp only [bind, Except.bind, pure, Except.pure] at h
    · exact Except.noConfusion h
    rcases h4 : setNats c1
        (if opts.algorithm.getD .v2 = .v2 then ("kind".toList) else ("type".toList))
        (.str kind) with e | c2 <;>
      rw [h4] at h <;> simp only [bind, Except.bind, pure, Except.pure] at h
    · exact Except.noConfusion h
    exact svt_encode_aud h
  · intro W ctx name akp kind data opts tok h
    unfold encodeGeneric at h
    rcases h1 : checkKey W akp (.one []) false with e | kp0 <;>
      rw [h1] at h <;> simp only [bind, Except.bind, pure, Except.pure] at h
    · exact Except.noConfusion h
    exact svt_encode_aud h

set_option maxRecDepth 100000 in
/-- C10 witness: a concrete operator encoding, with the audience fact
instantiated through the theorem. -/
theorem C10_witness :
    ∃ tok, encodeOperator toyW ⟨0, []⟩ [] (.str ("O1".toList)) .nil
        ⟨none, none, none, none⟩ = .ok tok ∧
      ∃ cF hstr bstr sg,
        cF.lookup ("aud".toList) = some (.str ("NATS".toList)) ∧
        b64UrlEncodeStr (serJson [] [] (.obj cF)) = some bstr ∧
        tok = hstr ++ '.' :: bstr ++ '.' :: sg :=
  ⟨_, rfl, C10_audience_always_nats.1 toyW ⟨0, []⟩ [] (.str ("O1".toList)) .nil
    ⟨none, none, none, none⟩ _ rfl⟩

theorem Members.lookup_eq_none_of_hasKey : ∀ (ms : Members) (k : Str),
    ms.hasKey k = false → ms.lookup k = none
| .nil, _, _ => rfl
| .cons k0 v0 rest, k, h => by
    rw [Members.hasKey, Bool.or_eq_false_iff] at h
    rw [Members.lookup, if_neg (by simpa using h.1)]
    exact Members.lookup_eq_none_of_hasKey rest k h.2

theorem Members.lookup_assign_not_has : ∀ (b a : Members) (k : Str),
    b.hasKey k = false → (a.assign b).lookup k = a.lookup k
| .nil, a, k, _ => rfl
| .cons k0 v0 rest, a, k, h => by
    rw [Members.hasKey, Bool.or_eq_false_iff] at h
    rw [Members.assign, Members.lookup_assign_not_has rest _ k h.2,
      Members.lookup_set_ne a (by simpa using h.1)]

theorem Members.lookup_assign_of_mem : ∀ (b a : Members) (k : Str) (v : Json),
    b.mdedup = true → b.lookup k = some v → (a.assign b).lookup k = some v
| .nil, a, k, v, _, hl => by cases hl
| .cons k0 v0 rest, a, k, v, hd, hl => by
    rw [Members.mdedup] at hd
    rw [Members.lookup] at hl
    rw [Members.assign]
    by_cases h0 : k0 = k
    · rw [if_pos h0] at hl
      cases hl
      subst h0
      rw [Members.lookup_assign_not_has rest _ k0
        (by simpa using (Bool.and_eq_true_iff.mp (Bool.and_eq_true_iff.mp hd).1).1),
        Members.lookup_set_self]
    · rw [if_neg h0] at hl
      exact Members.lookup_assign_of_mem rest _ k v (Bool.and_eq_true_iff.mp hd).2 hl

theorem versionJ_of_lookup {env nm : Members}
    (h : env.lookup ("nats".toList) = some (.obj nm)) :
    versionJ (.obj env) = .ok (match nm.lookup ("version".toList) with
      | some j => if j.truthy then j else .num 1
      | none => .num 1) := by
  unfold versionJ
  rw [jsGet_ok (by simp)]
  simp only [bind, Except.bind, pure, Except.pure, Json.objLookup]
  rw [h]

theorem typeOf_of_version2 {env nm : Members}
    (h : env.lookup ("nats".toList) = some (.obj nm))
    (hv : nm.lookup ("version".toList) = some (.num 2)) :
    typeOf (.obj env) = .ok (nm.lookup ("type".toList)) := by
  unfold typeOf
  rw [versionJ_of_lookup h]
  simp only [bind, Except.bind, pure, Except.pure]
  rw [hv]
  have h' : env.lookup (['n', 'a', 't', 's'] : Str) = some (.obj nm) := h
  simp +decide [Json.truthy, Json.objLookup, h']

theorem typeOf_of_version_absent {env nm : Members}
    (h : env.lookup ("nats".toList) = some (.obj nm))
    (hv : nm.lookup ("version".toList) = none) :
    typeOf (.obj env) = .ok (env.lookup ("type".toList)) := by
  unfold typeOf
  rw [versionJ_of_lookup h]
  simp only [bind, Except.bind, pure, Except.pure]
  rw [hv]
  simp +decide [Json.objLookup]

theorem encodeOperator_roundtrip (W : NkeysWorld) (ctx : Ctx) (name : Str)
    (okp : Key) (operator : Members) (opts : EncodingOptions) (kp : KeyPair)
    (hnone : opts.signer = none)
    (hsub : checkKey W okp (.one ("O".toList)) true = .ok kp)
    (hdop : operator.mdedup = true)
    (hlop : operator.latin1M = true)
    (hkver : operator.hasKey ("version".toList) = false)
    (hname : name.all (fun c => c.toNat < 256) = true)
    (hjti : ctx.jti.all (fun c => c.toNat < 256) = true)
    (hpub : kp.pub.all (fun c => c.toNat < 256) = true)
    (hS : kp.pub.head? ≠ some 'S')
    (hsig : ∀ m, ∀ x ∈ kp.sign m, x < 256)
    (hver : ∀ m, (W.fromPublic kp.pub).verify (te m) (kp.sign (te m)) = true) :
    ∃ tok env nm,
      encodeOperator W ctx name okp operator opts = .ok tok ∧
      decode W tok = .ok (.obj env) ∧
      env.lookup ("nats".toList) = some (.obj nm) ∧
      (∀ k, k ≠ ("type".toList) → k ≠ ("version".toList) →
        nm.lookup k = operator.lookup k) ∧
      env.lookup ("name".toList) = some (.str name) ∧
      env.lookup ("sub".toList) = some (.str kp.pub) ∧
      env.lookup ("exp".toList) = opts.exp.map Json.num ∧
      env.lookup ("nbf".toList) = opts.nbf.map Json.num ∧
      env.lookup ("aud".toList) = some (.str ("NATS".toList)) ∧
      env.lookup ("iss".toList) = some (.str kp.pub) ∧
      env.lookup ("iat".toList) = some (.num ctx.now) ∧
      env.lookup ("jti".toList) = some (.str ctx.jti) ∧
      isOperator (.obj env) = .ok true ∧
      versionJ (.obj env) = .ok (.num (if opts.algorithm.getD .v2 = .v2 then 2 else 1)) := by
  unfold encodeOperator
  rw [hnone]
  simp only [Option.isNone]
  rw [hsub]
  simp only [bind, Except.bind, pure, Except.pure]
  have hnats : ((((initClaim opts.exp opts.nbf).set ("name".toList) (.str name)).set
      ("sub".toList) (.str kp.pub)).set ("nats".toList) (.obj operator)).lookup
      ("nats".toList) = some (.obj operator) := Members.lookup_set_self _ _ _
  have hd : ((((initClaim opts.exp opts.nbf).set ("name".toList) (.str name)).set
      ("sub".toList) (.str kp.pub)).set ("nats".toList) (.obj operator)).mdedup = true :=
    Members.mdedup_set _ _ _ (Members.mdedup_set _ _ _ (Members.mdedup_set _ _ _
      (initClaim_mdedup _ _) (by simp [Json.dedup])) (by simp [Json.dedup]))
      (by simpa [Json.dedup] using hdop)
  have hl : ((((initClaim opts.exp opts.nbf).set ("name".toList) (.str name)).set
      ("sub".toList) (.str kp.pub)).set ("nats".toList) (.obj operator)).latin1M = true :=
    Members.latin1M_set _ _ _ (Members.latin1M_set _ _ _ (Members.latin1M_set _ _ _
      (initClaim_latin1 _ _) (by decide) (by simpa [Json.latin1] using hname))
      (by decide) (by simpa [Json.latin1] using hpub))
      (by decide) (by simpa [Json.latin1] using hlop)
  cases halg : opts.algorithm.getD .v2 with
  | v2 =>
      obtain ⟨cSVT, tok, hsvt, henc, hdec⟩ := encodePipeline W ctx .v2 Types.Operator
        ((((initClaim opts.exp opts.nbf).set ("name".toList) (.str name)).set
          ("sub".toList) (.str kp.pub)).set ("nats".toList) (.obj operator))
        operator kp hnats hd hl (by decide) hjti hpub hS hsig hver
      have hnF : (pipeClaim .v2 Types.Operator
          ((((initClaim opts.exp opts.nbf).set ("name".toList) (.str name)).set
            ("sub".toList) (.str kp.pub)).set ("nats".toList) (.obj operator))
          operator kp ctx).lookup ("nats".toList) =
          some (.obj ((operator.set ("type".toList) (.str Types.Operator)).set
            ("version".toList) (.num 2))) := by
        simp +decide [pipeClaim, Members.lookup_set]
      have hvF : ((operator.set ("type".toList) (.str Types.Operator)).set
          ("version".toList) (.num 2)).lookup ("version".toList) = some (.num 2) :=
        Members.lookup_set_self _ _ _
      have htF : ((operator.set ("type".toList) (.str Types.Operator)).set
          ("version".toList) (.num 2)).lookup ("type".toList) =
          some (.str Types.Operator) := by
        simp +decide [Members.lookup_set]
      refine ⟨tok, _,
        ((operator.set ("type".toList) (.str Types.Operator)).set
          ("version".toList) (.num 2)),
        ?_, hdec, hnF, ?_, ?_, ?_, ?_, ?_, ?_, ?_, ?_, ?_, ?_, ?_⟩
      · rw [hsvt]
        simp only [Except.bind]
        exact henc
      · intro k hk1 hk2
        rw [Members.lookup_set, if_neg (fun he => hk2 he.symm),
          Members.lookup_set, if_neg (fun he => hk1 he.symm)]
      · simp +decide [pipeClaim, Members.lookup_set]
      · simp +decide [pipeClaim, Members.lookup_set]
      · simp +decide [pipeClaim, Members.lookup_set, initClaim_lookup]
      · simp +decide [pipeClaim, Members.lookup_set, initClaim_lookup]
      · simp +decide [pipeClaim, Members.lookup_set]
      · simp +decide [pipeClaim, Members.lookup_set]
      · simp +decide [pipeClaim, Members.lookup_set]
      · simp +decide [pipeClaim, Members.lookup_set]
      · unfold isOperator
        rw [typeOf_of_version2 hnF hvF, htF]
        simp +decide [bind, Except.bind, pure, Except.pure]
      · rw [versionJ_of_lookup hnF, hvF]
        rfl
  | v1 =>
      obtain ⟨cSVT, tok, hsvt, henc, hdec⟩ := encodePipeline W ctx .v1 Types.Operator
        ((((initClaim opts.exp opts.nbf).set ("name".toList) (.str name)).set
          ("sub".toList) (.str kp.pub)).set ("nats".toList) (.obj operator))
        operator kp hnats hd hl (by decide) hjti hpub hS hsig hver
      have hnF : (pipeClaim .v1 Types.Operator
          ((((initClaim opts.exp opts.nbf).set ("name".toList) (.str name)).set
            ("sub".toList) (.str kp.pub)).set ("nats".toList) (.obj operator))
          operator kp ctx).lookup ("nats".toList) = some (.obj operator) := by
        simp +decide [pipeClaim, Members.lookup_set]
      have hvF : operator.lookup ("version".toList) = none :=
        Members.lookup_eq_none_of_hasKey _ _ hkver
      refine ⟨tok, _, operator, ?_, hdec, hnF, ?_, ?_, ?_, ?_, ?_, ?_, ?_, ?_, ?_, ?_, ?_⟩
      · rw [hsvt]
        simp only [Except.bind]
        exact henc
      · intro k hk1 hk2
        rfl
      · simp +decide [pipeClaim, Members.lookup_set]
      · simp +decide [pipeClaim, Members.lookup_set]
      · simp +decide [pipeClaim, Members.lookup_set, initClaim_lookup]
      · simp +decide [pipeClaim, Members.lookup_set, initClaim_lookup]
      · simp +decide [pipeClaim, Members.lookup_set]
      · simp +decide [pipeClaim, Members.lookup_set]
      · simp +decide [pipeClaim, Members.lookup_set]
      · simp +decide [pipeClaim, Members.lookup_set]
      · unfold isOperator
        rw [typeOf_of_version_absent hnF hvF]
        have htop : (pipeClaim .v1 Types.Operator
            ((((initClaim opts.exp opts.nbf).set ("name".toList) (.str name)).set
              ("sub".toList) (.str kp.pub)).set ("nats".toList) (.obj operator))
            operator kp ctx).lookup ("type".toList) = some (.str Types.Operator) := by
          simp +decide [pipeClaim, Members.lookup_set]
        rw [htop]
        simp +decide [bind, Except.bind, pure, Except.pure]
      · rw [versionJ_of_lookup hnF, hvF]
        rfl

theorem encodeAccount_roundtrip (W : NkeysWorld) (ctx : Ctx) (name : Str)
    (akp : Key) (account : Members) (opts : EncodingOptions) (kp : KeyPair)
    (hnone : opts.signer = none)
    (hsub : checkKey W akp (.one ("A".toList)) true = .ok kp)
    (hdop : account.mdedup = true)
    (hlop : account.latin1M = true)
    (hkver : account.hasKey ("version".toList) = false)
    (hname : name.all (fun c => c.toNat < 256) = true)
    (hjti : ctx.jti.all (fun c => c.toNat < 256) = true)
    (hpub : kp.pub.all (fun c => c.toNat < 256) = true)
    (hS : kp.pub.head? ≠ some 'S')
    (hsig : ∀ m, ∀ x ∈ kp.sign m, x < 256)
    (hver : ∀ m, (W.fromPublic kp.pub).verify (te m) (kp.sign (te m)) = true) :
    ∃ tok env nm,
      encodeAccount W ctx name akp account opts = .ok tok ∧
      decode W tok = .ok (.obj env) ∧
      env.lookup ("nats".toList) = some (.obj nm) ∧
      (∀ k, k ≠ ("type".toList) → k ≠ ("version".toList) →
        nm.lookup k = account.lookup k) ∧
      env.lookup ("name".toList) = some (.str name) ∧
      env.lookup ("sub".toList) = some (.str kp.pub) ∧
      env.lookup ("exp".toList) = opts.exp.map Json.num ∧
      env.lookup ("nbf".toList) = opts.nbf.map Json.num ∧
      env.lookup ("aud".toList) = some (.str ("NATS".toList)) ∧
      env.lookup ("iss".toList) = some (.str kp.pub) ∧
      env.lookup ("iat".toList) = some (.num ctx.now) ∧
      env.lookup ("jti".toList) = some (.str ctx.jti) ∧
      isAccount (.obj env) = .ok true ∧
      versionJ (.obj env) = .ok (.num (if opts.algorithm.getD .v2 = .v2 then 2 else 1)) := by
  unfold encodeAccount
  rw [hnone]
  simp only [Option.isNone]
  rw [hsub]
  simp only [bind, Except.bind, pure, Except.pure]
  have hnats : ((((initClaim opts.exp opts.nbf).set ("name".toList) (.str name)).set
      ("sub".toList) (.str kp.pub)).set ("nats".toList) (.obj account)).lookup
      ("nats".toList) = some (.obj account) := Members.lookup_set_self _ _ _
  have hd : ((((initClaim opts.exp opts.nbf).set ("name".toList) (.str name)).set
      ("sub".toList) (.str kp.pub)).set ("nats".toList) (.obj account)).mdedup = true :=
    Members.mdedup_set _ _ _ (Members.mdedup_set _ _ _ (Members.mdedup_set _ _ _
      (initClaim_mdedup _ _) (by simp [Json.dedup])) (by simp [Json.dedup]))
      (by simpa [Json.dedup] using hdop)
  have hl : ((((initClaim opts.exp opts.nbf).set ("name".toList) (.str name)).set
      ("sub".toList) (.str kp.pub)).set ("nats".toList) (.obj account)).latin1M = true :=
    Members.latin1M_set _ _ _ (Members.latin1M_set _ _ _ (Members.latin1M_set _ _ _
      (initClaim_latin1 _ _) (by decide) (by simpa [Json.latin1] using hname))
      (by decide) (by simpa [Json.latin1] using hpub))
      (by decide) (by simpa [Json.latin1] using hlop)
  cases halg : opts.algorithm.getD .v2 with
  | v2 =>
      obtain ⟨cSVT, tok, hsvt, henc, hdec⟩ := encodePipeline W ctx .v2 Types.Account
        ((((initClaim opts.exp opts.nbf).set ("name".toList) (.str name)).set
          ("sub".toList) (.str kp.pub)).set ("nats".toList) (.obj account))
        account kp hnats hd hl (by decide) hjti hpub hS hsig hver
      have hnF : (pipeClaim .v2 Types.Account
          ((((initClaim opts.exp opts.nbf).set ("name".toList) (.str name)).set
            ("sub".toList) (.str kp.pub)).set ("nats".toList) (.obj account))
          account kp ctx).lookup ("nats".toList) =
          some (.obj ((account.set ("type".toList) (.str Types.Account)).set
            ("version".toList) (.num 2))) := by
        simp +decide [pipeClaim, Members.lookup_set]
      have hvF : ((account.set ("type".toList) (.str Types.Account)).set
          ("version".toList) (.num 2)).lookup ("version".toList) = some (.num 2) :=
        Members.lookup_set_self _ _ _
      have htF : ((account.set ("type".toList) (.str Types.Account)).set
          ("version".toList) (.num 2)).lookup ("type".toList) =
          some (.str Types.Account) := by
        simp +decide [Members.lookup_set]
      refine ⟨tok, _,
        ((account.set ("type".toList) (.str Types.Account)).set
          ("version".toList) (.num 2)),
        ?_, hdec, hnF, ?_, ?_, ?_, ?_, ?_, ?_, ?_, ?_, ?_, ?_, ?_⟩
      · rw [hsvt]
        simp only [Except.bind]
        exact henc
      · intro k hk1 hk2
        rw [Members.lookup_set, if_neg (fun he => hk2 he.symm),
          Members.lookup_set, if_neg (fun he => hk1 he.symm)]
      · simp +decide [pipeClaim, Members.lookup_set]
      · simp +decide [pipeClaim, Members.lookup_set]
      · simp +decide [pipeClaim, Members.lookup_set, initClaim_lookup]
      · simp +decide [pipeClaim, Members.lookup_set, initClaim_lookup]
      · simp +decide [pipeClaim, Members.lookup_set]
      · simp +decide [pipeClaim, Members.lookup_set]
      · simp +decide [pipeClaim, Members.lookup_set]
      · simp +decide [pipeClaim, Members.lookup_set]
      · unfold isAccount
        rw [typeOf_of_version2 hnF hvF, htF]
        simp +decide [bind, Except.bind, pure, Except.pure]
      · rw [versionJ_of_lookup hnF, hvF]
        rfl
  | v1 =>
      obtain ⟨cSVT, tok, hsvt, henc, hdec⟩ := encodePipeline W ctx .v1 Types.Account
        ((((initClaim opts.exp opts.nbf).set ("name".toList) (.str name)).set
          ("sub".toList) (.str kp.pub)).set ("nats".toList) (.obj account))
        account kp hnats hd hl (by decide) hjti hpub hS hsig hver
      have hnF : (pipeClaim .v1 Types.Account
          ((((initClaim opts.exp opts.nbf).set ("name".toList) (.str name)).set
            ("sub".toList) (.str kp.pub)).set ("nats".toList) (.obj account))
          account kp ctx).lookup ("nats".toList) = some (.obj account) := by
        simp +decide [pipeClaim, Members.lookup_set]
      have hvF : account.lookup ("version".toList) = none :=
        Members.lookup_eq_none_of_hasKey _ _ hkver
      refine ⟨tok, _, account, ?_, hdec, hnF, ?_, ?_, ?_, ?_, ?_, ?_, ?_, ?_, ?_, ?_, ?_⟩
      · rw [hsvt]
        simp only [Except.bind]
        exact henc
      · intro k hk1 hk2
        rfl
      · simp +decide [pipeClaim, Members.lookup_set]
      · simp +decide [pipeClaim, Members.lookup_set]
      · simp +decide [pipeClaim, Members.lookup_set, initClaim_lookup]
      · simp +decide [pipeClaim, Members.lookup_set, initClaim_lookup]
      · simp +decide [pipeClaim, Members.lookup_set]
      · simp +decide [pipeClaim, Members.lookup_set]
      · simp +decide [pipeClaim, Members.lookup_set]
      · simp +decide [pipeClaim, Members.lookup_set]
      · unfold isAccount
        rw [typeOf_of_version_absent hnF hvF]
        have htop : (pipeClaim .v1 Types.Account
            ((((initClaim opts.exp opts.nbf).set ("name".toList) (.str name)).set
              ("sub".toList) (.str kp.pub)).set ("nats".toList) (.obj account))
            account kp ctx).lookup ("type".toList) = some (.str Types.Account) := by
          simp +decide [pipeClaim, Members.lookup_set]
        rw [htop]
        simp +decide [bind, Except.bind, pure, Except.pure]
      · rw [versionJ_of_lookup hnF, hvF]
        rfl

theorem setNats_of_lookup {claim natsm : Members} (k : Str) (v : Json)
    (h : claim.lookup ("nats".toList) = some (.obj natsm)) :
    setNats claim k v = .ok (claim.set ("nats".toList) (.obj (natsm.set k v))) := by
  unfold setNats
  rw [h]

theorem encodeGeneric_roundtrip (W : NkeysWorld) (ctx : Ctx) (name : Str)
    (akp : Key) (kind : Str) (data : Members) (opts : EncodingOptions) (kp : KeyPair)
    (hsub : checkKey W akp (.one []) false = .ok kp)
    (hdop : data.mdedup = true)
    (hlop : data.latin1M = true)
    (hkver : data.hasKey ("version".toList) = false)
    (hklat : kind.all (fun c => c.toNat < 256) = true)
    (hk1 : kind ≠ Types.Account)
    (hk2 : kind ≠ Types.User)
    (hk3 : kind ≠ Types.Activation)
    (hname : name.all (fun c => c.toNat < 256) = true)
    (hjti : ctx.jti.all (fun c => c.toNat < 256) = true)
    (hpub : kp.pub.all (fun c => c.toNat < 256) = true)
    (hS : kp.pub.head? ≠ some 'S')
    (hsig : ∀ m, ∀ x ∈ kp.sign m, x < 256)
    (hver : ∀ m, (W.fromPublic kp.pub).verify (te m) (kp.sign (te m)) = true) :
    ∃ tok env nm,
      encodeGeneric W ctx name akp kind data opts = .ok tok ∧
      decode W tok = .ok (.obj env) ∧
      env.lookup ("nats".toList) = some (.obj nm) ∧
      (∀ k, k ≠ ("type".toList) → k ≠ ("version".toList) →
        nm.lookup k = data.lookup k) ∧
      env.lookup ("name".toList) = some (.str name) ∧
      env.lookup ("sub".toList) = some (.str kp.pub) ∧
      env.lookup ("exp".toList) = opts.exp.map Json.num ∧
      env.lookup ("nbf".toList) = opts.nbf.map Json.num ∧
      env.lookup ("aud".toList) = some (.str ("NATS".toList)) ∧
      env.lookup ("iss".toList) = some (.str kp.pub) ∧
      env.lookup ("iat".toList) = some (.num ctx.now) ∧
      env.lookup ("jti".toList) = some (.str ctx.jti) ∧
      isGeneric (.obj env) = .ok true ∧
      versionJ (.obj env) = .ok (.num (if opts.algorithm.getD .v2 = .v2 then 2 else 1)) := by
  unfold encodeGeneric
  rw [hsub]
  simp only [bind, Except.bind, pure, Except.pure]
  have hnats : ((((initClaim opts.exp opts.nbf).set ("name".toList) (.str name)).set
      ("nats".toList) (.obj data)).set ("sub".toList) (.str kp.pub)).lookup
      ("nats".toList) = some (.obj data) := by
    rw [Members.lookup_set_ne _ (by decide), Members.lookup_set_self]
  have hd : ((((initClaim opts.exp opts.nbf).set ("name".toList) (.str name)).set
      ("nats".toList) (.obj data)).set ("sub".toList) (.str kp.pub)).mdedup = true :=
    Members.mdedup_set _ _ _ (Members.mdedup_set _ _ _ (Members.mdedup_set _ _ _
      (initClaim_mdedup _ _) (by simp [Json.dedup])) (by simpa [Json.dedup] using hdop))
      (by simp [Json.dedup])
  have hl : ((((initClaim opts.exp opts.nbf).set ("name".toList) (.str name)).set
      ("nats".toList) (.obj data)).set ("sub".toList) (.str kp.pub)).latin1M = true :=
    Members.latin1M_set _ _ _ (Members.latin1M_set _ _ _ (Members.latin1M_set _ _ _
      (initClaim_latin1 _ _) (by decide) (by simpa [Json.latin1] using hname))
      (by decide) (by simpa [Json.latin1] using hlop))
      (by decide) (by simpa [Json.latin1] using hpub)
  cases halg : opts.algorithm.getD .v2 with
  | v2 =>
      obtain ⟨cSVT, tok, hsvt, henc, hdec⟩ := encodePipeline W ctx .v2 kind
        ((((initClaim opts.exp opts.nbf).set ("name".toList) (.str name)).set
          ("nats".toList) (.obj data)).set ("sub".toList) (.str kp.pub))
        data kp hnats hd hl hklat hjti hpub hS hsig hver
      have hnF : (pipeClaim .v2 kind
          ((((initClaim opts.exp opts.nbf).set ("name".toList) (.str name)).set
            ("nats".toList) (.obj data)).set ("sub".toList) (.str kp.pub))
          data kp ctx).lookup ("nats".toList) =
          some (.obj ((data.set ("type".toList) (.str kind)).set
            ("version".toList) (.num 2))) := by
        simp +decide [pipeClaim, Members.lookup_set]
      have hvF : ((data.set ("type".toList) (.str kind)).set
          ("version".toList) (.num 2)).lookup ("version".toList) = some (.num 2) :=
        Members.lookup_set_self _ _ _
      have htF : ((data.set ("type".toList) (.str kind)).set
          ("version".toList) (.num 2)).lookup ("type".toList) =
          some (.str kind) := by
        simp +decide [Members.lookup_set]
      refine ⟨tok, _,
        ((data.set ("type".toList) (.str kind)).set ("version".toList) (.num 2)),
        ?_, hdec, hnF, ?_, ?_, ?_, ?_, ?_, ?_, ?_, ?_, ?_, ?_, ?_⟩
      · rw [hsvt]
        simp only [Except.bind]
        exact henc
      · intro k hka hkb
        rw [Members.lookup_set, if_neg (fun he => hkb he.symm),
          Members.lookup_set, if_neg (fun he => hka he.symm)]
      · simp +decide [pipeClaim, Members.lookup_set]
      · simp +decide [pipeClaim, Members.lookup_set]
      · simp +decide [pipeClaim, Members.lookup_set, initClaim_lookup]
      · simp +decide [pipeClaim, Members.lookup_set, initClaim_lookup]
      · simp +decide [pipeClaim, Members.lookup_set]
      · simp +decide [pipeClaim, Members.lookup_set]
      · simp +decide [pipeClaim, Members.lookup_set]
      · simp +decide [pipeClaim, Members.lookup_set]
      · unfold isGeneric isAccount isUser isActivation
        rw [typeOf_of_version2 hnF hvF, htF]
        simp +decide [bind, Except.bind, pure, Except.pure, hk1, hk2, hk3]
      · rw [versionJ_of_lookup hnF, hvF]
        simp +decide [Json.truthy]
  | v1 =>
      obtain ⟨cSVT, tok, hsvt, henc, hdec⟩ := encodePipeline W ctx .v1 kind
        ((((initClaim opts.exp opts.nbf).set ("name".toList) (.str name)).set
          ("nats".toList) (.obj data)).set ("sub".toList) (.str kp.pub))
        data kp hnats hd hl hklat hjti hpub hS hsig hver
      have hnF : (pipeClaim .v1 kind
          ((((initClaim opts.exp opts.nbf).set ("name".toList) (.str name)).set
            ("nats".toList) (.obj data)).set ("sub".toList) (.str kp.pub))
          data kp ctx).lookup ("nats".toList) = some (.obj data) := by
        simp +decide [pipeClaim, Members.lookup_set]
      have hvF : data.lookup ("version".toList) = none :=
        Members.lookup_eq_none_of_hasKey _ _ hkver
      refine ⟨tok, _, data, ?_, hdec, hnF, ?_, ?_, ?_, ?_, ?_, ?_, ?_, ?_, ?_, ?_, ?_⟩
      · rw [hsvt]
        simp only [Except.bind]
        exact henc
      · intro k hka hkb
        rfl
      · simp +decide [pipeClaim, Members.lookup_set]
      · simp +decide [pipeClaim, Members.lookup_set]
      · simp +decide [pipeClaim, Members.lookup_set, initClaim_lookup]
      · simp +decide [pipeClaim, Members.lookup_set, initClaim_lookup]
      · simp +decide [pipeClaim, Members.lookup_set]
      · simp +decide [pipeClaim, Members.lookup_set]
      · simp +decide [pipeClaim, Members.lookup_set]
      · simp +decide [pipeClaim, Members.lookup_set]
      · unfold isGeneric isAccount isUser isActivation
        have htop : (pipeClaim .v1 kind
            ((((initClaim opts.exp opts.nbf).set ("name".toList) (.str name)).set
              ("nats".toList) (.obj data)).set ("sub".toList) (.str kp.pub))
            data kp ctx).lookup ("type".toList) = some (.str kind) := by
          simp +decide [pipeClaim, Members.lookup_set]
        rw [typeOf_of_version_absent hnF hvF, htop]
        simp +decide [bind, Except.bind, pure, Except.pure, hk1, hk2, hk3]
      · rw [versionJ_of_lookup hnF, hvF]
        rfl

theorem encodeUser_roundtrip (W : NkeysWorld) (ctx : Ctx) (name : Str)
    (ukp issuer : Key) (user : Members) (opts : UserEncodingOptions)
    (kp ukp0 : KeyPair)
    (hnone : opts.signer = none)
    (hiss : checkKey W issuer (.one ("A".toList)) true = .ok kp)
    (hukp : checkKey W ukp (.one ("U".toList)) false = .ok ukp0)
    (hdus : (if opts.scopedUser then user else defaultUser user).mdedup = true)
    (hlus : (if opts.scopedUser then user else defaultUser user).latin1M = true)
    (hkver : (if opts.scopedUser then user else defaultUser user).hasKey
      ("version".toList) = false)
    (hname : name.all (fun c => c.toNat < 256) = true)
    (hjti : ctx.jti.all (fun c => c.toNat < 256) = true)
    (hpub : kp.pub.all (fun c => c.toNat < 256) = true)
    (hpubU : ukp0.pub.all (fun c => c.toNat < 256) = true)
    (hS : kp.pub.head? ≠ some 'S')
    (hsig : ∀ m, ∀ x ∈ kp.sign m, x < 256)
    (hver : ∀ m, (W.fromPublic kp.pub).verify (te m) (kp.sign (te m)) = true) :
    ∃ tok env nm,
      encodeUser W ctx name ukp issuer user opts = .ok tok ∧
      decode W tok = .ok (.obj env) ∧
      env.lookup ("nats".toList) = some (.obj nm) ∧
      (∀ k, k ≠ ("type".toList) → k ≠ ("version".toList) →
        nm.lookup k = (if opts.scopedUser then user else defaultUser user).lookup k) ∧
      env.lookup ("name".toList) = some (.str name) ∧
      env.lookup ("sub".toList) = some (.str ukp0.pub) ∧
      env.lookup ("exp".toList) = opts.exp.map Json.num ∧
      env.lookup ("nbf".toList) = opts.nbf.map Json.num ∧
      env.lookup ("aud".toList) = some (.str ("NATS".toList)) ∧
      env.lookup ("iss".toList) = some (.str kp.pub) ∧
      env.lookup ("iat".toList) = some (.num ctx.now) ∧
      env.lookup ("jti".toList) = some (.str ctx.jti) ∧
      isUser (.obj env) = .ok true ∧
      versionJ (.obj env) = .ok (.num (if opts.algorithm.getD .v2 = .v2 then 2 else 1)) := by
  unfold encodeUser
  rw [hnone]
  simp only [Option.isNone, Option.isSome]
  rw [hiss]
  simp only [bind, Except.bind, pure, Except.pure]
  rw [hukp]
  simp only [bind, Except.bind, pure, Except.pure, Bool.false_eq_true, if_false]
  have hnats : (((((initClaim opts.exp opts.nbf).set ("name".toList) (.str name)).set
      ("sub".toList) (.str ukp0.pub)).set ("nats".toList)
        (.obj (if opts.scopedUser then user else defaultUser user))).set
      ("aud".toList) (.str ("NATS".toList))).lookup ("nats".toList) =
      some (.obj (if opts.scopedUser then user else defaultUser user)) := by
    rw [Members.lookup_set_ne _ (by decide), Members.lookup_set_self]
  have hd : (((((initClaim opts.exp opts.nbf).set ("name".toList) (.str name)).set
      ("sub".toList) (.str ukp0.pub)).set ("nats".toList)
        (.obj (if opts.scopedUser then user else defaultUser user))).set
      ("aud".toList) (.str ("NATS".toList))).mdedup = true :=
    Members.mdedup_set _ _ _ (Members.mdedup_set _ _ _ (Members.mdedup_set _ _ _
      (Members.mdedup_set _ _ _ (initClaim_mdedup _ _) (by simp [Json.dedup]))
      (by simp [Json.dedup])) (by simpa [Json.dedup] using hdus)) (by simp [Json.dedup])
  have hl : (((((initClaim opts.exp opts.nbf).set ("name".toList) (.str name)).set
      ("sub".toList) (.str ukp0.pub)).set ("nats".toList)
        (.obj (if opts.scopedUser then user else defaultUser user))).set
      ("aud".toList) (.str ("NATS".toList))).latin1M = true :=
    Members.latin1M_set _ _ _ (Members.latin1M_set _ _ _ (Members.latin1M_set _ _ _
      (Members.latin1M_set _ _ _ (initClaim_latin1 _ _) (by decide)
        (by simpa [Json.latin1] using hname))
      (by decide) (by simpa [Json.latin1] using hpubU))
      (by decide) (by simpa [Json.latin1] using hlus))
      (by decide) (by decide)
  cases halg : opts.algorithm.getD .v2 with
  | v2 =>
      obtain ⟨cSVT, tok, hsvt, henc, hdec⟩ := encodePipeline W ctx .v2 Types.User
        (((((initClaim opts.exp opts.nbf).set ("name".toList) (.str name)).set
          ("sub".toList) (.str ukp0.pub)).set ("nats".toList)
            (.obj (if opts.scopedUser then user else defaultUser user))).set
          ("aud".toList) (.str ("NATS".toList)))
        (if opts.scopedUser then user else defaultUser user)
        kp hnats hd hl (by decide) hjti hpub hS hsig hver
      have hnF : (pipeClaim .v2 Types.User
          (((((initClaim opts.exp opts.nbf).set ("name".toList) (.str name)).set
            ("sub".toList) (.str ukp0.pub)).set ("nats".toList)
              (.obj (if opts.scopedUser then user else defaultUser user))).set
            ("aud".toList) (.str ("NATS".toList)))
          (if opts.scopedUser then user else defaultUser user) kp ctx).lookup
          ("nats".toList) =
          some (.obj (((if opts.scopedUser then user else defaultUser user).set
            ("type".toList) (.str Types.User)).set ("version".toList) (.num 2))) := by
        simp +decide [pipeClaim, Members.lookup_set]
      have hvF : (((if opts.scopedUser then user else defaultUser user).set
          ("type".toList) (.str Types.User)).set ("version".toList)
            (.num 2)).lookup ("version".toList) = some (.num 2) :=
        Members.lookup_set_self _ _ _
      have htF : (((if opts.scopedUser then user else defaultUser user).set
          ("type".toList) (.str Types.User)).set ("version".toList)
            (.num 2)).lookup ("type".toList) = some (.str Types.User) := by
        simp +decide [Members.lookup_set]
      refine ⟨tok, _,
        (((if opts.scopedUser then user else defaultUser user).set
          ("type".toList) (.str Types.User)).set ("version".toList) (.num 2)),
        ?_, hdec, hnF, ?_, ?_, ?_, ?_, ?_, ?_, ?_, ?_, ?_, ?_, ?_⟩
      · rw [hsvt]
        simp only [Except.bind]
        exact henc
      · intro k hka hkb
        rw [Members.lookup_set, if_neg (fun he => hkb he.symm),
          Members.lookup_set, if_neg (fun he => hka he.symm)]
      · simp +decide [pipeClaim, Members.lookup_set]
      · simp +decide [pipeClaim, Members.lookup_set]
      · simp +decide [pipeClaim, Members.lookup_set, initClaim_lookup]
      · simp +decide [pipeClaim, Members.lookup_set, initClaim_lookup]
      · simp +decide [pipeClaim, Members.lookup_set]
      · simp +decide [pipeClaim, Members.lookup_set]
      · simp +decide [pipeClaim, Members.lookup_set]
      · simp +decide [pipeClaim, Members.lookup_set]
      · unfold isUser
        rw [typeOf_of_version2 hnF hvF, htF]
        simp +decide [bind, Except.bind, pure, Except.pure]
      · rw [versionJ_of_lookup hnF, hvF]
        simp +decide [Json.truthy]
  | v1 =>
      obtain ⟨cSVT, tok, hsvt, henc, hdec⟩ := encodePipeline W ctx .v1 Types.User
        (((((initClaim opts.exp opts.nbf).set ("name".toList) (.str name)).set
          ("sub".toList) (.str ukp0.pub)).set ("nats".toList)
            (.obj (if opts.scopedUser then user else defaultUser user))).set
          ("aud".toList) (.str ("NATS".toList)))
        (if opts.scopedUser then user else defaultUser user)
        kp hnats hd hl (by decide) hjti hpub hS hsig hver
      have hnF : (pipeClaim .v1 Types.User
          (((((initClaim opts.exp opts.nbf).set ("name".toList) (.str name)).set
            ("sub".toList) (.str ukp0.pub)).set ("nats".toList)
              (.obj (if opts.scopedUser then user else defaultUser user))).set
            ("aud".toList) (.str ("NATS".toList)))
          (if opts.scopedUser then user else defaultUser user) kp ctx).lookup
          ("nats".toList) =
          some (.obj (if opts.scopedUser then user else defaultUser user)) := by
        simp +decide [pipeClaim, Members.lookup_set]
      have hvF : (if opts.scopedUser then user else defaultUser user).lookup
          ("version".toList) = none :=
        Members.lookup_eq_none_of_hasKey _ _ hkver
      refine ⟨tok, _, (if opts.scopedUser then user else defaultUser user),
        ?_, hdec, hnF, ?_, ?_, ?_, ?_, ?_, ?_, ?_, ?_, ?_, ?_, ?_⟩
      · rw [hsvt]
        simp only [Except.bind]
        exact henc
      · intro k hka hkb
        rfl
      · simp +decide [pipeClaim, Members.lookup_set]
      · simp +decide [pipeClaim, Members.lookup_set]
      · simp +decide [pipeClaim, Members.lookup_set, initClaim_lookup]
      · simp +decide [pipeClaim, Members.lookup_set, initClaim_lookup]
      · simp +decide [pipeClaim, Members.lookup_set]
      · simp +decide [pipeClaim, Members.lookup_set]
      · simp +decide [pipeClaim, Members.lookup_set]
      · simp +decide [pipeClaim, Members.lookup_set]
      · unfold isUser
        have htop : (pipeClaim .v1 Types.User
            (((((initClaim opts.exp opts.nbf).set ("name".toList) (.str name)).set
              ("sub".toList) (.str ukp0.pub)).set ("nats".toList)
                (.obj (if opts.scopedUser then user else defaultUser user))).set
              ("aud".toList) (.str ("NATS".toList)))
            (if opts.scopedUser then user else defaultUser user) kp ctx).lookup
            ("type".toList) = some (.str Types.User) := by
          simp +decide [pipeClaim, Members.lookup_set]
        rw [typeOf_of_version_absent hnF hvF, htop]
        simp +decide [bind, Except.bind, pure, Except.pure]
      · rw [versionJ_of_lookup hnF, hvF]
        rfl

theorem encodeActivation_roundtrip (W : NkeysWorld) (ctx : Ctx) (name : Str)
    (subject issuer : Key) (kind : Str) (data : Members) (opts : EncodingOptions)
    (kp sub0 : KeyPair)
    (hnone : opts.signer = none)
    (hsubj : checkKey W subject (.one []) false = .ok sub0)
    (hissk : checkKey W issuer (.one []) true = .ok kp)
    (hdop : data.mdedup = true)
    (hlop : data.latin1M = true)
    (hkver : data.hasKey ("version".toList) = false)
    (hklat : kind.all (fun c => c.toNat < 256) = true)
    (hname : name.all (fun c => c.toNat < 256) = true)
    (hjti : ctx.jti.all (fun c => c.toNat < 256) = true)
    (hpub : kp.pub.all (fun c => c.toNat < 256) = true)
    (hpubS : sub0.pub.all (fun c => c.toNat < 256) = true)
    (hS : kp.pub.head? ≠ some 'S')
    (hsig : ∀ m, ∀ x ∈ kp.sign m, x < 256)
    (hver : ∀ m, (W.fromPublic kp.pub).verify (te m) (kp.sign (te m)) = true) :
    ∃ tok env nm,
      encodeActivation W ctx name subject issuer kind data opts = .ok tok ∧
      decode W tok = .ok (.obj env) ∧
      env.lookup ("nats".toList) = some (.obj nm) ∧
      (∀ k, k ≠ ("type".toList) → k ≠ ("version".toList) → k ≠ ("kind".toList) →
        nm.lookup k = data.lookup k) ∧
      env.lookup ("name".toList) = some (.str name) ∧
      env.lookup ("sub".toList) = some (.str sub0.pub) ∧
      env.lookup ("exp".toList) = opts.exp.map Json.num ∧
      env.lookup ("nbf".toList) = opts.nbf.map Json.num ∧
      env.lookup ("aud".toList) = some (.str ("NATS".toList)) ∧
      env.lookup ("iss".toList) = some (.str kp.pub) ∧
      env.lookup ("iat".toList) = some (.num ctx.now) ∧
      env.lookup ("jti".toList) = some (.str ctx.jti) ∧
      isActivation (.obj env) = .ok true ∧
      versionJ (.obj env) = .ok (.num (if opts.algorithm.getD .v2 = .v2 then 2 else 1)) := by
  unfold encodeActivation
  rw [hnone]
  simp only [Option.isNone, Option.isSome]
  rw [hsubj]
  simp only [bind, Except.bind, pure, Except.pure]
  rw [hissk]
  simp only [bind, Except.bind, pure, Except.pure, Bool.false_eq_true, if_false]
  have hn0 : ((((initClaim opts.exp opts.nbf).set ("name".toList) (.str name)).set
      ("sub".toList) (.str sub0.pub)).set ("nats".toList) (.obj data)).lookup
      ("nats".toList) = some (.obj data) := Members.lookup_set_self _ _ _
  cases halg : opts.algorithm.getD .v2 with
  | v2 =>
      rw [if_pos rfl, setNats_of_lookup _ _ hn0]
      simp only [bind, Except.bind, pure, Except.pure]
      have hdn : (data.set ("kind".toList) (.str kind)).mdedup = true :=
        Members.mdedup_set data _ _ hdop (by simp [Json.dedup])
      have hln : (data.set ("kind".toList) (.str kind)).latin1M = true :=
        Members.latin1M_set data _ _ hlop (by decide)
          (by simpa [Json.latin1] using hklat)
      have hnats : (((((initClaim opts.exp opts.nbf).set ("name".toList)
          (.str name)).set ("sub".toList) (.str sub0.pub)).set ("nats".toList)
            (.obj data)).set ("nats".toList)
              (.obj (data.set ("kind".toList) (.str kind)))).lookup ("nats".toList) =
          some (.obj (data.set ("kind".toList) (.str kind))) :=
        Members.lookup_set_self _ _ _
      have hd : (((((initClaim opts.exp opts.nbf).set ("name".toList)
          (.str name)).set ("sub".toList) (.str sub0.pub)).set ("nats".toList)
            (.obj data)).set ("nats".toList)
              (.obj (data.set ("kind".toList) (.str kind)))).mdedup = true :=
        Members.mdedup_set _ _ _ (Members.mdedup_set _ _ _ (Members.mdedup_set _ _ _
          (Members.mdedup_set _ _ _ (initClaim_mdedup _ _) (by simp [Json.dedup]))
          (by simp [Json.dedup])) (by simpa [Json.dedup] using hdop))
          (by simpa [Json.dedup] using hdn)
      have hl : (((((initClaim opts.exp opts.nbf).set ("name".toList)
          (.str name)).set ("sub".toList) (.str sub0.pub)).set ("nats".toList)
            (.obj data)).set ("nats".toList)
              (.obj (data.set ("kind".toList) (.str kind)))).latin1M = true :=
        Members.latin1M_set _ _ _ (Members.latin1M_set _ _ _ (Members.latin1M_set _ _ _
          (Members.latin1M_set _ _ _ (initClaim_latin1 _ _) (by decide)
            (by simpa [Json.latin1] using hname))
          (by decide) (by simpa [Json.latin1] using hpubS))
          (by decide) (by simpa [Json.latin1] using hlop))
          (by decide) (by simpa [Json.latin1] using hln)
      obtain ⟨cSVT, tok, hsvt, henc, hdec⟩ := encodePipeline W ctx .v2 Types.Activation
        (((((initClaim opts.exp opts.nbf).set ("name".toList) (.str name)).set
          ("sub".toList) (.str sub0.pub)).set ("nats".toList) (.obj data)).set
            ("nats".toList) (.obj (data.set ("kind".toList) (.str kind))))
        (data.set ("kind".toList) (.str kind))
        kp hnats hd hl (by decide) hjti hpub hS hsig hver
      have hnF : (pipeClaim .v2 Types.Activation
          (((((initClaim opts.exp opts.nbf).set ("name".toList) (.str name)).set
            ("sub".toList) (.str sub0.pub)).set ("nats".toList) (.obj data)).set
              ("nats".toList) (.obj (data.set ("kind".toList) (.str kind))))
          (data.set ("kind".toList) (.str kind)) kp ctx).lookup ("nats".toList) =
          some (.obj (((data.set ("kind".toList) (.str kind)).set
            ("type".toList) (.str Types.Activation)).set ("version".toList)
              (.num 2))) := by
        simp +decide [pipeClaim, Members.lookup_set]
      have hvF : (((data.set ("kind".toList) (.str kind)).set
          ("type".toList) (.str Types.Activation)).set ("version".toList)
            (.num 2)).lookup ("version".toList) = some (.num 2) :=
        Members.lookup_set_self _ _ _
      have htF : (((data.set ("kind".toList) (.str kind)).set
          ("type".toList) (.str Types.Activation)).set ("version".toList)
            (.num 2)).lookup ("type".toList) = some (.str Types.Activation) := by
        simp +decide [Members.lookup_set]
      refine ⟨tok, _,
        (((data.set ("kind".toList) (.str kind)).set ("type".toList)
          (.str Types.Activation)).set ("version".toList) (.num 2)),
        ?_, hdec, hnF, ?_, ?_, ?_, ?_, ?_, ?_, ?_, ?_, ?_, ?_, ?_⟩
      · rw [hsvt]
        simp only [Except.bind]
        exact henc
      · intro k hka hkb hkc
        rw [Members.lookup_set, if_neg (fun he => hkb he.symm),
          Members.lookup_set, if_neg (fun he => hka he.symm),
          Members.lookup_set, if_neg (fun he => hkc he.symm)]
      · simp +decide [pipeClaim, Members.lookup_set]
      · simp +decide [pipeClaim, Members.lookup_set]
      · simp +decide [pipeClaim, Members.lookup_set, initClaim_lookup]
      · simp +decide [pipeClaim, Members.lookup_set, initClaim_lookup]
      · simp +decide [pipeClaim, Members.lookup_set]
      · simp +decide [pipeClaim, Members.lookup_set]
      · simp +decide [pipeClaim, Members.lookup_set]
      · simp +decide [pipeClaim, Members.lookup_set]
      · unfold isActivation
        rw [typeOf_of_version2 hnF hvF, htF]
        simp +decide [bind, Except.bind, pure, Except.pure]
      · rw [versionJ_of_lookup hnF, hvF]
        simp +decide [Json.truthy]
  | v1 =>
      rw [if_neg (by decide), setNats_of_lookup _ _ hn0]
      simp only [bind, Except.bind, pure, Except.pure]
      have hdn : (data.set ("type".toList) (.str kind)).mdedup = true :=
        Members.mdedup_set data _ _ hdop (by simp [Json.dedup])
      have hln : (data.set ("type".toList) (.str kind)).latin1M = true :=
        Members.latin1M_set data _ _ hlop (by decide)
          (by simpa [Json.latin1] using hklat)
      have hnats : (((((initClaim opts.exp opts.nbf).set ("name".toList)
          (.str name)).set ("sub".toList) (.str sub0.pub)).set ("nats".toList)
            (.obj data)).set ("nats".toList)
              (.obj (data.set ("type".toList) (.str kind)))).lookup ("nats".toList) =
          some (.obj (data.set ("type".toList) (.str kind))) :=
        Members.lookup_set_self _ _ _
      have hd : (((((initClaim opts.exp opts.nbf).set ("name".toList)
          (.str name)).set ("sub".toList) (.str sub0.pub)).set ("nats".toList)
            (.obj data)).set ("nats".toList)
              (.obj (data.set ("type".toList) (.str kind)))).mdedup = true :=
        Members.mdedup_set _ _ _ (Members.mdedup_set _ _ _ (Members.mdedup_set _ _ _
          (Members.mdedup_set _ _ _ (initClaim_mdedup _ _) (by simp [Json.dedup]))
          (by simp [Json.dedup])) (by simpa [Json.dedup] using hdop))
          (by simpa [Json.dedup] using hdn)
      have hl : (((((initClaim opts.exp opts.nbf).set ("name".toList)
          (.str name)).set ("sub".toList) (.str sub0.pub)).set ("nats".toList)
            (.obj data)).set ("nats".toList)
              (.obj (data.set ("type".toList) (.str kind)))).latin1M = true :=
        Members.latin1M_set _ _ _ (Members.latin1M_set _ _ _ (Members.latin1M_set _ _ _
          (Members.latin1M_set _ _ _ (initClaim_latin1 _ _) (by decide)
            (by simpa [Json.latin1] using hname))
          (by decide) (by simpa [Json.latin1] using hpubS))
          (by decide) (by simpa [Json.latin1] using hlop))
          (by decide) (by simpa [Json.latin1] using hln)
      obtain ⟨cSVT, tok, hsvt, henc, hdec⟩ := encodePipeline W ctx .v1 Types.Activation
        (((((initClaim opts.exp opts.nbf).set ("name".toList) (.str name)).set
          ("sub".toList) (.str sub0.pub)).set ("nats".toList) (.obj data)).set
            ("nats".toList) (.obj (data.set ("type".toList) (.str kind))))
        (data.set ("type".toList) (.str kind))
        kp hnats hd hl (by decide) hjti hpub hS hsig hver
      have hnF : (pipeClaim .v1 Types.Activation
          (((((initClaim opts.exp opts.nbf).set ("name".toList) (.str name)).set
            ("sub".toList) (.str sub0.pub)).set ("nats".toList) (.obj data)).set
              ("nats".toList) (.obj (data.set ("type".toList) (.str kind))))
          (data.set ("type".toList) (.str kind)) kp ctx).lookup ("nats".toList) =
          some (.obj (data.set ("type".toList) (.str kind))) := by
        simp +decide [pipeClaim, Members.lookup_set]
      have hvF : (data.set ("type".toList) (.str kind)).lookup ("version".toList) =
          none := by
        rw [Members.lookup_set, if_neg (by decide)]
        exact Members.lookup_eq_none_of_hasKey _ _ hkver
      refine ⟨tok, _, (data.set ("type".toList) (.str kind)),
        ?_, hdec, hnF, ?_, ?_, ?_, ?_, ?_, ?_, ?_, ?_, ?_, ?_, ?_⟩
      · rw [hsvt]
        simp only [Except.bind]
        exact henc
      · intro k hka hkb hkc
        rw [Members.lookup_set, if_neg (fun he => hka he.symm)]
      · simp +decide [pipeClaim, Members.lookup_set]
      · simp +decide [pipeClaim, Members.lookup_set]
      · simp +decide [pipeClaim, Members.lookup_set, initClaim_lookup]
      · simp +decide [pipeClaim, Members.lookup_set, initClaim_lookup]
      · simp +decide [pipeClaim, Members.lookup_set]
      · simp +decide [pipeClaim, Members.lookup_set]
      · simp +decide [pipeClaim, Members.lookup_set]
      · simp +decide [pipeClaim, Members.lookup_set]
      · unfold isActivation
        have htop : (pipeClaim .v1 Types.Activation
            (((((initClaim opts.exp opts.nbf).set ("name".toList) (.str name)).set
              ("sub".toList) (.str sub0.pub)).set ("nats".toList) (.obj data)).set
                ("nats".toList) (.obj (data.set ("type".toList) (.str kind))))
            (data.set ("type".toList) (.str kind)) kp ctx).lookup ("type".toList) =
            some (.str Types.Activation) := by
          simp +decide [pipeClaim, Members.lookup_set]
        rw [typeOf_of_version_absent hnF hvF, htop]
        simp +decide [bind, Except.bind, pure, Except.pure]
      · rw [versionJ_of_lookup hnF, hvF]
        rfl

/-- C1: for every claim kind, key and well-formed payload (signer
defaulted to the subject), decoding the encoded token yields an
envelope that reproduces every caller-supplied payload field under
`nats` (apart from the positions the encoder itself writes: the v2
`type`/`version` tags and, for activations, the kind slot), carries the
caller's `name`/`sub`/`exp`/`nbf`, gains exactly the generated
`iss`/`iat`/`jti` (and the fixed `aud`), and satisfies the matching
classifier and version report.  The final conjunct records that the
`defaultUser` merge keeps every caller-supplied user field. -/
theorem C1_roundtrip_reproduces_payload :
    (∀ (W : NkeysWorld) (ctx : Ctx) (name : Str)
    (okp : Key) (operator : Members) (opts : EncodingOptions) (kp : KeyPair)
    (hnone : opts.signer = none)
    (hsub : checkKey W okp (.one ("O".toList)) true = .ok kp)
    (hdop : operator.mdedup = true)
    (hlop : operator.latin1M = true)
    (hkver : operator.hasKey ("version".toList) = false)
    (hname : name.all (fun c => c.toNat < 256) = true)
    (hjti : ctx.jti.all (fun c => c.toNat < 256) = true)
    (hpub : kp.pub.all (fun c => c.toNat < 256) = true)
    (hS : kp.pub.head? ≠ some 'S')
    (hsig : ∀ m, ∀ x ∈ kp.sign m, x < 256)
    (hver : ∀ m, (W.fromPublic kp.pub).verify (te m) (kp.sign (te m)) = true),
       ∃ tok env nm,
      encodeOperator W ctx name okp operator opts = .ok tok ∧
      decode W tok = .ok (.obj env) ∧
      env.lookup ("nats".toList) = some (.obj nm) ∧
      (∀ k, k ≠ ("type".toList) → k ≠ ("version".toList) →
        nm.lookup k = operator.lookup k) ∧
      env.lookup ("name".toList) = some (.str name) ∧
      env.lookup ("sub".toList) = some (.str kp.pub) ∧
      env.lookup ("exp".toList) = opts.exp.map Json.num ∧
      env.lookup ("nbf".toList) = opts.nbf.map Json.num ∧
      env.lookup ("aud".toList) = some (.str ("NATS".toList)) ∧
      env.lookup ("iss".toList) = some (.str kp.pub) ∧
      env.lookup ("iat".toList) = some (.num ctx.now) ∧
      env.lookup ("jti".toList) = some (.str ctx.jti) ∧
      isOperator (.obj env) = .ok true ∧
      versionJ (.obj env) = .ok (.num (if opts.algorithm.getD .v2 = .v2 then 2 else 1))) ∧
    (∀ (W : NkeysWorld) (ctx : Ctx) (name : Str)
    (akp : Key) (account : Members) (opts : EncodingOptions) (kp : KeyPair)
    (hnone : opts.signer = none)
    (hsub : checkKey W akp (.one ("A".toList)) true = .ok kp)
    (hdop : account.mdedup = true)
    (hlop : account.latin1M = true)
    (hkver : account.hasKey ("version".toList) = false)
    (hname : name.all (fun c => c.toNat < 256) = true)
    (hjti : ctx.jti.all (fun c => c.toNat < 256) = true)
    (hpub : kp.pub.all (fun c => c.toNat < 256) = true)
    (hS : kp.pub.head? ≠ some 'S')
    (hsig : ∀ m, ∀ x ∈ kp.sign m, x < 256)
    (hver : ∀ m, (W.fromPublic kp.pub).verify (te m) (kp.sign (te m)) = true),
       ∃ tok env nm,
      encodeAccount W ctx name akp account opts = .ok tok ∧
      decode W tok = .ok (.obj env) ∧
      env.lookup ("nats".toList) = some (.obj nm) ∧
      (∀ k, k ≠ ("type".toList) → k ≠ ("version".toList) →
        nm.lookup k = account.lookup k) ∧
      env.lookup ("name".toList) = some (.str name) ∧
      env.lookup ("sub".toList) = some (.str kp.pub) ∧
      env.lookup ("exp".toList) = opts.exp.map Json.num ∧
      env.lookup ("nbf".toList) = opts.nbf.map Json.num ∧
      env.lookup ("aud".toList) = some (.str ("NATS".toList)) ∧
      env.lookup ("iss".toList) = some (.str kp.pub) ∧
      env.lookup ("iat".toList) = some (.num ctx.now) ∧
      env.lookup ("jti".toList) = some (.str ctx.jti) ∧
      isAccount (.obj env) = .ok true ∧
      versionJ (.obj env) = .ok (.num (if opts.algorithm.getD .v2 = .v2 then 2 else 1))) ∧
    (∀ (W : NkeysWorld) (ctx : Ctx) (name : Str)
    (ukp issuer : Key) (user : Members) (opts : UserEncodingOptions)
    (kp ukp0 : KeyPair)
    (hnone : opts.signer = none)
    (hiss : checkKey W issuer (.one ("A".toList)) true = .ok kp)
    (hukp : checkKey W ukp (.one ("U".toList)) false = .ok ukp0)
    (hdus : (if opts.scopedUser then user else defaultUser user).mdedup = true)
    (hlus : (if opts.scopedUser then user else defaultUser user).latin1M = true)
    (hkver : (if opts.scopedUser then user else defaultUser user).hasKey
      ("version".toList) = false)
    (hname : name.all (fun c => c.toNat < 256) = true)
    (hjti : ctx.jti.all (fun c => c.toNat < 256) = true)
    (hpub : kp.pub.all (fun c => c.toNat < 256) = true)
    (hpubU : ukp0.pub.all (fun c => c.toNat < 256) = true)
    (hS : kp.pub.head? ≠ some 'S')
    (hsig : ∀ m, ∀ x ∈ kp.sign m, x < 256)
    (hver : ∀ m, (W.fromPublic kp.pub).verify (te m) (kp.sign (te m)) = true),
       ∃ tok env nm,
      encodeUser W ctx name ukp issuer user opts = .ok tok ∧
      decode W tok = .ok (.obj env) ∧
      env.lookup ("nats".toList) = some (.obj nm) ∧
      (∀ k, k ≠ ("type".toList) → k ≠ ("version".toList) →
        nm.lookup k = (if opts.scopedUser then user else defaultUser user).lookup k) ∧
      env.lookup ("name".toList) = some (.str name) ∧
      env.lookup ("sub".toList) = some (.str ukp0.pub) ∧
      env.lookup ("exp".toList) = opts.exp.map Json.num ∧
      env.lookup ("nbf".toList) = opts.nbf.map Json.num ∧
      env.lookup ("aud".toList) = some (.str ("NATS".toList)) ∧
      env.lookup ("iss".toList) = some (.str kp.pub) ∧
      env.lookup ("iat".toList) = some (.num ctx.now) ∧
      env.lookup ("jti".toList) = some (.str ctx.jti) ∧
      isUser (.obj env) = .ok true ∧
      versionJ (.obj env) = .ok (.num (if opts.algorithm.getD .v2 = .v2 then 2 else 1))) ∧
    (∀ (W : NkeysWorld) (ctx : Ctx) (name : Str)
    (subject issuer : Key) (kind : Str) (data : Members) (opts : EncodingOptions)
    (kp sub0 : KeyPair)
    (hnone : opts.signer = none)
    (hsubj : checkKey W subject (.one []) false = .ok sub0)
    (hissk : checkKey W issuer (.one []) true = .ok kp)
    (hdop : data.mdedup = true)
    (hlop : data.latin1M = true)
    (hkver : data.hasKey ("version".toList) = false)
    (hklat : kind.all (fun c => c.toNat < 256) = true)
    (hname : name.all (fun c => c.toNat < 256) = true)
    (hjti : ctx.jti.all (fun c => c.toNat < 256) = true)
    (hpub : kp.pub.all (fun c => c.toNat < 256) = true)
    (hpubS : sub0.pub.all (fun c => c.toNat < 256) = true)
    (hS : kp.pub.head? ≠ some 'S')
    (hsig : ∀ m, ∀ x ∈ kp.sign m, x < 256)
    (hver : ∀ m, (W.fromPublic kp.pub).verify (te m) (kp.sign (te m)) = true),
       ∃ tok env nm,
      encodeActivation W ctx name subject issuer kind data opts = .ok tok ∧
      decode W tok = .ok (.obj env) ∧
      env.lookup ("nats".toList) = some (.obj nm) ∧
      (∀ k, k ≠ ("type".toList) → k ≠ ("version".toList) → k ≠ ("kind".toList) →
        nm.lookup k = data.lookup k) ∧
      env.lookup ("name".toList) = some (.str name) ∧
      env.lookup ("sub".toList) = some (.str sub0.pub) ∧
      env.lookup ("exp".toList) = opts.exp.map Json.num ∧
      env.lookup ("nbf".toList) = opts.nbf.map Json.num ∧
      env.lookup ("aud".toList) = some (.str ("NATS".toList)) ∧
      env.lookup ("iss".toList) = some (.str kp.pub) ∧
      env.lookup ("iat".toList) = some (.num ctx.now) ∧
      env.lookup ("jti".toList) = some (.str ctx.jti) ∧
      isActivation (.obj env) = .ok true ∧
      versionJ (.obj env) = .ok (.num (if opts.algorithm.getD .v2 = .v2 then 2 else 1))) ∧
    (∀ (W : NkeysWorld) (ctx : Ctx) (name : Str)
    (akp : Key) (kind : Str) (data : Members) (opts : EncodingOptions) (kp : KeyPair)
    (hsub : checkKey W akp (.one []) false = .ok kp)
    (hdop : data.mdedup = true)
    (hlop : data.latin1M = true)
    (hkver : data.hasKey ("version".toList) = false)
    (hklat : kind.all (fun c => c.toNat < 256) = true)
    (hk1 : kind ≠ Types.Account)
    (hk2 : kind ≠ Types.User)
    (hk3 : kind ≠ Types.Activation)
    (hname : name.all (fun c => c.toNat < 256) = true)
    (hjti : ctx.jti.all (fun c => c.toNat < 256) = true)
    (hpub : kp.pub.all (fun c => c.toNat < 256) = true)
    (hS : kp.pub.head? ≠ some 'S')
    (hsig : ∀ m, ∀ x ∈ kp.sign m, x < 256)
    (hver : ∀ m, (W.fromPublic kp.pub).verify (te m) (kp.sign (te m)) = true),
       ∃ tok env nm,
      encodeGeneric W ctx name akp kind data opts = .ok tok ∧
      decode W tok = .ok (.obj env) ∧
      env.lookup ("nats".toList) = some (.obj nm) ∧
      (∀ k, k ≠ ("type".toList) → k ≠ ("version".toList) →
        nm.lookup k = data.lookup k) ∧
      env.lookup ("name".toList) = some (.str name) ∧
      env.lookup ("sub".toList) = some (.str kp.pub) ∧
      env.lookup ("exp".toList) = opts.exp.map Json.num ∧
      env.lookup ("nbf".toList) = opts.nbf.map Json.num ∧
      env.lookup ("aud".toList) = some (.str ("NATS".toList)) ∧
      env.lookup ("iss".toList) = some (.str kp.pub) ∧
      env.lookup ("iat".toList) = some (.num ctx.now) ∧
      env.lookup ("jti".toList) = some (.str ctx.jti) ∧
      isGeneric (.obj env) = .ok true ∧
      versionJ (.obj env) = .ok (.num (if opts.algorithm.getD .v2 = .v2 then 2 else 1))) ∧
    (∀ (d : Members) (k : Str) (v : Json),
       d.mdedup = true → d.lookup k = some v → (defaultUser d).lookup k = some v) :=
  ⟨encodeOperator_roundtrip, encodeAccount_roundtrip, encodeUser_roundtrip,
   encodeActivation_roundtrip, encodeGeneric_roundtrip,
   fun d k v hd hl => Members.lookup_assign_of_mem d _ k v hd hl⟩

/-- C1 witness: the operator round trip at a concrete toy key. -/
theorem C1_witness :
    ∃ tok env nm,
      encodeOperator toyW ⟨5, ['j']⟩ ['n'] (.str ("O1".toList)) .nil
        ⟨none, none, none, none⟩ = .ok tok ∧
      decode toyW tok = .ok (.obj env) ∧
      env.lookup ("nats".toList) = some (.obj nm) ∧
      (∀ k, k ≠ ("type".toList) → k ≠ ("version".toList) →
        nm.lookup k = Members.nil.lookup k) ∧
      env.lookup ("name".toList) = some (.str ['n']) ∧
      env.lookup ("sub".toList) = some (.str ("O1".toList)) ∧
      env.lookup ("exp".toList) = none ∧
      env.lookup ("nbf".toList) = none ∧
      env.lookup ("aud".toList) = some (.str ("NATS".toList)) ∧
      env.lookup ("iss".toList) = some (.str ("O1".toList)) ∧
      env.lookup ("iat".toList) = some (.num 5) ∧
      env.lookup ("jti".toList) = some (.str ['j']) ∧
      isOperator (.obj env) = .ok true ∧
      versionJ (.obj env) = .ok (.num 2) :=
  C1_roundtrip_reproduces_payload.1 toyW ⟨5, ['j']⟩ ['n'] (.str ("O1".toList)) .nil
    ⟨none, none, none, none⟩ (toyKP ("O1".toList)) rfl rfl (by decide) (by decide)
    (by decide) (by decide) (by decide) (by decide) (by decide)
    (fun m x hx => absurd hx (List.not_mem_nil x)) (fun m => rfl)

theorem encodeUser_delegated (W : NkeysWorld) (ctx : Ctx) (name : Str)
    (ukp issuer sk : Key) (user : Members) (opts : UserEncodingOptions)
    (sgn issuerKp ukp0 : KeyPair)
    (hsg : opts.signer = some sk)
    (hissk : checkKey W issuer (.one ("A".toList)) false = .ok issuerKp)
    (hsgk : checkKey W sk (.one ("A".toList)) true = .ok sgn)
    (hukp : checkKey W ukp (.one ("U".toList)) false = .ok ukp0)
    (hdus : (if opts.scopedUser then user else defaultUser user).mdedup = true)
    (hlus : (if opts.scopedUser then user else defaultUser user).latin1M = true)
    (hname : name.all (fun c => c.toNat < 256) = true)
    (hjti : ctx.jti.all (fun c => c.toNat < 256) = true)
    (hpub : sgn.pub.all (fun c => c.toNat < 256) = true)
    (hpubU : ukp0.pub.all (fun c => c.toNat < 256) = true)
    (hpubI : issuerKp.pub.all (fun c => c.toNat < 256) = true)
    (hS : sgn.pub.head? ≠ some 'S')
    (hsig : ∀ m, ∀ x ∈ sgn.sign m, x < 256)
    (hver : ∀ m, (W.fromPublic sgn.pub).verify (te m) (sgn.sign (te m)) = true) :
    ∃ tok env nm,
      encodeUser W ctx name ukp issuer user opts = .ok tok ∧
      decode W tok = .ok (.obj env) ∧
      env.lookup ("nats".toList) = some (.obj nm) ∧
      nm.lookup ("issuer_account".toList) = some (.str issuerKp.pub) ∧
      env.lookup ("iss".toList) = some (.str sgn.pub) ∧
      env.lookup ("sub".toList) = some (.str ukp0.pub) := by
  unfold encodeUser
  rw [hsg]
  simp only [Option.isNone, Option.isSome]
  rw [hissk]
  simp only [bind, Except.bind, pure, Except.pure]
  rw [hsgk]
  simp only [bind, Except.bind, pure, Except.pure]
  rw [hukp]
  simp only [bind, Except.bind, pure, Except.pure, Option.isSome_some, reduceIte]
  rw [setNats_of_lookup _ _ (Members.lookup_set_self _ _ _)]
  simp only [bind, Except.bind, pure, Except.pure]
  have hdn : ((if opts.scopedUser then user else defaultUser user).set
      ("issuer_account".toList) (.str issuerKp.pub)).mdedup = true :=
    Members.mdedup_set _ _ _ hdus (by simp [Json.dedup])
  have hln : ((if opts.scopedUser then user else defaultUser user).set
      ("issuer_account".toList) (.str issuerKp.pub)).latin1M = true :=
    Members.latin1M_set _ _ _ hlus (by decide) (by simpa [Json.latin1] using hpubI)
  have hnats : ((((((initClaim opts.exp opts.nbf).set ("name".toList)
      (.str name)).set ("sub".toList) (.str ukp0.pub)).set ("nats".toList)
        (.obj (if opts.scopedUser then user else defaultUser user))).set
        ("nats".toList) (.obj ((if opts.scopedUser then user else defaultUser user).set
          ("issuer_account".toList) (.str issuerKp.pub)))).set
        ("aud".toList) (.str ("NATS".toList))).lookup ("nats".toList) =
      some (.obj ((if opts.scopedUser then user else defaultUser user).set
        ("issuer_account".toList) (.str issuerKp.pub))) := by
    rw [Members.lookup_set_ne _ (by decide), Members.lookup_set_self]
  have hd : ((((((initClaim opts.exp opts.nbf).set ("name".toList)
      (.str name)).set ("sub".toList) (.str ukp0.pub)).set ("nats".toList)
        (.obj (if opts.scopedUser then user else defaultUser user))).set
        ("nats".toList) (.obj ((if opts.scopedUser then user else defaultUser user).set
          ("issuer_account".toList) (.str issuerKp.pub)))).set
        ("aud".toList) (.str ("NATS".toList))).mdedup = true :=
    Members.mdedup_set _ _ _ (Members.mdedup_set _ _ _ (Members.mdedup_set _ _ _
      (Members.mdedup_set _ _ _ (Members.mdedup_set _ _ _ (initClaim_mdedup _ _)
        (by simp [Json.dedup])) (by simp [Json.dedup]))
      (by simpa [Json.dedup] using hdus)) (by simpa [Json.dedup] using hdn))
      (by simp [Json.dedup])
  have hl : ((((((initClaim opts.exp opts.nbf).set ("name".toList)
      (.str name)).set ("sub".toList) (.str ukp0.pub)).set ("nats".toList)
        (.obj (if opts.scopedUser then user else defaultUser user))).set
        ("nats".toList) (.obj ((if opts.scopedUser then user else defaultUser user).set
          ("issuer_account".toList) (.str issuerKp.pub)))).set
        ("aud".toList) (.str ("NATS".toList))).latin1M = true :=
    Members.latin1M_set _ _ _ (Members.latin1M_set _ _ _ (Members.latin1M_set _ _ _
      (Members.latin1M_set _ _ _ (Members.latin1M_set _ _ _ (initClaim_latin1 _ _)
        (by decide) (by simpa [Json.latin1] using hname))
      (by decide) (by simpa [Json.latin1] using hpubU))
      (by decide) (by simpa [Json.latin1] using hlus))
      (by decide) (by simpa [Json.latin1] using hln))
      (by decide) (by decide)
  cases halg : opts.algorithm.getD .v2 with
  | v2 =>
      obtain ⟨cSVT, tok, hsvt, henc, hdec⟩ := encodePipeline W ctx .v2 Types.User
        (((((((initClaim opts.exp opts.nbf).set ("name".toList)
          (.str name)).set ("sub".toList) (.str ukp0.pub)).set ("nats".toList)
            (.obj (if opts.scopedUser then user else defaultUser user))).set
            ("nats".toList)
              (.obj ((if opts.scopedUser then user else defaultUser user).set
                ("issuer_account".toList) (.str issuerKp.pub)))).set
            ("aud".toList) (.str ("NATS".toList))))
        ((if opts.scopedUser then user else defaultUser user).set
          ("issuer_account".toList) (.str issuerKp.pub))
        sgn hnats hd hl (by decide) hjti hpub hS hsig hver
      refine ⟨tok, _,
        ((((if opts.scopedUser then user else defaultUser user).set
          ("issuer_account".toList) (.str issuerKp.pub)).set
            ("type".toList) (.str Types.User)).set ("version".toList) (.num 2)),
        ?_, hdec, ?_, ?_, ?_, ?_⟩
      · rw [hsvt]
        simp only [Except.bind]
        exact henc
      · simp +decide [pipeClaim, Members.lookup_set]
      · simp +decide [Members.lookup_set]
      · simp +decide [pipeClaim, Members.lookup_set]
      · simp +decide [pipeClaim, Members.lookup_set]
  | v1 =>
      obtain ⟨cSVT, tok, hsvt, henc, hdec⟩ := encodePipeline W ctx .v1 Types.User
        (((((((initClaim opts.exp opts.nbf).set ("name".toList)
          (.str name)).set ("sub".toList) (.str ukp0.pub)).set ("nats".toList)
            (.obj (if opts.scopedUser then user else defaultUser user))).set
            ("nats".toList)
              (.obj ((if opts.scopedUser then user else defaultUser user).set
                ("issuer_account".toList) (.str issuerKp.pub)))).set
            ("aud".toList) (.str ("NATS".toList))))
        ((if opts.scopedUser then user else defaultUser user).set
          ("issuer_account".toList) (.str issuerKp.pub))
        sgn hnats hd hl (by decide) hjti hpub hS hsig hver
      refine ⟨tok, _,
        ((if opts.scopedUser then user else defaultUser user).set
          ("issuer_account".toList) (.str issuerKp.pub)),
        ?_, hdec, ?_, ?_, ?_, ?_⟩
      · rw [hsvt]
        simp only [Except.bind]
        exact henc
      · simp +decide [pipeClaim, Members.lookup_set]
      · simp +decide [Members.lookup_set]
      · simp +decide [pipeClaim, Members.lookup_set]
      · simp +decide [pipeClaim, Members.lookup_set]

theorem encodeActivation_delegated (W : NkeysWorld) (ctx : Ctx) (name : Str)
    (subject issuer sk : Key) (kind : Str) (data : Members) (opts : EncodingOptions)
    (sgn issuerKp sub0 : KeyPair)
    (hsg : opts.signer = some sk)
    (hsubj : checkKey W subject (.one []) false = .ok sub0)
    (hissk : checkKey W issuer (.one []) false = .ok issuerKp)
    (hsgk : checkKey W sk (.one []) true = .ok sgn)
    (hdop : data.mdedup = true)
    (hlop : data.latin1M = true)
    (hklat : kind.all (fun c => c.toNat < 256) = true)
    (hname : name.all (fun c => c.toNat < 256) = true)
    (hjti : ctx.jti.all (fun c => c.toNat < 256) = true)
    (hpub : sgn.pub.all (fun c => c.toNat < 256) = true)
    (hpubS : sub0.pub.all (fun c => c.toNat < 256) = true)
    (hpubI : issuerKp.pub.all (fun c => c.toNat < 256) = true)
    (hS : sgn.pub.head? ≠ some 'S')
    (hsig : ∀ m, ∀ x ∈ sgn.sign m, x < 256)
    (hver : ∀ m, (W.fromPublic sgn.pub).verify (te m) (sgn.sign (te m)) = true) :
    ∃ tok env nm,
      encodeActivation W ctx name subject issuer kind data opts = .ok tok ∧
      decode W tok = .ok (.obj env) ∧
      env.lookup ("nats".toList) = some (.obj nm) ∧
      nm.lookup ("issuer_account".toList) = some (.str issuerKp.pub) ∧
      env.lookup ("iss".toList) = some (.str sgn.pub) ∧
      env.lookup ("sub".toList) = some (.str sub0.pub) := by
  unfold encodeActivation
  rw [hsg]
  simp only [Option.isNone]
  rw [hsubj]
  simp only [bind, Except.bind, pure, Except.pure]
  rw [hissk]
  simp only [bind, Except.bind, pure, Except.pure]
  rw [hsgk]
  simp only [bind, Except.bind, pure, Except.pure, Option.isSome_some, reduceIte]
  rw [setNats_of_lookup _ _ (Members.lookup_set_self _ _ _)]
  simp only [bind, Except.bind, pure, Except.pure]
  have hdn1 : (data.set ("issuer_account".toList) (.str issuerKp.pub)).mdedup = true :=
    Members.mdedup_set _ _ _ hdop (by simp [Json.dedup])
  have hln1 : (data.set ("issuer_account".toList) (.str issuerKp.pub)).latin1M = true :=
    Members.latin1M_set _ _ _ hlop (by decide) (by simpa [Json.latin1] using hpubI)
  cases halg : opts.algorithm.getD .v2 with
  | v2 =>
      rw [if_pos rfl,
        setNats_of_lookup _ _ (Members.lookup_set_self _ _ _)]
      simp only [bind, Except.bind, pure, Except.pure]
      have hdn2 : ((data.set ("issuer_account".toList) (.str issuerKp.pub)).set
          ("kind".toList) (.str kind)).mdedup = true :=
        Members.mdedup_set _ _ _ hdn1 (by simp [Json.dedup])
      have hln2 : ((data.set ("issuer_account".toList) (.str issuerKp.pub)).set
          ("kind".toList) (.str kind)).latin1M = true :=
        Members.latin1M_set _ _ _ hln1 (by decide) (by simpa [Json.latin1] using hklat)
      obtain ⟨cSVT, tok, hsvt, henc, hdec⟩ := encodePipeline W ctx .v2 Types.Activation
        ((((((initClaim opts.exp opts.nbf).set ("name".toList) (.str name)).set
          ("sub".toList) (.str sub0.pub)).set ("nats".toList) (.obj data)).set
            ("nats".toList)
              (.obj (data.set ("issuer_account".toList) (.str issuerKp.pub)))).set
            ("nats".toList)
              (.obj ((data.set ("issuer_account".toList) (.str issuerKp.pub)).set
                ("kind".toList) (.str kind))))
        ((data.set ("issuer_account".toList) (.str issuerKp.pub)).set
          ("kind".toList) (.str kind))
        sgn (Members.lookup_set_self _ _ _)
        (Members.mdedup_set _ _ _ (Members.mdedup_set _ _ _ (Members.mdedup_set _ _ _
          (Members.mdedup_set _ _ _ (Members.mdedup_set _ _ _ (initClaim_mdedup _ _)
            (by simp [Json.dedup])) (by simp [Json.dedup]))
          (by simpa [Json.dedup] using hdop)) (by simpa [Json.dedup] using hdn1))
          (by simpa [Json.dedup] using hdn2))
        (Members.latin1M_set _ _ _ (Members.latin1M_set _ _ _ (Members.latin1M_set _ _ _
          (Members.latin1M_set _ _ _ (Members.latin1M_set _ _ _ (initClaim_latin1 _ _)
            (by decide) (by simpa [Json.latin1] using hname))
          (by decide) (by simpa [Json.latin1] using hpubS))
          (by decide) (by simpa [Json.latin1] using hlop))
          (by decide) (by simpa [Json.latin1] using hln1))
          (by decide) (by simpa [Json.latin1] using hln2))
        (by decide) hjti hpub hS hsig hver
      refine ⟨tok, _,
        ((((data.set ("issuer_account".toList) (.str issuerKp.pub)).set
          ("kind".toList) (.str kind)).set ("type".toList)
            (.str Types.Activation)).set ("version".toList) (.num 2)),
        ?_, hdec, ?_, ?_, ?_, ?_⟩
      · rw [hsvt]
        simp only [Except.bind]
        exact henc
      · simp +decide [pipeClaim, Members.lookup_set]
      · simp +decide [Members.lookup_set]
      · simp +decide [pipeClaim, Members.lookup_set]
      · simp +decide [pipeClaim, Members.lookup_set]
  | v1 =>
      rw [if_neg (by decide),
        setNats_of_lookup _ _ (Members.lookup_set_self _ _ _)]
      simp only [bind, Except.bind, pure, Except.pure]
      have hdn2 : ((data.set ("issuer_account".toList) (.str issuerKp.pub)).set
          ("type".toList) (.str kind)).mdedup = true :=
        Members.mdedup_set _ _ _ hdn1 (by simp [Json.dedup])
      have hln2 : ((data.set ("issuer_account".toList) (.str issuerKp.pub)).set
          ("type".toList) (.str kind)).latin1M = true :=
        Members.latin1M_set _ _ _ hln1 (by decide) (by simpa [Json.latin1] using hklat)
      obtain ⟨cSVT, tok, hsvt, henc, hdec⟩ := encodePipeline W ctx .v1 Types.Activation
        ((((((initClaim opts.exp opts.nbf).set ("name".toList) (.str name)).set
          ("sub".toList) (.str sub0.pub)).set ("nats".toList) (.obj data)).set
            ("nats".toList)
              (.obj (data.set ("issuer_account".toList) (.str issuerKp.pub)))).set
            ("nats".toList)
              (.obj ((data.set ("issuer_account".toList) (.str issuerKp.pub)).set
                ("type".toList) (.str kind))))
        ((data.set ("issuer_account".toList) (.str issuerKp.pub)).set
          ("type".toList) (.str kind))
        sgn (Members.lookup_set_self _ _ _)
        (Members.mdedup_set _ _ _ (Members.mdedup_set _ _ _ (Members.mdedup_set _ _ _
          (Members.mdedup_set _ _ _ (Members.mdedup_set _ _ _ (initClaim_mdedup _ _)
            (by simp [Json.dedup])) (by simp [Json.dedup]))
          (by simpa [Json.dedup] using hdop)) (by simpa [Json.dedup] using hdn1))
          (by simpa [Json.dedup] using hdn2))
        (Members.latin1M_set _ _ _ (Members.latin1M_set _ _ _ (Members.latin1M_set _ _ _
          (Members.latin1M_set _ _ _ (Members.latin1M_set _ _ _ (initClaim_latin1 _ _)
            (by decide) (by simpa [Json.latin1] using hname))
          (by decide) (by simpa [Json.latin1] using hpubS))
          (by decide) (by simpa [Json.latin1] using hlop))
          (by decide) (by simpa [Json.latin1] using hln1))
          (by decide) (by simpa [Json.latin1] using hln2))
        (by decide) hjti hpub hS hsig hver
      refine ⟨tok, _,
        ((data.set ("issuer_account".toList) (.str issuerKp.pub)).set
          ("type".toList) (.str kind)),
        ?_, hdec, ?_, ?_, ?_, ?_⟩
      · rw [hsvt]
        simp only [Except.bind]
        exact henc
      · simp +decide [pipeClaim, Members.lookup_set]
      · simp +decide [Members.lookup_set]
      · simp +decide [pipeClaim, Members.lookup_set]
      · simp +decide [pipeClaim, Members.lookup_set]

/-- C7 (amended): under an explicit `options.signer`, the payload's
`issuer_account` is the resolved public key of the `issuer`
*argument* — not of the subject, whose key goes to `sub` — while the
envelope's `iss` is the delegated signer's public key; this happens in
`encodeUser` and `encodeActivation` (the only encoders that write
`issuer_account`).  The original claim that `issuer_account` holds the
subject's public key is refuted by `C7_counterexample`. -/
theorem C7_issuer_account_source :
    (∀ (W : NkeysWorld) (ctx : Ctx) (name : Str)
    (ukp issuer sk : Key) (user : Members) (opts : UserEncodingOptions)
    (sgn issuerKp ukp0 : KeyPair)
    (hsg : opts.signer = some sk)
    (hissk : checkKey W issuer (.one ("A".toList)) false = .ok issuerKp)
    (hsgk : checkKey W sk (.one ("A".toList)) true = .ok sgn)
    (hukp : checkKey W ukp (.one ("U".toList)) false = .ok ukp0)
    (hdus : (if opts.scopedUser then user else defaultUser user).mdedup = true)
    (hlus : (if opts.scopedUser then user else defaultUser user).latin1M = true)
    (hname : name.all (fun c => c.toNat < 256) = true)
    (hjti : ctx.jti.all (fun c => c.toNat < 256) = true)
    (hpub : sgn.pub.all (fun c => c.toNat < 256) = true)
    (hpubU : ukp0.pub.all (fun c => c.toNat < 256) = true)
    (hpubI : issuerKp.pub.all (fun c => c.toNat < 256) = true)
    (hS : sgn.pub.head? ≠ some 'S')
    (hsig : ∀ m, ∀ x ∈ sgn.sign m, x < 256)
    (hver : ∀ m, (W.fromPublic sgn.pub).verify (te m) (sgn.sign (te m)) = true),
       ∃ tok env nm,
      encodeUser W ctx name ukp issuer user opts = .ok tok ∧
      decode W tok = .ok (.obj env) ∧
      env.lookup ("nats".toList) = some (.obj nm) ∧
      nm.lookup ("issuer_account".toList) = some (.str issuerKp.pub) ∧
      env.lookup ("iss".toList) = some (.str sgn.pub) ∧
      env.lookup ("sub".toList) = some (.str ukp0.pub)) ∧
    (∀ (W : NkeysWorld) (ctx : Ctx) (name : Str)
    (subject issuer sk : Key) (kind : Str) (data : Members) (opts : EncodingOptions)
    (sgn issuerKp sub0 : KeyPair)
    (hsg : opts.signer = some sk)
    (hsubj : checkKey W subject (.one []) false = .ok sub0)
    (hissk : checkKey W issuer (.one []) false = .ok issuerKp)
    (hsgk : checkKey W sk (.one []) true = .ok sgn)
    (hdop : data.mdedup = true)
    (hlop : data.latin1M = true)
    (hklat : kind.all (fun c => c.toNat < 256) = true)
    (hname : name.all (fun c => c.toNat < 256) = true)
    (hjti : ctx.jti.all (fun c => c.toNat < 256) = true)
    (hpub : sgn.pub.all (fun c => c.toNat < 256) = true)
    (hpubS : sub0.pub.all (fun c => c.toNat < 256) = true)
    (hpubI : issuerKp.pub.all (fun c => c.toNat < 256) = true)
    (hS : sgn.pub.head? ≠ some 'S')
    (hsig : ∀ m, ∀ x ∈ sgn.sign m, x < 256)
    (hver : ∀ m, (W.fromPublic sgn.pub).verify (te m) (sgn.sign (te m)) = true),
       ∃ tok env nm,
      encodeActivation W ctx name subject issuer kind data opts = .ok tok ∧
      decode W tok = .ok (.obj env) ∧
      env.lookup ("nats".toList) = some (.obj nm) ∧
      nm.lookup ("issuer_account".toList) = some (.str issuerKp.pub) ∧
      env.lookup ("iss".toList) = some (.str sgn.pub) ∧
      env.lookup ("sub".toList) = some (.str sub0.pub)) :=
  ⟨encodeUser_delegated, encodeActivation_delegated⟩

set_option maxRecDepth 100000 in
/-- C7 counterexample: in a delegated user encoding with subject `U1`,
issuer `A1` and signer `A2`, the decoded payload's `issuer_account` is
`A1` (the issuer argument) while the subject's key `U1` sits in `sub`,
so `issuer_account` is not the subject's public key. -/
theorem C7_counterexample :
    ((encodeUser toyW ⟨7, ['j']⟩ ['n'] (.str ("U1".toList)) (.str ("A1".toList)) .nil
      ⟨⟨none, some (.str ("A2".toList)), none, none⟩, false⟩).bind
        (fun t => decode toyW t)).map
      (fun env => (((env.objLookup ("nats".toList)).getD .null).objLookup
        ("issuer_account".toList), env.objLookup ("sub".toList))) =
      .ok (some (.str ("A1".toList)), some (.str ("U1".toList))) ∧
    ("A1".toList : Str) ≠ ("U1".toList : Str) :=
  ⟨by decide, by decide⟩

/-- C7 witness: the amended statement applied at the same concrete
delegation. -/
theorem C7_witness :
    ∃ tok env nm,
      encodeUser toyW ⟨7, ['j']⟩ ['n'] (.str ("U1".toList)) (.str ("A1".toList)) .nil
        ⟨⟨none, some (.str ("A2".toList)), none, none⟩, false⟩ = .ok tok ∧
      decode toyW tok = .ok (.obj env) ∧
      env.lookup ("nats".toList) = some (.obj nm) ∧
      nm.lookup ("issuer_account".toList) = some (.str ("A1".toList)) ∧
      env.lookup ("iss".toList) = some (.str ("A2".toList)) ∧
      env.lookup ("sub".toList) = some (.str ("U1".toList)) :=
  C7_issuer_account_source.1 toyW ⟨7, ['j']⟩ ['n'] (.str ("U1".toList))
    (.str ("A1".toList)) (.str ("A2".toList)) .nil
    ⟨⟨none, some (.str ("A2".toList)), none, none⟩, false⟩
    (toyKP ("A2".toList)) (toyKP ("A1".toList)) (toyKP ("U1".toList))
    rfl rfl rfl rfl (by decide) (by decide) (by decide) (by decide) (by decide)
    (by decide) (by decide) (by decide)
    (fun m x hx => absurd hx (List.not_mem_nil x)) (fun m => rfl)

theorem wsOnly_space : WsOnly [' '] := by
  intro c hc
  rcases List.mem_singleton.mp hc with rfl
  decide

theorem Members.scrubM_set_iat : ∀ (ms : Members) (v : Json),
    (ms.set ("iat".toList) v).scrubM = ms.scrubM
| .nil, v => rfl
| .cons k0 v0 rest, v => by
    by_cases h : k0 = ("iat".toList)
    · rw [Members.set, if_pos h, Members.scrubM,
        if_pos (show k0 = ("iat".toList) ∨ k0 = ("jti".toList) from Or.inl h),
        Members.scrubM,
        if_pos (show k0 = ("iat".toList) ∨ k0 = ("jti".toList) from Or.inl h)]
    · rw [Members.set, if_neg h]
      by_cases hj : k0 = ("jti".toList)
      · rw [Members.scrubM,
          if_pos (show k0 = ("iat".toList) ∨ k0 = ("jti".toList) from Or.inr hj),
          Members.scrubM_set_iat rest v, Members.scrubM,
          if_pos (show k0 = ("iat".toList) ∨ k0 = ("jti".toList) from Or.inr hj)]
      · rw [Members.scrubM,
          if_neg (show ¬(k0 = ("iat".toList) ∨ k0 = ("jti".toList)) from by
            rintro (hc | hc) <;> [exact h hc; exact hj hc]),
          Members.scrubM_set_iat rest v, Members.scrubM,
          if_neg (show ¬(k0 = ("iat".toList) ∨ k0 = ("jti".toList)) from by
            rintro (hc | hc) <;> [exact h hc; exact hj hc])]

theorem Members.scrubM_set_jti : ∀ (ms : Members) (v : Json),
    (ms.set ("jti".toList) v).scrubM = ms.scrubM
| .nil, v => rfl
| .cons k0 v0 rest, v => by
    by_cases h : k0 = ("jti".toList)
    · rw [Members.set, if_pos h, Members.scrubM,
        if_pos (show k0 = ("iat".toList) ∨ k0 = ("jti".toList) from Or.inr h),
        Members.scrubM,
        if_pos (show k0 = ("iat".toList) ∨ k0 = ("jti".toList) from Or.inr h)]
    · rw [Members.set, if_neg h]
      by_cases hi : k0 = ("iat".toList)
      · rw [Members.scrubM,
          if_pos (show k0 = ("iat".toList) ∨ k0 = ("jti".toList) from Or.inl hi),
          Members.scrubM_set_jti rest v, Members.scrubM,
          if_pos (show k0 = ("iat".toList) ∨ k0 = ("jti".toList) from Or.inl hi)]
      · rw [Members.scrubM,
          if_neg (show ¬(k0 = ("iat".toList) ∨ k0 = ("jti".toList)) from by
            rintro (hc | hc) <;> [exact hi hc; exact h hc]),
          Members.scrubM_set_jti rest v, Members.scrubM,
          if_neg (show ¬(k0 = ("iat".toList) ∨ k0 = ("jti".toList)) from by
            rintro (hc | hc) <;> [exact hi hc; exact h hc])]

theorem Members.scrubM_lookup : ∀ (ms : Members) (k : Str),
    ¬(k = ("iat".toList) ∨ k = ("jti".toList)) →
    ms.scrubM.lookup k = (ms.lookup k).map Json.scrub
| .nil, k, _ => rfl
| .cons k0 v0 rest, k, hk => by
    by_cases hd : k0 = ("iat".toList) ∨ k0 = ("jti".toList)
    · by_cases h0 : k0 = k
      · subst h0
        exact absurd hd hk
      · rw [Members.scrubM, if_pos hd, Members.lookup, if_neg h0,
          Members.scrubM_lookup rest k hk]
    · rw [Members.scrubM, if_neg hd, Members.lookup, Members.lookup]
      by_cases h0 : k0 = k
      · rw [if_pos h0, if_pos h0]
        rfl
      · rw [if_neg h0, if_neg h0, Members.scrubM_lookup rest k hk]

theorem Members.set_set : ∀ (ms : Members) (k : Str) (a b : Json),
    (ms.set k a).set k b = ms.set k b
| .nil, k, a, b => by simp [Members.set]
| .cons k0 v0 rest, k, a, b => by
    by_cases h : k0 = k
    · simp [Members.set, h]
    · simp [Members.set, h, Members.set_set rest k a b]

/-- C8: `equivalent` compares the `iat`/`jti`-scrubbed serializations
of the two (import-expanded) account envelopes.  It returns `true`
exactly when the scrubbed envelopes coincide — in particular when the
envelopes differ only in `iat`/`jti`, which scrubbing removes at every
level — and `false` when any surviving member (such as an import's
`subject`, `type` or `local_subject`) differs, by injectivity of the
serialization; nested activation tokens are first replaced by the
scrubbed serialization of their decoded claims, so two nested tokens
whose claims differ only in `iat`/`jti` contribute identically. -/
theorem C8_equivalent_scrub :
    (∀ (W : NkeysWorld) (a b : Str) (ca cb ea eb : Json),
       decode W a = .ok ca → decode W b = .ok cb →
       isAccount ca = .ok true → isAccount cb = .ok true →
       expandTokens W ca = .ok ea → expandTokens W cb = .ok eb →
       ea.scrub = eb.scrub →
       equivalent W a b = .ok true) ∧
    (∀ (W : NkeysWorld) (a b : Str) (ca cb ea eb : Json),
       decode W a = .ok ca → decode W b = .ok cb →
       isAccount ca = .ok true → isAccount cb = .ok true →
       expandTokens W ca = .ok ea → expandTokens W cb = .ok eb →
       ea.scrub ≠ eb.scrub →
       (ea.scrub).dedup = true → (eb.scrub).dedup = true →
       equivalent W a b = .ok false) ∧
    (∀ (ms : Members) (v : Json), (ms.set ("iat".toList) v).scrubM = ms.scrubM) ∧
    (∀ (ms : Members) (v : Json), (ms.set ("jti".toList) v).scrubM = ms.scrubM) ∧
    (∀ (ms : Members) (k : Str), ¬(k = ("iat".toList) ∨ k = ("jti".toList)) →
       ms.scrubM.lookup k = (ms.lookup k).map Json.scrub) ∧
    (∀ (W : NkeysWorld) (ms : Members) (s1 s2 : Str) (d1 d2 : Json),
       decode W s1 = .ok d1 → decode W s2 = .ok d2 → d1.scrub = d2.scrub →
       s1 ≠ [] → s2 ≠ [] →
       expandImport W (.obj (ms.set ("token".toList) (.str s1))) =
         expandImport W (.obj (ms.set ("token".toList) (.str s2)))) := by
  refine ⟨?_, ?_, Members.scrubM_set_iat, Members.scrubM_set_jti,
    Members.scrubM_lookup, ?_⟩
  · intro W a b ca cb ea eb hda hdb haa hab hea heb hs
    unfold equivalent
    rw [hda]
    simp only [bind, Except.bind, pure, Except.pure]
    rw [haa]
    simp only [bind, Except.bind, pure, Except.pure, reduceIte]
    rw [hea]
    simp only [bind, Except.bind, pure, Except.pure]
    rw [hdb]
    simp only [bind, Except.bind, pure, Except.pure]
    rw [hab]
    simp only [bind, Except.bind, pure, Except.pure, reduceIte]
    rw [heb]
    simp only [bind, Except.bind, pure, Except.pure]
    rw [hs]
    simp
  · intro W a b ca cb ea eb hda hdb haa hab hea heb hs hd1 hd2
    unfold equivalent
    rw [hda]
    simp only [bind, Except.bind, pure, Except.pure]
    rw [haa]
    simp only [bind, Except.bind, pure, Except.pure, reduceIte]
    rw [hea]
    simp only [bind, Except.bind, pure, Except.pure]
    rw [hdb]
    simp only [bind, Except.bind, pure, Except.pure]
    rw [hab]
    simp only [bind, Except.bind, pure, Except.pure, reduceIte]
    rw [heb]
    simp only [bind, Except.bind, pure, Except.pure]
    have hne : serJson [' '] [] ea.scrub ≠ serJson [' '] [] eb.scrub :=
      fun hEq => hs (serJson_inj wsOnly_space WsOnly.nil hd1 hd2 hEq)
    simp [hne]
  · intro W ms s1 s2 d1 d2 hd1 hd2 hs hn1 hn2
    unfold expandImport
    simp only [Json.objLookup, Members.lookup_set_self, jsTruthy, Json.truthy]
    rw [if_pos (by simpa using hn1), if_pos (by simpa using hn2)]
    rw [hd1, hd2]
    simp only [bind, Except.bind, pure, Except.pure]
    rw [hs, Members.set_set, Members.set_set]

set_option maxRecDepth 1000000 in
/-- C8 witness: two concrete account tokens that differ only in their
`iat` and `jti` are judged equivalent. -/
theorem C8_witness :
    ∃ tA tB, encodeAccount toyW ⟨0, ['j']⟩ ['n'] (.str ("A1".toList)) .nil
        ⟨none, none, none, none⟩ = .ok tA ∧
      encodeAccount toyW ⟨1, ['k']⟩ ['n'] (.str ("A1".toList)) .nil
        ⟨none, none, none, none⟩ = .ok tB ∧
      equivalent toyW tA tB = .ok true := by
  refine ⟨_, _, rfl, rfl, ?_⟩
  exact C8_equivalent_scrub.1 toyW _ _ _ _ _ _ rfl rfl (by decide) (by decide)
    rfl rfl rfl
